import Mathlib

/-!
# GetLocalizedResources: dialog, menu and accelerator-text extraction

A shallow embedding of the template decoders of `DialogTextExtraction.cpp`,
`MenuTextExtraction.cpp`, of `RemoveAccelsFromText` (`UtilityFunctions.h`), of
the message-table callback of `MessageTableExtraction.cpp` and of the reading
of the command line in `wmain` (`GetLocalizedResources.cpp`).

* A wide string (`std::wstring`) is a list of UTF-16 code units, each a `Nat`.
* A resource is a list of 16-bit units (the little-endian `WORD`s of the
  resource, in order).  A `uint16_t*` cursor is the index of a unit; the byte
  offset of unit `k` is `2 * k`, and the resource starts on a 4-byte boundary.
* A read outside the resource has no defined result in the source; here it
  makes the enclosing function return `none`.
* What a decoder writes to `out` is the list of the rows it emitted, one
  `TextRecord` per row, the columns being the tab-separated fields.
-/

namespace GetLocalizedResources

/-- A `std::wstring`: the UTF-16 code units of the text. -/
abbrev WStr := List Nat

/-- The wide-string literal `L"..."` of the given (ASCII) text. -/
def L (s : String) : WStr := s.toList.map Char.toNat

/-! ## StringUtils.h helpers and `std::regex_replace` -/

/-- Left-to-right scan shared by the replace-all helpers.  `m` tells whether a
match starts at the head of the remaining text, `len` is the length of a
match, `rep` the text written in its place; the counter is the number of
units of the current match that are still to be skipped. -/
def replaceScan (m : WStr → Bool) (len : Nat) (rep : WStr) : WStr → Nat → WStr
  | [], _ => []
  | _ :: cs, k + 1 => replaceScan m len rep cs k
  | c :: cs, 0 =>
    if m (c :: cs) then rep ++ replaceScan m len rep cs (len - 1)
    else c :: replaceScan m len rep cs 0

/-- Modelled from the spec: `replaceStringAll` of `StringUtils.h`, which is not
among the sources.  Every occurrence of `pat` in `s`, found left to right and
not overlapping an earlier one, is replaced by `rep`; the replacement text is
not searched again ("replace every doubled `&&` with a placeholder", "remove
every remaining single `&`", "restore the placeholder"). -/
def replaceStringAll (s pat rep : WStr) : WStr :=
  if pat = [] then s else replaceScan (fun r => pat.isPrefixOf r) pat.length rep s 0

/-- Modelled from the spec: `escapeCrLfTab` of `StringUtils.h`, which is not
among the sources ("escape literal CR/LF/TAB in the emitted text"): a carriage
return, line feed or tab unit becomes a backslash followed by `r`, `n` or `t`;
every other unit is kept. -/
def escapeCrLfTab (s : WStr) : WStr :=
  s.flatMap fun c =>
    if c = 13 then [92, 114] else if c = 10 then [92, 110] else if c = 9 then [92, 116] else [c]

/-- The class `[A-Z0-9]` of the accelerator pattern. -/
def isAccelChar (c : Nat) : Bool := (65 ≤ c && c ≤ 90) || (48 ≤ c && c ≤ 57)

/-- Whether the regular expression `\(&[A-Z0-9]\)` matches at the head of the text. -/
def asianAccelAt : WStr → Bool
  | a :: b :: x :: d :: _ => a == 40 && b == 38 && isAccelChar x && d == 41
  | _ => false

/-- The call `std::regex_replace(sInput, regexAsianAccelerator, L"")`: every
match of `\(&[A-Z0-9]\)`, leftmost first and not overlapping, is deleted. -/
def regexReplaceAsianAccel (s : WStr) : WStr := replaceScan asianAccelAt 4 [] s 0

/-- The literal `szEscapedAmpersand = L"&&"`. -/
def szEscapedAmpersand : WStr := [38, 38]

/-- The literal `sTempReplacement`: tilde, backtick, tilde. -/
def sTempReplacement : WStr := [126, 96, 126]

/-- `RemoveAccelsFromText` (UtilityFunctions.h). -/
def RemoveAccelsFromText (sInput : WStr) : WStr :=
  let sEastAsianAccelsRemoved := regexReplaceAsianAccel sInput
  replaceStringAll
    (replaceStringAll
      (replaceStringAll sEastAsianAccelsRemoved szEscapedAmpersand sTempReplacement)
      [38] [])
    sTempReplacement szEscapedAmpersand

/-! ## Resource memory -/

/-- The 16-bit unit at index `p`, `none` outside the resource. -/
def readU16 (mem : List Nat) (p : Nat) : Option Nat := mem[p]?

/-- The little-endian `DWORD` whose low unit is at index `p`. -/
def readU32 (mem : List Nat) (p : Nat) : Option Nat :=
  match mem[p]?, mem[p + 1]? with
  | some lo, some hi => some (lo + 65536 * hi)
  | _, _ => none

/-- Number of units of a zero-terminated string at the head of the list,
terminator included; `none` when the list ends before a terminator. -/
def szLen : List Nat → Option Nat
  | [] => none
  | w :: ws => if w = 0 then some 1 else (szLen ws).map (· + 1)

/-- The units of the zero-terminated string at the head of the list, without
the terminator: the conversion `(const wchar_t*)pMem` to `std::wstring`. -/
def szText : List Nat → Option WStr
  | [] => none
  | w :: ws => if w = 0 then some [] else (szText ws).map (w :: ·)

/-- The wide string that starts at unit `p`. -/
def readSz (mem : List Nat) (p : Nat) : Option WStr := szText (mem.drop p)

/-- `Uint16AfterSz`: the cursor just past the terminator of the string at `p`. -/
def Uint16AfterSz (mem : List Nat) (p : Nat) : Option Nat :=
  (szLen (mem.drop p)).map (p + ·)

/-- `Uint16AfterSzOrOrd`: the cursor just past the `sz_Or_Ord` field at `p`. -/
def Uint16AfterSzOrOrd (mem : List Nat) (p : Nat) : Option Nat :=
  match readU16 mem p with
  | none => none
  | some w0 =>
    if w0 = 0 then some (p + 1)
    else if w0 = 65535 then some (p + 2)
    else Uint16AfterSz mem p

/-- The alignment loop `while (0 != ((unsigned long long)pMem & 0x03)) pMem++`.
The cursor moves by whole units and the resource starts on a 4-byte boundary,
so the loop body runs once when the byte offset `2 * p` is not a multiple of
4 and not at all otherwise. -/
def alignDword (p : Nat) : Nat := if (2 * p) % 4 = 0 then p else p + 1

/-! ## WindowClassName -/

/-- `BS_TYPEMASK` of WinUser.h. -/
def BS_TYPEMASK : Nat := 0x0F

/-- Decimal rendering of an unsigned value by `operator<<`. -/
def decimal (n : Nat) : WStr := (Nat.toDigits 10 n).map Char.toNat

/-- `WindowClassName`: the display name of a control from its window-class
field at `p` and its style. -/
def WindowClassName (mem : List Nat) (p : Nat) (dwStyle : Nat) : Option WStr :=
  match readU16 mem p with
  | none => none
  | some w0 =>
    if w0 = 0xFFFF then
      match readU16 mem (p + 1) with
      | none => none
      | some ord =>
        if ord = 0x80 then
          let t := dwStyle &&& BS_TYPEMASK
          -- BS_3STATE 5, BS_CHECKBOX 2, BS_AUTO3STATE 6, BS_AUTOCHECKBOX 3
          if t = 5 ∨ t = 2 ∨ t = 6 ∨ t = 3 then some (L "Checkbox")
          -- BS_RADIOBUTTON 4, BS_AUTORADIOBUTTON 9
          else if t = 4 ∨ t = 9 then some (L "Radio button")
          -- BS_GROUPBOX 7
          else if t = 7 then some (L "Group box")
          else some (L "Button")
        else if ord = 0x81 then some (L "Edit")
        else if ord = 0x82 then some (L "Static")
        else if ord = 0x83 then some (L "List box")
        else if ord = 0x84 then some (L "Scroll bar")
        else if ord = 0x85 then some (L "Combo box")
        else some (L "Ordinal " ++ decimal ord)
    else readSz mem p

/-! ## Output rows -/

/-- A resource name as passed to the callbacks: an integer id
(`IS_INTRESOURCE`) or a name string. -/
inductive ResourceName where
  | ordinal (n : Nat)
  | named (s : WStr)
  deriving DecidableEq

/-- The text `operator<<` writes for an `RSRCID_t`. -/
def RSRCID_t : ResourceName → WStr
  | .ordinal n => decimal n
  | .named s => s

/-- One row written to `out`: the tab-separated columns in order.  Dialog rows
have a fifth column (the control type), menu rows have none. -/
structure TextRecord where
  resourceId : WStr
  itemId : WStr
  cleaned : WStr
  raw : WStr
  typeLabel : Option WStr
  deriving DecidableEq

/-- What a callback leaves on the two streams: the rows on `out`, the lines on `err`. -/
structure Streams where
  out : List TextRecord
  err : List WStr
  deriving DecidableEq

/-- Decimal rendering by `operator<<` of a 32-bit value converted to `long` / `INT`. -/
def decimalSigned32 (n : Nat) : WStr :=
  if n < 2 ^ 31 then decimal n else 45 :: decimal (2 ^ 32 - n)

/-- The constant `sz_Dialog_`. -/
def sz_Dialog_ : WStr := L "[Dialog]"

/-- The constant `sz_Caption_`. -/
def sz_Caption_ : WStr := L "[Caption]"

/-- `DS_SETFONT` of WinUser.h. -/
def DS_SETFONT : Nat := 0x40

/-- `DS_SHELLFONT` of WinUser.h (`DS_SETFONT | DS_FIXEDSYS`). -/
def DS_SHELLFONT : Nat := 0x48

/-! ## Dialog templates -/

/-- `IsExtendedDialogTemplate`. -/
def IsExtendedDialogTemplate (mem : List Nat) : Option Bool :=
  match readU16 mem 0 with
  | none => none
  | some w0 =>
    if w0 ≠ 1 then some false
    else
      match readU16 mem 1 with
      | none => none
      | some w1 => if w1 ≠ 0xFFFF then some false else some true

/-- The caption row both dialog decoders write when the unit at the caption
cursor is not zero. -/
def captionRows (lpName : ResourceName) (mem : List Nat) (pMem : Nat) :
    Option (List TextRecord) :=
  match readU16 mem pMem with
  | none => none
  | some w =>
    if w ≠ 0 then
      match readSz mem pMem with
      | none => none
      | some t =>
        let sText := escapeCrLfTab t
        some [⟨RSRCID_t lpName, sz_Caption_, RemoveAccelsFromText sText, sText, some sz_Dialog_⟩]
    else some []

/-- One pass of the item loop of `ProcessStandardDialogTemplate`, entered with
the cursor at `pMem`: the rows written and the cursor at the end of the pass. -/
def standardDialogItem (lpName : ResourceName) (mem : List Nat) (pMem : Nat) :
    Option (List TextRecord × Nat) := do
  let pDlgItem := alignDword pMem
  -- `DLGITEMTEMPLATE`: style 0, dwExtendedStyle 4, x 8, y 10, cx 12, cy 14, id 16; 18 bytes
  let style ← readU32 mem pDlgItem
  let pClass := pDlgItem + 9
  let sWindowClassName ← WindowClassName mem pClass style
  let pTitle ← Uint16AfterSzOrOrd mem pClass
  let w ← readU16 mem pTitle
  let rows ←
    if w ≠ 0 ∧ w ≠ 0xFFFF then do
      let t ← readSz mem pTitle
      let sText := escapeCrLfTab t
      let id ← readU16 mem (pDlgItem + 8)
      some [(⟨RSRCID_t lpName, decimal id, RemoveAccelsFromText sText, sText,
        some sWindowClassName⟩ : TextRecord)]
    else some []
  let pExtra ← Uint16AfterSzOrOrd mem pTitle
  let cbExtra ← readU16 mem pExtra
  some (rows, pExtra + 1 + cbExtra / 2)

/-- The item loop of `ProcessStandardDialogTemplate` with `n` passes left. -/
def standardDialogItems (lpName : ResourceName) (mem : List Nat) : Nat → Nat →
    Option (List TextRecord)
  | 0, _ => some []
  | n + 1, pMem => do
    let (rows, pNext) ← standardDialogItem lpName mem pMem
    let rest ← standardDialogItems lpName mem n pNext
    some (rows ++ rest)

/-- `ProcessStandardDialogTemplate`: the rows written to `out` (nothing is
written to `err`, and `dwResourceSize` is not used). -/
def ProcessStandardDialogTemplate (lpName : ResourceName) (mem : List Nat) :
    Option (List TextRecord) := do
  -- `DLGTEMPLATE`: style 0, dwExtendedStyle 4, cdit 8, x 10, y 12, cx 14, cy 16; 18 bytes
  let nDlgItems ← readU16 mem 4
  let pClass ← Uint16AfterSzOrOrd mem 9
  let pTitle ← Uint16AfterSzOrOrd mem pClass
  let caption ← captionRows lpName mem pTitle
  let pAfterTitle ← Uint16AfterSz mem pTitle
  let style ← readU32 mem 0
  let pItems ←
    if style &&& DS_SETFONT ≠ 0 then Uint16AfterSz mem (pAfterTitle + 1)
    else some pAfterTitle
  let items ← standardDialogItems lpName mem nDlgItems pItems
  some (caption ++ items)

/-- One pass of the item loop of `ProcessExtendedDialogTemplate`. -/
def extendedDialogItem (lpName : ResourceName) (mem : List Nat) (pMem : Nat) :
    Option (List TextRecord × Nat) := do
  let pDlgItemEx1 := alignDword pMem
  -- `DLGITEMTEMPLATEEX_1`: helpID 0, exStyle 4, style 8, x 12, y 14, cx 16, cy 18,
  -- id 20, windowClass 24
  let pClass := pDlgItemEx1 + 12
  let pTitle ← Uint16AfterSzOrOrd mem pClass
  let w ← readU16 mem pTitle
  let rows ←
    if w ≠ 0 ∧ w ≠ 0xFFFF then do
      let t ← readSz mem pTitle
      let sText := escapeCrLfTab t
      let id ← readU32 mem (pDlgItemEx1 + 10)
      let style ← readU32 mem (pDlgItemEx1 + 4)
      let sWindowClassName ← WindowClassName mem pClass style
      some [(⟨RSRCID_t lpName, decimalSigned32 id, RemoveAccelsFromText sText, sText,
        some sWindowClassName⟩ : TextRecord)]
    else some []
  let pExtra ← Uint16AfterSzOrOrd mem pTitle
  let cbExtra ← readU16 mem pExtra
  some (rows, pExtra + 1 + cbExtra / 2)

/-- The item loop of `ProcessExtendedDialogTemplate` with `n` passes left. -/
def extendedDialogItems (lpName : ResourceName) (mem : List Nat) : Nat → Nat →
    Option (List TextRecord)
  | 0, _ => some []
  | n + 1, pMem => do
    let (rows, pNext) ← extendedDialogItem lpName mem pMem
    let rest ← extendedDialogItems lpName mem n pNext
    some (rows ++ rest)

/-- `ProcessExtendedDialogTemplate`: the rows written to `out`. -/
def ProcessExtendedDialogTemplate (lpName : ResourceName) (mem : List Nat) :
    Option (List TextRecord) := do
  -- `DLGTEMPLATEEX_1`: dlgVer 0, signature 2, helpID 4, exStyle 8, style 12,
  -- cDlgItems 16, x 18, y 20, cx 22, cy 24, menu 26
  let nDlgItems ← readU16 mem 8
  let pClass ← Uint16AfterSzOrOrd mem 13
  let pTitle ← Uint16AfterSzOrOrd mem pClass
  let caption ← captionRows lpName mem pTitle
  let pAfterTitle ← Uint16AfterSz mem pTitle
  let pFont := pAfterTitle + 3
  let style ← readU32 mem 6
  let pItems ←
    if style &&& (DS_SETFONT ||| DS_SHELLFONT) ≠ 0 then Uint16AfterSz mem pFont
    else some pFont
  let items ← extendedDialogItems lpName mem nDlgItems pItems
  some (caption ++ items)

/-- The body of `EnumDialogCallbackProc` once the resource is locked: the
decoder chosen by the signature test runs on the resource. -/
def EnumDialogCallbackProc (lpName : ResourceName) (mem : List Nat) :
    Option (List TextRecord) :=
  match IsExtendedDialogTemplate mem with
  | none => none
  | some true => ProcessExtendedDialogTemplate lpName mem
  | some false => ProcessStandardDialogTemplate lpName mem

/-! ## Menu templates -/

/-- `MF_POPUP` of WinUser.h. -/
def MF_POPUP : Nat := 0x10

/-- `MFT_SEPARATOR` of WinUser.h. -/
def MFT_SEPARATOR : Nat := 0x800

/-- `MFT_BITMAP` of WinUser.h. -/
def MFT_BITMAP : Nat := 0x4

/-- `IsExtendedMenuTemplate`.  The outer option is the read of the version
unit; inside, `none` is the return value `false` (not a menu template) and
`some b` the return value `true` with `bIsExtendedMenuTemplate = b`. -/
def IsExtendedMenuTemplate (mem : List Nat) : Option (Option Bool) :=
  match readU16 mem 0 with
  | none => none
  | some wVersion =>
    if wVersion = 0 then some (some false)
    else if wVersion = 1 then some (some true)
    else some none

/-- `InAddressRange` of MenuTextExtraction.cpp for the cursor at unit `p` of a
resource of `dwResourceSize` bytes: the cursor is never below the base, so
what is left is `(byte*)pMem < pBaseAddress + dwResourceSize`. -/
def InAddressRange (dwResourceSize : Nat) (p : Nat) : Bool := decide (2 * p < dwResourceSize)

/-- `RemoveTabAndAfter`: the text up to the first tab unit. -/
def RemoveTabAndAfter (sInput : WStr) : WStr := sInput.takeWhile (· ≠ 9)

/-- The rows one pass of the classic menu loop writes for the text `sText`
with the given control-id column. -/
def standardMenuRows (lpName : ResourceName) (idColumn : WStr) (sText : WStr) :
    List TextRecord :=
  if sText.length > 0 then
    let sText := RemoveTabAndAfter sText
    [⟨RSRCID_t lpName, idColumn, RemoveAccelsFromText sText, sText, none⟩]
  else []

/-- One pass of the loop of `ProcessStandardMenuTemplate`, entered with the
cursor at `pMem`: the rows written and the cursor at the end of the pass. -/
def standardMenuItem (lpName : ResourceName) (mem : List Nat) (pMem : Nat) :
    Option (List TextRecord × Nat) := do
  let wFlags ← readU16 mem pMem
  let pMem := pMem + 1
  if wFlags &&& MF_POPUP ≠ 0 then do
    let sText ← readSz mem pMem
    let pNext ← Uint16AfterSz mem pMem
    some (standardMenuRows lpName (L "n/a") sText, pNext)
  else do
    let wID ← readU16 mem pMem
    let pMem := pMem + 1
    let sText ← readSz mem pMem
    let pNext ← Uint16AfterSz mem pMem
    some (standardMenuRows lpName (decimal wID) sText, pNext)

/-- The loop of `ProcessStandardMenuTemplate`; the first argument bounds the
number of passes. -/
def standardMenuLoop (lpName : ResourceName) (mem : List Nat) (dwResourceSize : Nat) :
    Nat → Nat → Option (List TextRecord)
  | 0, _ => none
  | fuel + 1, pMem =>
    if InAddressRange dwResourceSize (pMem + 1) then do
      let (rows, pNext) ← standardMenuItem lpName mem pMem
      let rest ← standardMenuLoop lpName mem dwResourceSize fuel pNext
      some (rows ++ rest)
    else some []

/-- `ProcessStandardMenuTemplate`.  A pass moves the cursor forward by two
units or more and needs `2 * (pMem + 1) < dwResourceSize`, so the bound
`dwResourceSize + 1` on the number of passes is never reached
(`standardMenuLoop_fuel`). -/
def ProcessStandardMenuTemplate (lpName : ResourceName) (mem : List Nat)
    (dwResourceSize : Nat) : Option Streams := do
  -- `MENUHEADER`: wVersion 0, cbHeaderSize 2; 4 bytes
  let cbHeaderSize ← readU16 mem 1
  let err :=
    if cbHeaderSize ≠ 0 then [L "STANDARD CBHEADERSIZE UNEXPECTED VALUE: " ++ decimal cbHeaderSize]
    else []
  let out ← standardMenuLoop lpName mem dwResourceSize (dwResourceSize + 1) 2
  some ⟨out, err⟩

/-- The rows one pass of the extended menu loop writes for the text `sText` of
the item at `pMenuItem`. -/
def extendedMenuRows (lpName : ResourceName) (mem : List Nat) (pMenuItem : Nat)
    (sText : WStr) : Option (List TextRecord) :=
  if sText.length > 0 then
    match readU32 mem (pMenuItem + 4) with
    | none => none
    | some uId =>
      some [⟨RSRCID_t lpName, decimalSigned32 uId, RemoveAccelsFromText sText, sText, none⟩]
  else some []

/-- One pass of the loop of `ProcessExtendedMenuTemplate`. -/
def extendedMenuItem (lpName : ResourceName) (mem : List Nat) (pMem : Nat) :
    Option (List TextRecord × Nat) := do
  let pMenuItem := alignDword pMem
  -- `MENUEX_TEMPLATE_ITEM` (pack 2): dwType 0, dwState 4, uId 8, wFlags 12, szText 14
  let dwType ← readU32 mem pMenuItem
  let bNoText := dwType &&& (MFT_SEPARATOR ||| MFT_BITMAP) ≠ 0
  let wFlags ← readU16 mem (pMenuItem + 6)
  let bPopup := wFlags &&& 0x01 ≠ 0
  let pText := pMenuItem + 7
  if bNoText then some ([], pText)
  else do
    let sText ← readSz mem pText
    let rows ← extendedMenuRows lpName mem pMenuItem sText
    let pAfter ← Uint16AfterSz mem pText
    some (rows, if bPopup then pAfter + 2 else pAfter)

/-- The loop of `ProcessExtendedMenuTemplate`; the first argument bounds the
number of passes. -/
def extendedMenuLoop (lpName : ResourceName) (mem : List Nat) (dwResourceSize : Nat) :
    Nat → Nat → Option (List TextRecord)
  | 0, _ => none
  | fuel + 1, pMem =>
    if InAddressRange dwResourceSize (pMem + 1) then do
      let (rows, pNext) ← extendedMenuItem lpName mem pMem
      let rest ← extendedMenuLoop lpName mem dwResourceSize fuel pNext
      some (rows ++ rest)
    else some []

/-- `ProcessExtendedMenuTemplate`.  The bound `dwResourceSize + 1` on the number
of passes is never reached (`extendedMenuLoop_fuel`). -/
def ProcessExtendedMenuTemplate (lpName : ResourceName) (mem : List Nat)
    (dwResourceSize : Nat) : Option Streams := do
  -- `MENUEX_TEMPLATE_HEADER`: wVersion 0, wOffset 2, dwHelpId 4; 8 bytes
  let wOffset ← readU16 mem 1
  let err :=
    if wOffset ≠ 4 then [L "EXTENDED OFFSET UNEXPECTED VALUE: " ++ decimal wOffset] else []
  let out ← extendedMenuLoop lpName mem dwResourceSize (dwResourceSize + 1) 4
  some ⟨out, err⟩

/-- The body of `EnumMenuCallbackProc` once the resource is locked. -/
def EnumMenuCallbackProc (lpName : ResourceName) (mem : List Nat) (dwResourceSize : Nat) :
    Option Streams :=
  match IsExtendedMenuTemplate mem with
  | none => none
  | some none => some ⟨[], [L "INVALID MENU, WTAF"]⟩
  | some (some true) => ProcessExtendedMenuTemplate lpName mem dwResourceSize
  | some (some false) => ProcessStandardMenuTemplate lpName mem dwResourceSize

/-! ## Well-formed dialog templates and their layout

The layout the decoders are written for (Resource File Formats, DLGTEMPLATE,
DLGITEMTEMPLATE and their extended forms), used to state what the decoders
produce on a well-formed resource. -/

/-- A string-or-ordinal field. -/
inductive SzOrOrd where
  | absent
  | ordinal (n : Nat)
  | text (s : WStr)
  deriving DecidableEq

/-- The units of a string-or-ordinal field. -/
def SzOrOrd.units : SzOrOrd → List Nat
  | .absent => [0]
  | .ordinal n => [0xFFFF, n]
  | .text s => s ++ [0]

/-- A text field is a non-empty run without a NUL unit whose first unit is not 0xFFFF. -/
def SzOrOrd.WF : SzOrOrd → Prop
  | .absent => True
  | .ordinal _ => True
  | .text s => s ≠ [] ∧ 0 ∉ s ∧ s.head? ≠ some 0xFFFF

instance (f : SzOrOrd) : Decidable f.WF := by
  cases f <;> unfold SzOrOrd.WF <;> infer_instance

/-- The two units of a little-endian `DWORD`. -/
def dwordUnits (v : Nat) : List Nat := [v % 65536, v / 65536]

/-- A dialog control: the fields of `DLGITEMTEMPLATE` / `DLGITEMTEMPLATEEX`
and the units of its creation data. -/
structure DlgItem where
  helpID : Nat
  exStyle : Nat
  style : Nat
  x : Nat
  y : Nat
  cx : Nat
  cy : Nat
  id : Nat
  windowClass : SzOrOrd
  title : SzOrOrd
  extra : List Nat

/-- Well-formed control: well-formed class and title fields. -/
def DlgItem.WF (it : DlgItem) : Prop := it.windowClass.WF ∧ it.title.WF

instance (it : DlgItem) : Decidable it.WF := by
  unfold DlgItem.WF; infer_instance

/-- The units of a classic control, from its fixed header to the end of its
creation data; the count unit holds the byte length of the creation data. -/
def DlgItem.units (it : DlgItem) : List Nat :=
  dwordUnits it.style ++ dwordUnits it.exStyle ++ [it.x, it.y, it.cx, it.cy, it.id]
    ++ it.windowClass.units ++ it.title.units ++ [2 * it.extra.length] ++ it.extra

/-- The units of an extended control. -/
def DlgItem.unitsEx (it : DlgItem) : List Nat :=
  dwordUnits it.helpID ++ dwordUnits it.exStyle ++ dwordUnits it.style
    ++ [it.x, it.y, it.cx, it.cy] ++ dwordUnits it.id
    ++ it.windowClass.units ++ it.title.units ++ [2 * it.extra.length] ++ it.extra

/-- The controls laid out one after the other from unit offset `off`, each
preceded by one padding unit when it would not start on a 4-byte boundary. -/
def layoutItems (unitsOf : DlgItem → List Nat) : Nat → List DlgItem → List Nat
  | _, [] => []
  | off, it :: its =>
    let pad : List Nat := if (2 * off) % 4 = 0 then [] else [0]
    pad ++ unitsOf it ++ layoutItems unitsOf (off + pad.length + (unitsOf it).length) its

/-- A classic dialog template. -/
structure DlgTemplate where
  style : Nat
  exStyle : Nat
  x : Nat
  y : Nat
  cx : Nat
  cy : Nat
  menu : SzOrOrd
  windowClass : SzOrOrd
  caption : WStr
  pointSize : Nat
  typeface : WStr
  items : List DlgItem

/-- Well-formed template: well-formed fields, caption and typeface without a NUL unit. -/
def DlgTemplate.WF (t : DlgTemplate) : Prop :=
  t.menu.WF ∧ t.windowClass.WF ∧ 0 ∉ t.caption ∧ 0 ∉ t.typeface ∧ ∀ it ∈ t.items, it.WF

instance (t : DlgTemplate) : Decidable t.WF := by
  unfold DlgTemplate.WF; infer_instance

/-- The units before the first control of a classic template: the 18-byte
header, the menu and class fields, the caption, and the font block exactly
when style bit 0x40 is set. -/
def DlgTemplate.headUnits (t : DlgTemplate) : List Nat :=
  dwordUnits t.style ++ dwordUnits t.exStyle ++ [t.items.length, t.x, t.y, t.cx, t.cy]
    ++ t.menu.units ++ t.windowClass.units ++ (t.caption ++ [0])
    ++ (if t.style &&& 0x40 ≠ 0 then [t.pointSize] ++ (t.typeface ++ [0]) else [])

/-- The units of a classic dialog template. -/
def DlgTemplate.units (t : DlgTemplate) : List Nat :=
  t.headUnits ++ layoutItems DlgItem.units t.headUnits.length t.items

/-- The row expected for the caption of a template. -/
def captionRowOf (lpName : ResourceName) (caption : WStr) : List TextRecord :=
  if caption ≠ [] then
    [⟨RSRCID_t lpName, sz_Caption_, RemoveAccelsFromText (escapeCrLfTab caption),
      escapeCrLfTab caption, some sz_Dialog_⟩]
  else []

/-- The row expected for a control, given the rendering of its id: one row
when the title is a text, none when it is absent or an ordinal. -/
def itemRowOf (lpName : ResourceName) (idColumn : WStr) (it : DlgItem) : List TextRecord :=
  match it.title with
  | .text s =>
    [⟨RSRCID_t lpName, idColumn, RemoveAccelsFromText (escapeCrLfTab s), escapeCrLfTab s,
      WindowClassName it.windowClass.units 0 it.style⟩]
  | _ => []

/-- A push button with the title "&OK", used to run the decoders on a concrete control. -/
def sampleButton : DlgItem :=
  { helpID := 0, exStyle := 0, style := 0x50010001, x := 7, y := 40, cx := 50, cy := 14, id := 1,
    windowClass := .ordinal 0x80, title := .text (L "&OK"), extra := [] }

/-- A static icon control: its title is an ordinal, not a text. -/
def sampleIcon : DlgItem :=
  { helpID := 0, exStyle := 0, style := 0x50000003, x := 7, y := 7, cx := 20, cy := 20,
    id := 0xFFFF, windowClass := .ordinal 0x82, title := .ordinal 101, extra := [] }

/-- A classic dialog with a caption, a font block and the two sample controls. -/
def sampleDialog : DlgTemplate :=
  { style := 0x80C800C0, exStyle := 0, x := 0, y := 0, cx := 186, cy := 95,
    menu := .absent, windowClass := .absent, caption := L "Hi", pointSize := 8,
    typeface := L "MS Shell Dlg", items := [sampleIcon, sampleButton] }

/-- The loop `while (0 != ((unsigned long long)pMem & 0x03)) pMem++` of the
three item loops, on the machine address of the `uint16_t*` cursor; the
first argument bounds the number of increments. -/
def alignLoop : Nat → Nat → Nat
  | 0, addr => addr
  | fuel + 1, addr => if addr &&& 0x03 ≠ 0 then alignLoop fuel (addr + 2) else addr

/-! ## Menu templates as item lists

The layouts the menu decoders are written for, used to state what the
decoders produce on the units of a list of items. -/

/-- An item of a classic menu template: the flags unit, the id (present in the
template unless the popup bit 0x0010 of the flags is set) and the text. -/
structure MenuItem where
  flags : Nat
  id : Nat
  text : WStr

/-- The units of a classic menu item. -/
def MenuItem.units (it : MenuItem) : List Nat :=
  if it.flags &&& 0x10 ≠ 0 then [it.flags] ++ (it.text ++ [0])
  else [it.flags, it.id] ++ (it.text ++ [0])

/-- The units of a list of classic menu items, one after the other. -/
def classicMenuUnits (its : List MenuItem) : List Nat := its.flatMap MenuItem.units

/-- The row expected for a classic menu item whose text has no TAB: none for
an empty text, else the id column ("n/a" for a popup), the stripped text and
the text. -/
def menuRowOf (lpName : ResourceName) (it : MenuItem) : List TextRecord :=
  if it.text ≠ [] then
    [⟨RSRCID_t lpName, if it.flags &&& 0x10 ≠ 0 then L "n/a" else decimal it.id,
      RemoveAccelsFromText it.text, it.text, none⟩]
  else []

/-- An item of an extended menu template.  The text, and after it the help
id of the submenu header when flags bit 0 is set, are in the template only
when the type has neither the separator (0x800) nor the bitmap (0x4) bit. -/
structure MenuExItem where
  dwType : Nat
  dwState : Nat
  uId : Nat
  wFlags : Nat
  text : WStr
  dwHelpId : Nat

/-- Whether the type of the item has the separator or the bitmap bit. -/
def MenuExItem.noText (it : MenuExItem) : Prop :=
  it.dwType &&& 0x800 ≠ 0 ∨ it.dwType &&& 0x4 ≠ 0

instance (it : MenuExItem) : Decidable it.noText := by
  unfold MenuExItem.noText; infer_instance

/-- The units of an extended menu item from its fixed header on. -/
def MenuExItem.units (it : MenuExItem) : List Nat :=
  dwordUnits it.dwType ++ dwordUnits it.dwState ++ dwordUnits it.uId ++ [it.wFlags]
    ++ (if it.noText then []
        else it.text ++ [0] ++ (if it.wFlags &&& 0x01 ≠ 0 then dwordUnits it.dwHelpId else []))

/-- The items of an extended menu laid out one after the other from unit
offset `off`, each preceded by one padding unit when it would not start on a
4-byte boundary. -/
def layoutMenuEx : Nat → List MenuExItem → List Nat
  | _, [] => []
  | off, it :: its =>
    let pad : List Nat := if (2 * off) % 4 = 0 then [] else [0]
    pad ++ it.units ++ layoutMenuEx (off + pad.length + it.units.length) its

/-- The row expected for an extended menu item: none when the type has the
separator or bitmap bit or the text is empty, else the id, the stripped text
and the text. -/
def menuExRowOf (lpName : ResourceName) (it : MenuExItem) : List TextRecord :=
  if it.noText then []
  else if it.text ≠ [] then
    [⟨RSRCID_t lpName, decimalSigned32 it.uId, RemoveAccelsFromText it.text, it.text, none⟩]
  else []

/-! ## Message tables

`MessageTableExtraction.cpp` walks a message table by byte offsets, so here
the resource is the list of its bytes and a pointer is a byte offset from the
resource start.  A read outside the list makes the enclosing function return
`none`. -/

namespace MessageTable

/-- The byte at offset `p`. -/
def readByte (mem : List Nat) (p : Nat) : Option Nat := mem[p]?

/-- The little-endian `WORD` at byte offset `p`. -/
def readLE16 (mem : List Nat) (p : Nat) : Option Nat :=
  match mem[p]?, mem[p + 1]? with
  | some lo, some hi => some (lo + 256 * hi)
  | _, _ => none

/-- The little-endian `DWORD` at byte offset `p`. -/
def readLE32 (mem : List Nat) (p : Nat) : Option Nat :=
  match readLE16 mem p, readLE16 mem (p + 2) with
  | some lo, some hi => some (lo + 65536 * hi)
  | _, _ => none

/-- `InAddressRange` of MessageTableExtraction.cpp for the pointer at byte
offset `p`: `pMem < (byte*)pvBaseAddress + dwResourceSize` (the pointer is never
below the base). -/
def InAddressRange (dwResourceSize : Nat) (p : Nat) : Bool := decide (p < dwResourceSize)

/-- `MESSAGE_RESOURCE_UNICODE` of winnt.h. -/
def MESSAGE_RESOURCE_UNICODE : Nat := 0x0001

/-- `MESSAGE_RESOURCE_UTF8` of winnt.h. -/
def MESSAGE_RESOURCE_UTF8 : Nat := 0x0002

/-- `pEntry->Length - 2 * sizeof(WORD)`: the subtraction is done in `size_t`,
64 bits wide, so for a length below 4 it wraps to `2 ^ 64 + length - 4`; this
is `(length + 2 ^ 64 - 4) % 2 ^ 64` (`payloadBytes_mod`). -/
def payloadBytes (length : Nat) : Nat :=
  if 4 ≤ length then length - 4 else 2 ^ 64 + length - 4

/-- The loop `while (nChars > 0 && 0 == szText[nChars - 1]) nChars--`, `read i`
being the element `szText[i]`: the count left. -/
def trimTrailingNul (read : Nat → Option Nat) : Nat → Option Nat
  | 0 => some 0
  | n + 1 =>
    match read n with
    | none => none
    | some c => if c = 0 then trimTrailingNul read n else some (n + 1)

/-- The `n` wide characters from byte offset `p`: `std::wstring(szText, n)`. -/
def readWideString (mem : List Nat) : Nat → Nat → Option WStr
  | _, 0 => some []
  | p, n + 1 =>
    match readLE16 mem p with
    | none => none
    | some c => (readWideString mem (p + 2) n).map (c :: ·)

/-- The `n` bytes from byte offset `p`: `std::string(szText, n)`. -/
def readByteString (mem : List Nat) : Nat → Nat → Option (List Nat)
  | _, 0 => some []
  | p, n + 1 =>
    match readByte mem p with
    | none => none
    | some c => (readByteString mem (p + 1) n).map (c :: ·)

/-- The text column of an entry, or the exception thrown while it is built:
`std::range_error` by `from_bytes`, `std::length_error` or `std::bad_alloc` by
the constructor of the string. -/
inductive Converted where
  | wide (s : WStr)
  | rangeError
  | lengthError
  | badAlloc
  deriving DecidableEq

/-- Whether a byte is a UTF-8 continuation byte `10xxxxxx`. -/
def isContinuation (b : Nat) : Bool := 0x80 ≤ b && b < 0xC0

/-- The code points of a UTF-8 byte sequence; `none` when the bytes are not UTF-8
(a continuation byte where a sequence starts, a sequence cut short, a lead
byte 0xF8 or above). -/
def utf8CodePoints : List Nat → Option (List Nat)
  | [] => some []
  | b :: rest =>
    if b < 0x80 then (utf8CodePoints rest).map (b :: ·)
    else if b < 0xC0 then none
    else if b < 0xE0 then
      match rest with
      | c1 :: r =>
        if isContinuation c1 then
          (utf8CodePoints r).map (((b % 0x20) * 0x40 + c1 % 0x40) :: ·)
        else none
      | _ => none
    else if b < 0xF0 then
      match rest with
      | c1 :: c2 :: r =>
        if isContinuation c1 && isContinuation c2 then
          (utf8CodePoints r).map ((((b % 0x10) * 0x40 + c1 % 0x40) * 0x40 + c2 % 0x40) :: ·)
        else none
      | _ => none
    else if b < 0xF8 then
      match rest with
      | c1 :: c2 :: c3 :: r =>
        if isContinuation c1 && isContinuation c2 && isContinuation c3 then
          (utf8CodePoints r).map
            (((((b % 0x08) * 0x40 + c1 % 0x40) * 0x40 + c2 % 0x40) * 0x40 + c3 % 0x40) :: ·)
        else none
      | _ => none
    else none

/-- The UTF-16 units of a list of code points; `none` above U+10FFFF. -/
def utf16Units : List Nat → Option WStr
  | [] => some []
  | cp :: rest =>
    if cp < 0x10000 then (utf16Units rest).map (cp :: ·)
    else if cp < 0x110000 then
      (utf16Units rest).map
        (fun r => (0xD800 + (cp - 0x10000) / 0x400) :: (0xDC00 + (cp - 0x10000) % 0x400) :: r)
    else none

/-- The call `std::wstring_convert<std::codecvt_utf8_utf16<wchar_t>>().from_bytes(str)`:
the bytes are read as UTF-8 and written as UTF-16; `std::range_error` is thrown
when they are not UTF-8. -/
def from_bytes (str : List Nat) : Converted :=
  match (utf8CodePoints str).bind utf16Units with
  | some s => .wide s
  | none => .rangeError

/-- Modelled from the spec: `HEX` of HEX.h, which is not among the sources
("emit both decimal and hexadecimal forms", "a placeholder marker naming the
unexpected flags value"): the hexadecimal digits of `value`, padded with zeros
on the left to `width` digits, in upper case when `upper`, after "0x" when
`with0x`. -/
def HEX (value width : Nat) (upper with0x : Bool) : WStr :=
  let digits := (Nat.toDigits 16 value).map fun c => (if upper then c.toUpper else c).toNat
  (if with0x then L "0x" else []) ++ List.replicate (width - digits.length) 48 ++ digits

/-- Pointer arithmetic is done modulo `2 ^ 64`: the offset from the resource
start that an offset `x` below `2 ^ 65` stands for. -/
def wrap64 (x : Nat) : Nat := if x < 2 ^ 64 then x else x - 2 ^ 64

/-- The byte at the address `x` bytes after the resource start, the address
being computed modulo `2 ^ 64`.  A resource takes fewer than `2 ^ 64` bytes, so
an offset inside the resource is the offset of the byte, and an offset of
`2 ^ 64` or more stands for `x - 2 ^ 64`. -/
def readByteAt (mem : List Nat) (x : Nat) : Option Nat :=
  match readByte mem x with
  | some b => some b
  | none => readByte mem (wrap64 x)

/-- The little-endian `WORD` at the address `x` bytes after the resource start,
the address being computed modulo `2 ^ 64`. -/
def readLE16At (mem : List Nat) (x : Nat) : Option Nat :=
  match readLE16 mem x with
  | some w => some w
  | none => readLE16 mem (wrap64 x)

/-- The result of the constructor `std::basic_string(szText, nChars)`: the
string, or the exception it throws. -/
inductive Built where
  | str (s : List Nat)
  | lengthError
  | badAlloc
  deriving DecidableEq

/-- `max_size()` of `std::string` in a 64-bit build. -/
def stringMaxSize : Nat := 2 ^ 63 - 1

/-- `max_size()` of `std::wstring` in a 64-bit build. -/
def wstringMaxSize : Nat := 2 ^ 63 - 2

/-- `std::string str(szText, nChars)` for `szText` at byte offset `p`: the
`nChars` bytes from `p` when they all lie in the resource; when they do not,
`std::length_error` for a count above `max_size()`, and no defined result for
a smaller count (bytes outside the resource are copied).  A count above
`max_size()` is above the size of any resource, so when the constructor throws
the bytes do not all lie in the resource. -/
def stdString (mem : List Nat) (p nChars : Nat) : Option Built :=
  match readByteString mem p nChars with
  | some s => some (.str s)
  | none => if stringMaxSize < nChars then some .lengthError else none

/-- `std::wstring str(szText, nChars)` for `szText` at byte offset `p`: the
`nChars` characters from `p` when they all lie in the resource; when they do
not, `std::length_error` for a count above `max_size()`, `std::bad_alloc` for
a smaller count that asks for `2 ^ 63` bytes or more, which no allocation
serves, and no defined result otherwise. -/
def stdWstring (mem : List Nat) (p nChars : Nat) : Option Built :=
  match readWideString mem p nChars with
  | some s => some (.str s)
  | none =>
    if wstringMaxSize < nChars then some .lengthError
    else if 2 ^ 63 ≤ 2 * nChars then some .badAlloc
    else none

/-- The text column from the string built, `f` being what the branch does with
the string; an exception of the constructor is passed on. -/
def Built.text (f : List Nat → Converted) : Built → Converted
  | .str s => f s
  | .lengthError => .lengthError
  | .badAlloc => .badAlloc

/-- The wide string `str` built in the Unicode branch, before it is escaped.
The count `nChars` and the address of `szText[nChars - 1]` are computed modulo
`2 ^ 64`. -/
def unicodeEntryString (mem : List Nat) (pEntry : Nat) : Option Built := do
  -- `MESSAGE_RESOURCE_ENTRY`: Length 0, Flags 2, Text 4
  let length ← readLE16 mem pEntry
  let nChars ← trimTrailingNul (fun i => readLE16At mem (pEntry + 4 + 2 * i))
    (payloadBytes length / 2)
  stdWstring mem (pEntry + 4) nChars

/-- The narrow string `str` built in the branch of flags 0, before it is
escaped.  The count `nChars` and the address of `szText[nChars - 1]` are
computed modulo `2 ^ 64`. -/
def ansiEntryString (mem : List Nat) (pEntry : Nat) : Option Built := do
  let length ← readLE16 mem pEntry
  let nChars ← trimTrailingNul (fun i => readByteAt mem (pEntry + 4 + i)) (payloadBytes length)
  stdString mem (pEntry + 4) nChars

/-- The text column written for the entry at `pEntry`, or the exception thrown
while it is built. -/
def entryText (mem : List Nat) (pEntry : Nat) : Option Converted :=
  match readLE16 mem (pEntry + 2) with
  | none => none
  | some flags =>
    if flags &&& MESSAGE_RESOURCE_UNICODE ≠ 0 then
      (unicodeEntryString mem pEntry).map (Built.text fun str => .wide (escapeCrLfTab str))
    else if flags &&& MESSAGE_RESOURCE_UTF8 ≠ 0 then
      some (.wide (L "[[[UTF-8 text (not supported)]]]"))
    else if flags = 0 then
      (ansiEntryString mem pEntry).map (Built.text fun str => from_bytes (escapeCrLfTab str))
    else
      some (.wide (L "[[[Unexpected flags value " ++ HEX flags 4 false true ++ L "]]]"))

/-- One row written to `out`: the id `ixEntry`, which fills the first column in
decimal and the second through `HEX(ixEntry, 8, true, true)`, and the text. -/
structure MessageRow where
  id : Nat
  text : WStr
  deriving DecidableEq

/-- How the loop over the ids of a block ends: the id passed `HighId`; the
entry pointer was out of range; an exception was thrown after the id columns
of `id` were written; or the bound on the passes was reached. -/
inductive LoopEnd where
  | done
  | outOfRange
  | threw (id : Nat)
  | unfinished
  deriving DecidableEq

/-- The loop `for (DWORD ixEntry = block.LowId; ixEntry <= block.HighId; ++ixEntry)`
entered with `ixEntry` and the entry pointer `pEntry`; the first argument
bounds the number of passes.  The increment of the `DWORD` wraps. -/
def entriesLoop (mem : List Nat) (dwResourceSize highId : Nat) :
    Nat → Nat → Nat → Option (List MessageRow × LoopEnd)
  | 0, _, _ => some ([], .unfinished)
  | fuel + 1, ixEntry, pEntry =>
    if ixEntry ≤ highId then
      if InAddressRange dwResourceSize pEntry then
        match entryText mem pEntry with
        | none => none
        | some .rangeError => some ([], .threw ixEntry)
        | some .lengthError => some ([], .threw ixEntry)
        | some .badAlloc => some ([], .threw ixEntry)
        | some (.wide text) =>
          match readLE16 mem pEntry with
          | none => none
          | some length =>
            match entriesLoop mem dwResourceSize highId fuel ((ixEntry + 1) % 2 ^ 32)
                (pEntry + length) with
            | none => none
            | some (rows, e) => some (⟨ixEntry, text⟩ :: rows, e)
      else some ([], .outOfRange)
    else some ([], .done)

/-- How the callback ends: it returned `TRUE` or `FALSE`; an exception left
it; or a bound on the passes of a loop was reached. -/
inductive CallbackEnd where
  | returned (b : Bool)
  | threw (id : Nat)
  | unfinished
  deriving DecidableEq

/-- What a run of the callback leaves: the rows on `out`, the lines on `err`,
and how it ended. -/
structure MessageRun where
  rows : List MessageRow
  err : List WStr
  ending : CallbackEnd
  deriving DecidableEq

/-- The loop `for (DWORD ixBlock = 0; ixBlock < pData->NumberOfBlocks; ++ixBlock)`
with `n` blocks left, at block `ixBlock`; `fuel` bounds the passes of the
loop over the ids of each block. -/
def blocksLoop (mem : List Nat) (dwResourceSize fuel : Nat) : Nat → Nat → Option MessageRun
  | 0, _ => some ⟨[], [], .returned true⟩
  | n + 1, ixBlock =>
    -- `MESSAGE_RESOURCE_DATA`: NumberOfBlocks 0, Blocks 4;
    -- `MESSAGE_RESOURCE_BLOCK`: LowId 0, HighId 4, OffsetToEntries 8; 12 bytes
    match readLE32 mem (4 + 12 * ixBlock + 8), readLE32 mem (4 + 12 * ixBlock),
        readLE32 mem (4 + 12 * ixBlock + 4) with
    | some offsetToEntries, some lowId, some highId =>
      match entriesLoop mem dwResourceSize highId fuel lowId offsetToEntries with
      | none => none
      | some (rows, .done) =>
        (blocksLoop mem dwResourceSize fuel n (ixBlock + 1)).map fun r =>
          { r with rows := rows ++ r.rows }
      | some (rows, .outOfRange) => some ⟨rows, [L "Error: address out of range"], .returned false⟩
      | some (rows, .threw id) => some ⟨rows, [], .threw id⟩
      | some (rows, .unfinished) => some ⟨rows, [], .unfinished⟩
    | _, _, _ => none

/-- The body of `EnumMessageTableCallbackProc` once the resource is locked;
`fuel` bounds the passes of the loop over the ids of each block. -/
def EnumMessageTableCallbackProc (mem : List Nat) (dwResourceSize fuel : Nat) :
    Option MessageRun :=
  match readLE32 mem 0 with
  | none => none
  | some numberOfBlocks => blocksLoop mem dwResourceSize fuel numberOfBlocks 0

/-- The bytes of a little-endian `WORD`. -/
def le16 (v : Nat) : List Nat := [v % 256, v / 256]

/-- The bytes of a little-endian `DWORD`. -/
def le32 (v : Nat) : List Nat := le16 (v % 65536) ++ le16 (v / 65536)

end MessageTable

/-- An extended dialog with the caption "Hi", the font block (point size,
weight, italic and charset, typeface "MS") and the sample push button. -/
def sampleDialogEx : List Nat :=
  [1, 0xFFFF, 0, 0, 0, 0, 0x00C8, 0x80C8, 1, 0, 0, 186, 95, 0, 0] ++ L "Hi"
    ++ [0, 8, 400, 0x0100] ++ L "MS" ++ [0] ++ sampleButton.unitsEx

/-- A classic dialog without caption and font block whose first control, a
static "A" with id 100, has `cbExtra` in its creation-data count unit, one
unit holding a byte of creation data and one unit of padding; the second
control is the sample push button, and two zero units follow the template. -/
def sampleExtraDialog (cbExtra : Nat) : List Nat :=
  [0, 0x80C8, 0, 0, 2, 0, 0, 186, 95, 0, 0, 0]
    ++ ([0, 0x5000, 0, 0, 7, 7, 50, 14, 100, 0xFFFF, 0x82] ++ L "A" ++ [0, cbExtra, 0x00AB, 0])
    ++ sampleButton.units ++ [0, 0]

namespace MessageTable

/-- The entries `es`, each given by its text column and its total length, are
packed from byte offset `p`: each starts inside the declared length, is
decoded to its text, and is followed at its total length by the next. -/
def packedAt (mem : List Nat) (dwResourceSize : Nat) : Nat → List (WStr × Nat) → Prop
  | _, [] => True
  | p, e :: es =>
    InAddressRange dwResourceSize p = true ∧ entryText mem p = some (.wide e.1) ∧
      readLE16 mem p = some e.2 ∧ packedAt mem dwResourceSize (p + e.2) es

/-- The rows of the entries `es` under the consecutive ids from `ixEntry` on. -/
def rowsOf : Nat → List (WStr × Nat) → List MessageRow
  | _, [] => []
  | ixEntry, e :: es => ⟨ixEntry, e.1⟩ :: rowsOf (ixEntry + 1) es

/-- A table of one block with `LowId = 0`, `HighId = 0xFFFFFFFF` and the entries
at offset 16, where an entry of total length 0 and flags 2 stands. -/
def endlessTable : List Nat :=
  le32 1 ++ (le32 0 ++ le32 0xFFFFFFFF ++ le32 16) ++ (le16 0 ++ le16 2)

end MessageTable

/-- A text in which every `&` stands in a pair: a sequence of units other than
`&` and of pairs `&&`. -/
inductive AmpersandsPaired : WStr → Prop where
  | nil : AmpersandsPaired []
  | char (c : Nat) (s : WStr) (hc : c ≠ 38) (hs : AmpersandsPaired s) : AmpersandsPaired (c :: s)
  | pair (s : WStr) (hs : AmpersandsPaired s) : AmpersandsPaired (38 :: 38 :: s)

/-- An extended dialog template in the layout `ProcessExtendedDialogTemplate`
walks: the point size, the weight and the italic and charset unit follow the
caption whatever the style, the typeface follows them when style bit 0x40 or
0x08 is set. -/
structure DlgTemplateEx where
  helpID : Nat
  exStyle : Nat
  style : Nat
  x : Nat
  y : Nat
  cx : Nat
  cy : Nat
  menu : SzOrOrd
  windowClass : SzOrOrd
  caption : WStr
  pointSize : Nat
  weight : Nat
  italicCharset : Nat
  typeface : WStr
  items : List DlgItem

/-- Well-formed extended template: well-formed fields, caption and typeface
without a NUL unit. -/
def DlgTemplateEx.WF (t : DlgTemplateEx) : Prop :=
  t.menu.WF ∧ t.windowClass.WF ∧ 0 ∉ t.caption ∧ 0 ∉ t.typeface ∧ ∀ it ∈ t.items, it.WF

instance (t : DlgTemplateEx) : Decidable t.WF := by
  unfold DlgTemplateEx.WF; infer_instance

/-- The units before the first control of an extended template: the version
and signature units, the rest of the 26-byte header, the menu and class
fields, the caption, the three font units and the typeface exactly when
`style & 0x48` is not zero. -/
def DlgTemplateEx.headUnits (t : DlgTemplateEx) : List Nat :=
  [1, 0xFFFF] ++ dwordUnits t.helpID ++ dwordUnits t.exStyle ++ dwordUnits t.style
    ++ [t.items.length, t.x, t.y, t.cx, t.cy]
    ++ t.menu.units ++ t.windowClass.units ++ (t.caption ++ [0])
    ++ [t.pointSize, t.weight, t.italicCharset]
    ++ (if t.style &&& 0x48 ≠ 0 then t.typeface ++ [0] else [])

/-- The units of an extended dialog template. -/
def DlgTemplateEx.units (t : DlgTemplateEx) : List Nat :=
  t.headUnits ++ layoutItems DlgItem.unitsEx t.headUnits.length t.items

/-- An extended dialog with a caption, the font block and the two sample controls. -/
def sampleTemplateEx : DlgTemplateEx :=
  { helpID := 0, exStyle := 0, style := 0x80C800C8, x := 0, y := 0, cx := 186, cy := 95,
    menu := .absent, windowClass := .absent, caption := L "Hi", pointSize := 8, weight := 400,
    italicCharset := 0x0100, typeface := L "MS Shell Dlg", items := [sampleIcon, sampleButton] }

/-! ## The command line

The part of `wmain` (GetLocalizedResources.cpp) that reads the arguments
`argv[1]`, `argv[2]`, ... and validates them.  A call of `Usage`, which writes
the usage text and ends the program with `exit(-1)`, is the result `usage`
with the error text passed to it. -/

/-- The `enum class option_t` of `wmain`. -/
inductive option_t where
  | eNotSet
  | eStringTable
  | eDialog
  | eMessageTable
  | eMenu
  deriving DecidableEq

/-- The variables of `wmain` the arguments are read into. -/
structure CommandLine where
  option : option_t
  bOut_toFile : Bool
  sOutFile : WStr
  sResourceFile : WStr
  sLangSpec : WStr
  deriving DecidableEq

/-- How the reading of the arguments ends: `Usage` was called with the given
error text (or with none), or the arguments were read. -/
inductive ArgResult where
  | usage (szError : Option WStr)
  | parsed (c : CommandLine)
  deriving DecidableEq

/-- The loop `while (ixArg < argc)` of `wmain` on the arguments left. -/
def wmainLoop : List WStr → CommandLine → ArgResult
  | [], c => .parsed c
  | arg :: rest, c =>
    if arg = L "-s" then wmainLoop rest { c with option := .eStringTable }
    else if arg = L "-d" then wmainLoop rest { c with option := .eDialog }
    else if arg = L "-m" then wmainLoop rest { c with option := .eMessageTable }
    else if arg = L "-n" then wmainLoop rest { c with option := .eMenu }
    else if arg = L "-o" then
      if c.bOut_toFile then .usage (some (L "Output file specified multiple times"))
      else
        match rest with
        | [] => .usage (some (L "Missing arg for -o"))
        | value :: rest2 => wmainLoop rest2 { c with bOut_toFile := true, sOutFile := value }
    else if arg = L "-l" then
      if c.sLangSpec.length > 0 then .usage (some (L "Language specified multiple times"))
      else
        match rest with
        | [] => .usage (some (L "Missing arg for -l"))
        | value :: rest2 => wmainLoop rest2 { c with sLangSpec := value }
    else
      if c.sResourceFile.length > 0 then .usage none
      else wmainLoop rest { c with sResourceFile := arg }

/-- The arguments of `wmain` read and validated (lines 99 to 144): the loop
from the initial values, then the two tests on the option and the resource
file. -/
def wmainArguments (args : List WStr) : ArgResult :=
  match wmainLoop args ⟨.eNotSet, false, [], [], []⟩ with
  | .usage e => .usage e
  | .parsed c =>
    if c.option = .eNotSet then .usage (some (L "Option not specified."))
    else if c.sResourceFile.length = 0 then .usage (some (L "Resource file not specified."))
    else .parsed c

/-- The extraction mode an argument names, if it is one of -s, -d, -m, -n. -/
def modeOf (arg : WStr) : Option option_t :=
  if arg = L "-s" then some .eStringTable
  else if arg = L "-d" then some .eDialog
  else if arg = L "-m" then some .eMessageTable
  else if arg = L "-n" then some .eMenu
  else none

/-- The modes named by the arguments -s, -d, -m, -n that stand alone, in
order: an argument that follows -o or -l is the value of that option and is
passed over. -/
def standaloneModes : List WStr → List option_t
  | [] => []
  | arg :: rest =>
    (modeOf arg).toList ++
      (if arg = L "-o" ∨ arg = L "-l" then
        match rest with
        | [] => []
        | _ :: rest2 => standaloneModes rest2
      else standaloneModes rest)

/-- The result `r` with, when the arguments were read, the option replaced by
the last of `modes`, or by `o` when there is none. -/
def ArgResult.withLastMode (r : ArgResult) (modes : List option_t) (o : option_t) : ArgResult :=
  match r with
  | .usage e => .usage e
  | .parsed c => .parsed { c with option := modes.getLast?.getD o }

/-! ## Controls with a creation-data count of either parity -/

/-- The units of a classic control from its fixed header to its creation-data
count unit, which holds `cbExtra`, a number of bytes of either parity. -/
def DlgItem.unitsWithCount (it : DlgItem) (cbExtra : Nat) : List Nat :=
  dwordUnits it.style ++ dwordUnits it.exStyle ++ [it.x, it.y, it.cx, it.cy, it.id]
    ++ it.windowClass.units ++ it.title.units ++ [cbExtra]

/-- The units of an extended control from its fixed header to its
creation-data count unit, which holds `cbExtra`. -/
def DlgItem.unitsExWithCount (it : DlgItem) (cbExtra : Nat) : List Nat :=
  dwordUnits it.helpID ++ dwordUnits it.exStyle ++ dwordUnits it.style
    ++ [it.x, it.y, it.cx, it.cy] ++ dwordUnits it.id
    ++ it.windowClass.units ++ it.title.units ++ [cbExtra]

/-- A static control with the title "A" and the id 100. -/
def sampleStatic : DlgItem :=
  { helpID := 0, exStyle := 0, style := 0x50000000, x := 7, y := 7, cx := 50, cy := 14, id := 100,
    windowClass := .ordinal 0x82, title := .text (L "A"), extra := [] }

/-- A static control with the title "AB" and the id 100. -/
def sampleStaticAB : DlgItem :=
  { helpID := 0, exStyle := 0, style := 0x50000000, x := 7, y := 7, cx := 50, cy := 14, id := 100,
    windowClass := .ordinal 0x82, title := .text (L "AB"), extra := [] }

/-- A push button "&OK" of height 0 with the id 65, whose class is given by
the name "Button". -/
def flatButton : DlgItem :=
  { helpID := 0, exStyle := 0, style := 0x50010000, x := 7, y := 40, cx := 50, cy := 0, id := 65,
    windowClass := .text (L "Button"), title := .text (L "&OK"), extra := [] }

/-- An icon of height 0 with the id 65, whose class is given by the name
"Static" and whose title is the ordinal 101. -/
def flatIcon : DlgItem :=
  { helpID := 0, exStyle := 0, style := 0x50000003, x := 7, y := 40, cx := 50, cy := 0, id := 65,
    windowClass := .text (L "Static"), title := .ordinal 101, extra := [] }

/-- A classic dialog without caption and font block, with two controls. The
first, the static "A" at byte offset 24, has `cbExtra` in its creation-data
count unit, which ends at byte offset 52, then one unit that holds the 1 or 2
bytes of creation data and one unit of padding; the control `second` starts
at byte offset 56, the first 4-byte boundary at or after the end of the
creation data, and nothing follows it. -/
def creationDataDialog (cbExtra : Nat) (second : DlgItem) : List Nat :=
  [0, 0x80C8, 0, 0, 2, 0, 0, 186, 95, 0, 0, 0]
    ++ (sampleStatic.unitsWithCount cbExtra ++ [0x00AB, 0]) ++ second.units

/-- An extended dialog with the caption "Hi" and the font block (typeface
"MS"), with two controls. The first, the static "AB" at byte offset 48, has
`cbExtra` in its creation-data count unit, which ends at byte offset 84, then
one unit that holds the 1 or 2 bytes of creation data and one unit of
padding; the sample push button starts at byte offset 88, the first 4-byte
boundary at or after the end of the creation data, and nothing follows it. -/
def creationDataDialogEx (cbExtra : Nat) : List Nat :=
  [1, 0xFFFF, 0, 0, 0, 0, 0x00C8, 0x80C8, 2, 0, 0, 186, 95, 0, 0] ++ L "Hi"
    ++ [0, 8, 400, 0x0100] ++ L "MS" ++ [0]
    ++ (sampleStaticAB.unitsExWithCount cbExtra ++ [0x00AB, 0]) ++ sampleButton.unitsEx

/-! # Properties -/

/-! ## Lemmas on the replace-all scan -/

theorem replaceScan_skip (m : WStr → Bool) (len : Nat) (rep : WStr) (s : WStr) (k : Nat) :
    replaceScan m len rep s k = replaceScan m len rep (s.drop k) 0 := by
  induction s generalizing k with
  | nil => simp [replaceScan]
  | cons c cs ih =>
    cases k with
    | zero => simp
    | succ k => simp only [replaceScan, List.drop_succ_cons]; exact ih k

theorem replaceScan_hit (m : WStr → Bool) (len : Nat) (rep : WStr) (c : Nat) (cs : WStr)
    (h : m (c :: cs) = true) :
    replaceScan m len rep (c :: cs) 0 = rep ++ replaceScan m len rep (cs.drop (len - 1)) 0 := by
  rw [replaceScan, if_pos h, replaceScan_skip]

theorem replaceScan_miss (m : WStr → Bool) (len : Nat) (rep : WStr) (c : Nat) (cs : WStr)
    (h : m (c :: cs) = false) :
    replaceScan m len rep (c :: cs) 0 = c :: replaceScan m len rep cs 0 := by
  rw [replaceScan]; simp [h]

/-- The four passes of `RemoveAccelsFromText`, named. -/
theorem RemoveAccelsFromText_eq (s : WStr) :
    RemoveAccelsFromText s =
      replaceStringAll (replaceStringAll (replaceStringAll (regexReplaceAsianAccel s)
        [38, 38] [126, 96, 126]) [38] []) [126, 96, 126] [38, 38] := rfl

/-! ### Pass 1: the accelerator parenthetical -/

theorem regex_nil : regexReplaceAsianAccel [] = [] := by
  simp [regexReplaceAsianAccel, replaceScan]

theorem regex_hit (x : Nat) (r : WStr) (hx : isAccelChar x = true) :
    regexReplaceAsianAccel (40 :: 38 :: x :: 41 :: r) = regexReplaceAsianAccel r := by
  unfold regexReplaceAsianAccel
  rw [replaceScan_hit _ _ _ _ _ (by simp [asianAccelAt, hx])]
  simp

theorem regex_miss (c : Nat) (cs : WStr) (h : asianAccelAt (c :: cs) = false) :
    regexReplaceAsianAccel (c :: cs) = c :: regexReplaceAsianAccel cs := by
  unfold regexReplaceAsianAccel
  exact replaceScan_miss _ _ _ _ _ h

theorem asianAccelAt_of_second_ne (c : Nat) (cs : WStr) (h : cs.head? ≠ some 38) :
    asianAccelAt (c :: cs) = false := by
  match cs, h with
  | [], _ => simp [asianAccelAt]
  | [_], _ => simp [asianAccelAt]
  | [_, _], _ => simp [asianAccelAt]
  | b :: _ :: _ :: _, h =>
    have hb : b ≠ 38 := by simpa using h
    simp [asianAccelAt, hb]

theorem asianAccelAt_of_first_ne (c : Nat) (cs : WStr) (h : c ≠ 40) :
    asianAccelAt (c :: cs) = false := by
  match cs with
  | [] => simp [asianAccelAt]
  | [_] => simp [asianAccelAt]
  | [_, _] => simp [asianAccelAt]
  | _ :: _ :: _ :: _ => simp [asianAccelAt, h]

theorem head?_append_ne (s rest : WStr) (x : Nat) (hs : x ∉ s) (hr : rest.head? ≠ some x) :
    (s ++ rest).head? ≠ some x := by
  cases s with
  | nil => simpa using hr
  | cons c s =>
    simp only [List.mem_cons, not_or] at hs
    simp only [List.cons_append, List.head?_cons, ne_eq, Option.some.injEq]
    exact fun h => hs.1 h.symm

/-- Text without an ampersand, before a rest that does not start with one, is
copied by the first pass. -/
theorem regex_append (s rest : WStr) (hs : 38 ∉ s) (hr : rest.head? ≠ some 38) :
    regexReplaceAsianAccel (s ++ rest) = s ++ regexReplaceAsianAccel rest := by
  induction s with
  | nil => rfl
  | cons c s ih =>
    simp only [List.mem_cons, not_or] at hs
    rw [List.cons_append, regex_miss _ _ (asianAccelAt_of_second_ne _ _
      (head?_append_ne s rest 38 hs.2 hr)), ih hs.2, List.cons_append]

theorem regex_id (s : WStr) (hs : 38 ∉ s) : regexReplaceAsianAccel s = s := by
  have := regex_append s [] hs (by simp)
  simpa [regex_nil] using this

/-! ### Passes 2 to 4: `replaceStringAll` -/

theorem replaceStringAll_nil (pat rep : WStr) : replaceStringAll [] pat rep = [] := by
  unfold replaceStringAll; split <;> simp [replaceScan]

theorem replaceStringAll_hit (pat rep r : WStr) (hp : pat ≠ []) :
    replaceStringAll (pat ++ r) pat rep = rep ++ replaceStringAll r pat rep := by
  unfold replaceStringAll
  rw [if_neg hp, if_neg hp]
  obtain ⟨a, p, rfl⟩ := List.exists_cons_of_ne_nil hp
  rw [List.cons_append, replaceScan_hit _ _ _ _ _ (by simp)]
  simp

theorem replaceStringAll_miss (pat rep : WStr) (c : Nat) (cs : WStr)
    (h : pat.isPrefixOf (c :: cs) = false) :
    replaceStringAll (c :: cs) pat rep = c :: replaceStringAll cs pat rep := by
  unfold replaceStringAll
  by_cases hp : pat = []
  · simp [hp]
  · rw [if_neg hp, if_neg hp]
    exact replaceScan_miss _ _ _ _ _ h

theorem isPrefixOf_cons_ne (a c : Nat) (p cs : WStr) (h : a ≠ c) :
    (a :: p).isPrefixOf (c :: cs) = false := by
  simp [List.isPrefixOf, h]

/-- Text that does not contain the first unit of the pattern is copied. -/
theorem replaceStringAll_append (a : Nat) (p rep s rest : WStr) (hs : a ∉ s) :
    replaceStringAll (s ++ rest) (a :: p) rep = s ++ replaceStringAll rest (a :: p) rep := by
  induction s with
  | nil => rfl
  | cons c s ih =>
    simp only [List.mem_cons, not_or] at hs
    rw [List.cons_append, replaceStringAll_miss _ _ _ _ (isPrefixOf_cons_ne a c p _ (fun h => hs.1 h)), ih hs.2,
      List.cons_append]

theorem replaceStringAll_id (a : Nat) (p rep s : WStr) (hs : a ∉ s) :
    replaceStringAll s (a :: p) rep = s := by
  have := replaceStringAll_append a p rep s [] hs
  simpa [replaceStringAll_nil] using this

/-- The third pass leaves no ampersand. -/
theorem not_mem_removeAmp (s : WStr) : 38 ∉ replaceStringAll s [38] [] := by
  induction s with
  | nil => simp [replaceStringAll_nil]
  | cons c s ih =>
    by_cases hc : c = 38
    · subst hc
      have := replaceStringAll_hit [38] [] s (by simp)
      simp only [List.singleton_append, List.nil_append] at this
      rw [this]; exact ih
    · rw [replaceStringAll_miss _ _ _ _ (isPrefixOf_cons_ne 38 c [] _ (Ne.symm hc))]
      simp only [List.mem_cons, not_or]
      exact ⟨Ne.symm hc, ih⟩

/-- The head of a restored text is an ampersand only when a second one follows. -/
theorem restore_head (t : WStr) (ht : 38 ∉ t) (x : Nat) (r : WStr)
    (h : replaceStringAll t [126, 96, 126] [38, 38] = 38 :: x :: r) : x = 38 := by
  cases t with
  | nil => simp [replaceStringAll_nil] at h
  | cons c cs =>
    simp only [List.mem_cons, not_or] at ht
    by_cases hm : [126, 96, 126].isPrefixOf (c :: cs) = true
    · obtain ⟨r', hr'⟩ := List.isPrefixOf_iff_prefix.mp hm
      rw [← hr', replaceStringAll_hit _ _ _ (by simp)] at h
      simp at h
      exact h.1.symm
    · rw [replaceStringAll_miss _ _ _ _ ((Bool.not_eq_true _).mp hm)] at h
      simp at h
      exact absurd h.1.symm ht.1

/-- Replacing the doubled ampersands of a restored text gives back the text. -/
theorem escape_restore (t : WStr) (ht : 38 ∉ t) :
    replaceStringAll (replaceStringAll t [126, 96, 126] [38, 38]) [38, 38] [126, 96, 126] = t := by
  induction' h : t.length using Nat.strong_induction_on with n ih generalizing t
  · cases t with
    | nil => simp [replaceStringAll_nil]
    | cons c cs =>
      simp only [List.mem_cons, not_or] at ht
      by_cases hm : [126, 96, 126].isPrefixOf (c :: cs) = true
      · obtain ⟨r', hr'⟩ := List.isPrefixOf_iff_prefix.mp hm
        have hr : 38 ∉ r' := by
          intro hmem
          have : 38 ∈ c :: cs := by rw [← hr']; simp [hmem]
          simp only [List.mem_cons] at this
          rcases this with h1 | h1
          · exact ht.1 h1
          · exact ht.2 h1
        have hlen : r'.length < n := by
          rw [← h, ← hr']; simp only [List.length_append, List.length_cons, List.length_nil]; omega
        rw [← hr', replaceStringAll_hit _ _ _ (by simp), replaceStringAll_hit _ _ _ (by simp),
          ih _ hlen r' hr rfl]
      · have hlen : cs.length < n := by rw [← h]; simp
        rw [replaceStringAll_miss _ _ _ _ ((Bool.not_eq_true _).mp hm),
          replaceStringAll_miss _ _ _ _ (isPrefixOf_cons_ne 38 c [38] _ (fun h => ht.1 h)), ih _ hlen cs ht.2 rfl]

/-- The first pass finds nothing to delete in a restored text. -/
theorem regex_restore (t : WStr) (ht : 38 ∉ t) :
    regexReplaceAsianAccel (replaceStringAll t [126, 96, 126] [38, 38])
      = replaceStringAll t [126, 96, 126] [38, 38] := by
  induction' h : t.length using Nat.strong_induction_on with n ih generalizing t
  · cases t with
    | nil => simp [replaceStringAll_nil, regex_nil]
    | cons c cs =>
      simp only [List.mem_cons, not_or] at ht
      by_cases hm : [126, 96, 126].isPrefixOf (c :: cs) = true
      · obtain ⟨r', hr'⟩ := List.isPrefixOf_iff_prefix.mp hm
        have hr : 38 ∉ r' := by
          intro hmem
          have : 38 ∈ c :: cs := by rw [← hr']; simp [hmem]
          simp only [List.mem_cons] at this
          rcases this with h1 | h1
          · exact ht.1 h1
          · exact ht.2 h1
        have hlen : r'.length < n := by
          rw [← h, ← hr']; simp only [List.length_append, List.length_cons, List.length_nil]; omega
        rw [← hr', replaceStringAll_hit _ _ _ (by simp)]
        show regexReplaceAsianAccel (38 :: 38 :: replaceStringAll r' [126, 96, 126] [38, 38])
          = 38 :: 38 :: replaceStringAll r' [126, 96, 126] [38, 38]
        rw [regex_miss _ _ (asianAccelAt_of_first_ne _ _ (by decide)),
          regex_miss _ _ (asianAccelAt_of_first_ne _ _ (by decide)), ih _ hlen r' hr rfl]
      · have hlen : cs.length < n := by rw [← h]; simp
        rw [replaceStringAll_miss _ _ _ _ ((Bool.not_eq_true _).mp hm)]
        have hmiss : asianAccelAt (c :: replaceStringAll cs [126, 96, 126] [38, 38]) = false := by
          generalize hy : replaceStringAll cs [126, 96, 126] [38, 38] = y
          match y, hy with
          | [], _ => simp [asianAccelAt]
          | [_], _ => simp [asianAccelAt]
          | [_, _], _ => simp [asianAccelAt]
          | b :: x :: d :: _, hy =>
            by_cases hb : b = 38
            · subst hb
              have hx := restore_head cs ht.2 x _ hy
              subst hx
              simp [asianAccelAt, isAccelChar]
            · simp [asianAccelAt, hb]
        rw [regex_miss _ _ hmiss, ih _ hlen cs ht.2 rfl]

theorem RemoveAccelsFromText_idem (s : WStr) :
    RemoveAccelsFromText (RemoveAccelsFromText s) = RemoveAccelsFromText s := by
  rw [RemoveAccelsFromText_eq s]
  generalize ht : replaceStringAll (replaceStringAll (regexReplaceAsianAccel s)
        [38, 38] [126, 96, 126]) [38] [] = t
  have hamp : 38 ∉ t := by rw [← ht]; exact not_mem_removeAmp _
  rw [RemoveAccelsFromText_eq, regex_restore t hamp, escape_restore t hamp,
    replaceStringAll_id 38 [] [] t hamp]

/-! ### Single and doubled ampersands -/

theorem asianAccelAt_paren_amp (t : WStr)
    (h : ∀ x t0, t = x :: 41 :: t0 → isAccelChar x = false) :
    asianAccelAt (40 :: 38 :: t) = false := by
  match t, h with
  | [], _ => simp [asianAccelAt]
  | [_], _ => simp [asianAccelAt]
  | x :: d :: r, h =>
    by_cases hd : d = 41
    · subst hd
      simp [asianAccelAt, h x r rfl]
    · simp [asianAccelAt, hd]

/-- The first pass copies a text whose only ampersand is not inside a parenthetical. -/
theorem regex_single_amp (s t : WStr) (hs : 38 ∉ s) (ht : 38 ∉ t)
    (hpar : s.getLast? = some 40 → ∀ x t0, t = x :: 41 :: t0 → isAccelChar x = false) :
    regexReplaceAsianAccel (s ++ 38 :: t) = s ++ 38 :: t := by
  induction s with
  | nil =>
    rw [List.nil_append, regex_miss _ _ (asianAccelAt_of_first_ne _ _ (by decide)),
      regex_id t ht]
  | cons c s ih =>
    simp only [List.mem_cons, not_or] at hs
    have hmiss : asianAccelAt (c :: (s ++ 38 :: t)) = false := by
      cases s with
      | nil =>
        by_cases hc : c = 40
        · subst hc
          exact asianAccelAt_paren_amp t (hpar rfl)
        · exact asianAccelAt_of_first_ne _ _ hc
      | cons d s =>
        simp only [List.mem_cons, not_or] at hs
        exact asianAccelAt_of_second_ne _ _ (by simpa using fun h => hs.2.1 h.symm)
    have hpar' : s.getLast? = some 40 → ∀ x t0, t = x :: 41 :: t0 → isAccelChar x = false := by
      intro hl
      apply hpar
      cases s with
      | nil => simp at hl
      | cons d s => simpa [List.getLast?_cons_cons] using hl
    rw [List.cons_append, regex_miss _ _ hmiss, ih hs.2 hpar']

/-- The first pass copies a text whose only ampersands are one doubled pair. -/
theorem regex_double_amp (s t : WStr) (hs : 38 ∉ s) (ht : 38 ∉ t) :
    regexReplaceAsianAccel (s ++ 38 :: 38 :: t) = s ++ 38 :: 38 :: t := by
  induction s with
  | nil =>
    rw [List.nil_append, regex_miss _ _ (asianAccelAt_of_first_ne _ _ (by decide)),
      regex_miss _ _ (asianAccelAt_of_first_ne _ _ (by decide)), regex_id t ht]
  | cons c s ih =>
    simp only [List.mem_cons, not_or] at hs
    have hmiss : asianAccelAt (c :: (s ++ 38 :: 38 :: t)) = false := by
      cases s with
      | nil =>
        cases t with
        | nil => simp [asianAccelAt]
        | cons d t => simp [asianAccelAt, isAccelChar]
      | cons d s =>
        simp only [List.mem_cons, not_or] at hs
        exact asianAccelAt_of_second_ne _ _ (by simpa using fun h => hs.2.1 h.symm)
    rw [List.cons_append, regex_miss _ _ hmiss, ih hs.2]

theorem RemoveAccelsFromText_single (s t : WStr) (hs : 38 ∉ s) (hs' : 126 ∉ s)
    (ht : 38 ∉ t) (ht' : 126 ∉ t)
    (hpar : s.getLast? = some 40 → ∀ x t0, t = x :: 41 :: t0 → isAccelChar x = false) :
    RemoveAccelsFromText (s ++ 38 :: t) = s ++ t := by
  have hhead : [38, 38].isPrefixOf (38 :: t) = false := by
    cases t with
    | nil => simp [List.isPrefixOf]
    | cons d t =>
      simp only [List.mem_cons, not_or] at ht
      simp [List.isPrefixOf, ht.1]
  have hmem : (126 : Nat) ∉ s ++ t := by simp [hs', ht']
  rw [RemoveAccelsFromText_eq, regex_single_amp s t hs ht hpar,
    replaceStringAll_append 38 [38] _ s _ hs, replaceStringAll_miss _ _ _ _ hhead,
    replaceStringAll_id 38 [38] _ t ht, replaceStringAll_append 38 [] _ s _ hs]
  have h3 := replaceStringAll_hit [38] [] t (by simp)
  simp only [List.singleton_append, List.nil_append] at h3
  rw [h3, replaceStringAll_id 38 [] _ t ht, replaceStringAll_id 126 [96, 126] _ _ hmem]

theorem RemoveAccelsFromText_double (s t : WStr) (hs : 38 ∉ s) (hs' : 126 ∉ s)
    (ht : 38 ∉ t) (ht' : 126 ∉ t) :
    RemoveAccelsFromText (s ++ 38 :: 38 :: t) = s ++ 38 :: 38 :: t := by
  have h2 := replaceStringAll_hit [38, 38] [126, 96, 126] t (by simp)
  have hp : (38 : Nat) ∉ [126, 96, 126] ++ t := by simp [ht]
  have h4 := replaceStringAll_hit [126, 96, 126] [38, 38] t (by simp)
  rw [RemoveAccelsFromText_eq, regex_double_amp s t hs ht,
    replaceStringAll_append 38 [38] _ s _ hs]
  simp only [List.cons_append, List.nil_append] at h2 h4 hp
  rw [h2, replaceStringAll_id 38 [38] _ t ht, replaceStringAll_append 38 [] _ s _ hs,
    replaceStringAll_id 38 [] _ _ hp, replaceStringAll_append 126 [96, 126] _ s _ hs', h4,
    replaceStringAll_id 126 [96, 126] _ t ht']

theorem RemoveAccelsFromText_paren (s t : WStr) (x : Nat) (hx : isAccelChar x = true)
    (hs : 38 ∉ s) (hs' : 126 ∉ s) (ht : 38 ∉ t) (ht' : 126 ∉ t) :
    RemoveAccelsFromText (s ++ 40 :: 38 :: x :: 41 :: t) = s ++ t := by
  have hmem : (38 : Nat) ∉ s ++ t := by simp [hs, ht]
  have hmem' : (126 : Nat) ∉ s ++ t := by simp [hs', ht']
  rw [RemoveAccelsFromText_eq, regex_append s _ hs (by simp), regex_hit x t hx, regex_id t ht,
    replaceStringAll_id 38 [38] _ _ hmem, replaceStringAll_id 38 [] _ _ hmem,
    replaceStringAll_id 126 [96, 126] _ _ hmem']

/-! ### Reads at a known place -/

theorem readU16_append (pre rest : List Nat) (i : Nat) :
    readU16 (pre ++ rest) (pre.length + i) = rest[i]? := by
  simp [readU16, List.getElem?_append_right]

/-! ### Strings at a known place -/

theorem szText_append (s rest : List Nat) (h : 0 ∉ s) : szText (s ++ 0 :: rest) = some s := by
  induction s with
  | nil => simp [szText]
  | cons c s ih =>
    simp only [List.mem_cons, not_or] at h
    have hc : c ≠ 0 := fun e => h.1 e.symm
    simp [szText, hc, ih h.2]

theorem szLen_append (s rest : List Nat) (h : 0 ∉ s) :
    szLen (s ++ 0 :: rest) = some (s.length + 1) := by
  induction s with
  | nil => simp [szLen]
  | cons c s ih =>
    simp only [List.mem_cons, not_or] at h
    have hc : c ≠ 0 := fun e => h.1 e.symm
    simp [szLen, hc, ih h.2]

theorem readU16_of_drop (mem : List Nat) (p x : Nat) (rest : List Nat)
    (h : mem.drop p = x :: rest) : readU16 mem p = some x := by
  have := List.getElem?_drop (L := mem) (i := p) (j := 0)
  rw [h] at this
  simpa [readU16] using this.symm

theorem readSz_of_drop (mem : List Nat) (p : Nat) (s rest : List Nat)
    (h : mem.drop p = s ++ 0 :: rest) (hs : 0 ∉ s) : readSz mem p = some s := by
  rw [readSz, h, szText_append s rest hs]

theorem Uint16AfterSz_of_drop (mem : List Nat) (p : Nat) (s rest : List Nat)
    (h : mem.drop p = s ++ 0 :: rest) (hs : 0 ∉ s) :
    Uint16AfterSz mem p = some (p + (s.length + 1)) := by
  rw [Uint16AfterSz, h, szLen_append s rest hs]; rfl

theorem drop_shift (mem : List Nat) (p : Nat) (a b : List Nat) (h : mem.drop p = a ++ b) :
    mem.drop (p + a.length) = b := by
  rw [← List.drop_drop, h, List.drop_left]

/-! ### The classic menu item with an accelerator and a tab -/

theorem RemoveTabAndAfter_tab (a b : WStr) (ha : 9 ∉ a) : RemoveTabAndAfter (a ++ 9 :: b) = a := by
  unfold RemoveTabAndAfter
  induction a with
  | nil => simp [List.takeWhile]
  | cons c a ih =>
    simp only [List.mem_cons, not_or] at ha
    have hc : c ≠ 9 := fun e => ha.1 e.symm
    rw [List.cons_append, List.takeWhile_cons]
    simp only [hc, ne_eq, not_false_eq_true, decide_True, if_true]
    rw [ih ha.2]

theorem standardMenuItem_popup_tab (lpName : ResourceName) (mem : List Nat) (p wFlags : Nat)
    (a b rest : List Nat) (hpop : wFlags &&& 0x10 ≠ 0)
    (ha : 38 ∉ a ∧ 126 ∉ a ∧ 9 ∉ a ∧ 0 ∉ a) (hb : 0 ∉ b)
    (hmem : mem.drop p = wFlags :: (38 :: a ++ 9 :: b ++ [0]) ++ rest) :
    standardMenuItem lpName mem p =
      some ([⟨RSRCID_t lpName, L "n/a", a, 38 :: a, none⟩], p + (a.length + b.length + 4)) := by
  obtain ⟨ha1, ha2, ha3, ha4⟩ := ha
  have h0 : readU16 mem p = some wFlags := readU16_of_drop mem p wFlags _ hmem
  have hd : mem.drop (p + 1) = (38 :: a ++ 9 :: b) ++ 0 :: rest := by
    have := drop_shift mem p [wFlags] _ (by simpa using hmem)
    simpa using this
  have hz : (0 : Nat) ∉ 38 :: a ++ 9 :: b := by simp [ha4, hb]
  have hs := readSz_of_drop mem (p + 1) _ rest hd hz
  have hn := Uint16AfterSz_of_drop mem (p + 1) _ rest hd hz
  have ht : RemoveTabAndAfter (38 :: a ++ 9 :: b) = 38 :: a :=
    RemoveTabAndAfter_tab (38 :: a) b (by simp [ha3])
  have hr : RemoveAccelsFromText (38 :: a) = a := by
    have := RemoveAccelsFromText_single [] a (by simp) (by simp) ha1 ha2 (by simp)
    simpa using this
  unfold standardMenuItem
  simp only [h0, Option.bind_eq_bind, Option.some_bind, MF_POPUP, hpop, ne_eq, not_false_eq_true,
    if_true, hs, hn, standardMenuRows]
  rw [if_pos (by simp), ht, hr]
  simp only [List.length_cons, List.length_append, Option.some.injEq, Prod.mk.injEq, true_and]
  omega

theorem standardMenu_single_popup_tab (lpName : ResourceName) (wFlags : Nat) (a b : WStr)
    (hpop : wFlags &&& 0x10 ≠ 0) (ha : 38 ∉ a ∧ 126 ∉ a ∧ 9 ∉ a ∧ 0 ∉ a) (hb : 0 ∉ b) :
    ProcessStandardMenuTemplate lpName ([0, 0, wFlags] ++ (38 :: a ++ 9 :: b ++ [0]))
        (2 * (a.length + b.length + 6))
      = some ⟨[⟨RSRCID_t lpName, L "n/a", a, 38 :: a, none⟩], []⟩ := by
  have hitem := standardMenuItem_popup_tab lpName
    ([0, 0, wFlags] ++ (38 :: a ++ 9 :: b ++ [0])) 2 wFlags a b [] hpop ha hb (by simp)
  have hsz : 2 * (a.length + b.length + 6) + 1 = (2 * (a.length + b.length) + 11) + 1 + 1 := by
    omega
  have h1 : readU16 ([0, 0, wFlags] ++ (38 :: a ++ 9 :: b ++ [0])) 1 = some 0 := by
    simp [readU16]
  unfold ProcessStandardMenuTemplate
  rw [hsz]
  simp only [h1, Option.bind_eq_bind, Option.some_bind, standardMenuLoop, hitem]
  have c1 : InAddressRange (2 * (a.length + b.length + 6)) (2 + 1) = true := by
    simp only [InAddressRange, decide_eq_true_eq]; omega
  have c2 : InAddressRange (2 * (a.length + b.length + 6))
      (2 + (a.length + b.length + 4) + 1) = false := by
    simp only [InAddressRange, decide_eq_false_iff_not]; omega
  simp [c1, c2]

/-! ### String-or-ordinal fields at a known place -/

theorem readU16_succ_of_drop (mem : List Nat) (p x y : Nat) (rest : List Nat)
    (h : mem.drop p = x :: y :: rest) : readU16 mem (p + 1) = some y := by
  have h' := drop_shift mem p [x] (y :: rest) (by simpa using h)
  exact readU16_of_drop mem (p + 1) y rest (by simpa using h')

theorem text_head (s : WStr) (hs : s ≠ [] ∧ 0 ∉ s ∧ s.head? ≠ some 0xFFFF) :
    ∃ c s', s = c :: s' ∧ c ≠ 0 ∧ c ≠ 0xFFFF := by
  obtain ⟨h1, h2, h3⟩ := hs
  cases s with
  | nil => exact absurd rfl h1
  | cons c s' =>
    refine ⟨c, s', rfl, ?_, ?_⟩
    · intro e; apply h2; simp [e]
    · intro e; apply h3; simp [e]

theorem Uint16AfterSzOrOrd_field (mem : List Nat) (p : Nat) (f : SzOrOrd) (rest : List Nat)
    (hf : f.WF) (h : mem.drop p = f.units ++ rest) :
    Uint16AfterSzOrOrd mem p = some (p + f.units.length) := by
  cases f with
  | absent =>
    have h0 := readU16_of_drop mem p 0 rest (by simpa [SzOrOrd.units] using h)
    simp [Uint16AfterSzOrOrd, h0, SzOrOrd.units]
  | ordinal n =>
    have h0 := readU16_of_drop mem p 0xFFFF (n :: rest) (by simpa [SzOrOrd.units] using h)
    simp [Uint16AfterSzOrOrd, h0, SzOrOrd.units]
  | text s =>
    obtain ⟨c, s', rfl, hc0, hcF⟩ := text_head s hf
    have h0 := readU16_of_drop mem p c (s' ++ 0 :: rest) (by simpa [SzOrOrd.units] using h)
    have hz : (0 : Nat) ∉ c :: s' := hf.2.1
    have hn := Uint16AfterSz_of_drop mem p (c :: s') rest (by simpa [SzOrOrd.units] using h) hz
    simp [Uint16AfterSzOrOrd, h0, hc0, hcF, hn, SzOrOrd.units]

theorem WindowClassName_field (mem : List Nat) (p : Nat) (f : SzOrOrd) (rest : List Nat)
    (st : Nat) (hf : f.WF) (h : mem.drop p = f.units ++ rest) :
    WindowClassName mem p st = WindowClassName f.units 0 st ∧
      (WindowClassName f.units 0 st).isSome = true := by
  cases f with
  | absent =>
    have h0 := readU16_of_drop mem p 0 rest (by simpa [SzOrOrd.units] using h)
    have hs := readSz_of_drop mem p [] rest (by simpa [SzOrOrd.units] using h) (by simp)
    have e0 : readU16 [0] 0 = some 0 := rfl
    have hs' : readSz [0] 0 = some [] := rfl
    unfold WindowClassName
    simp only [SzOrOrd.units, h0, hs, e0, hs']
    simp
  | ordinal n =>
    have h0 := readU16_of_drop mem p 0xFFFF (n :: rest) (by simpa [SzOrOrd.units] using h)
    have h1 := readU16_succ_of_drop mem p 0xFFFF n rest (by simpa [SzOrOrd.units] using h)
    have e0 : readU16 [0xFFFF, n] 0 = some 0xFFFF := rfl
    have e1 : readU16 [0xFFFF, n] (0 + 1) = some n := rfl
    constructor
    · unfold WindowClassName
      simp only [SzOrOrd.units, h0, h1, e0, e1, if_true]
    · unfold WindowClassName
      simp only [SzOrOrd.units, e0, e1, if_true]
      split_ifs <;> rfl
  | text s =>
    obtain ⟨c, s', rfl, hc0, hcF⟩ := text_head s hf
    have h0 := readU16_of_drop mem p c (s' ++ 0 :: rest) (by simpa [SzOrOrd.units] using h)
    have hz : (0 : Nat) ∉ c :: s' := hf.2.1
    have hs := readSz_of_drop mem p (c :: s') rest (by simpa [SzOrOrd.units] using h) hz
    have hs' := readSz_of_drop ((c :: s') ++ [0]) 0 (c :: s') [] rfl hz
    have e0 : readU16 ((c :: s') ++ [0]) 0 = some c := by simp [readU16]
    unfold WindowClassName
    simp only [SzOrOrd.units, h0, e0, hcF, if_false, hs, hs']
    simp

/-- What the title test of the item loops sees of a well-formed title field. -/
theorem title_field (mem : List Nat) (p : Nat) (f : SzOrOrd) (rest : List Nat)
    (hf : f.WF) (h : mem.drop p = f.units ++ rest) :
    ∃ w, readU16 mem p = some w ∧
      ((∃ s, f = .text s ∧ w ≠ 0 ∧ w ≠ 0xFFFF ∧ readSz mem p = some s) ∨
       ((w = 0 ∨ w = 0xFFFF) ∧ ∀ s, f ≠ .text s)) := by
  cases f with
  | absent =>
    have h0 := readU16_of_drop mem p 0 rest (by simpa [SzOrOrd.units] using h)
    exact ⟨0, h0, Or.inr ⟨Or.inl rfl, by simp⟩⟩
  | ordinal n =>
    have h0 := readU16_of_drop mem p 0xFFFF (n :: rest) (by simpa [SzOrOrd.units] using h)
    exact ⟨0xFFFF, h0, Or.inr ⟨Or.inr rfl, by simp⟩⟩
  | text s =>
    obtain ⟨c, s', rfl, hc0, hcF⟩ := text_head s hf
    have h0 := readU16_of_drop mem p c (s' ++ 0 :: rest) (by simpa [SzOrOrd.units] using h)
    have hz : (0 : Nat) ∉ c :: s' := hf.2.1
    have hs := readSz_of_drop mem p (c :: s') rest (by simpa [SzOrOrd.units] using h) hz
    exact ⟨c, h0, Or.inl ⟨c :: s', rfl, hc0, hcF, hs⟩⟩

/-! ### One control -/

theorem getElem?_of_drop (mem l : List Nat) (q i : Nat) (h : mem.drop q = l) :
    mem[q + i]? = l[i]? := by
  rw [← h, List.getElem?_drop]

theorem readU16_add_of_drop (mem l : List Nat) (q i : Nat) (h : mem.drop q = l) :
    readU16 mem (q + i) = l[i]? := getElem?_of_drop mem l q i h

theorem readU32_add_of_drop (mem l : List Nat) (q i v : Nat) (h : mem.drop q = l)
    (h0 : l[i]? = some (v % 65536)) (h1 : l[i + 1]? = some (v / 65536)) :
    readU32 mem (q + i) = some v := by
  have a0 := getElem?_of_drop mem l q i h
  have a1 := getElem?_of_drop mem l q (i + 1) h
  unfold readU32
  rw [a0, Nat.add_assoc, a1, h0, h1]
  simp only [Option.some.injEq]
  exact Nat.mod_add_div v 65536

theorem itemRowOf_text (lpName : ResourceName) (idColumn : WStr) (it : DlgItem) (s : WStr)
    (h : it.title = .text s) :
    itemRowOf lpName idColumn it =
      [⟨RSRCID_t lpName, idColumn, RemoveAccelsFromText (escapeCrLfTab s), escapeCrLfTab s,
        WindowClassName it.windowClass.units 0 it.style⟩] := by
  simp [itemRowOf, h]

theorem itemRowOf_other (lpName : ResourceName) (idColumn : WStr) (it : DlgItem)
    (h : ∀ s, it.title ≠ .text s) : itemRowOf lpName idColumn it = [] := by
  unfold itemRowOf
  cases ht : it.title with
  | absent => rfl
  | ordinal n => rfl
  | text s => exact absurd ht (h s)

theorem standardDialogItem_layout (lpName : ResourceName) (mem : List Nat) (p : Nat)
    (it : DlgItem) (rest : List Nat) (hit : it.WF)
    (h : mem.drop (alignDword p) = it.units ++ rest) :
    standardDialogItem lpName mem p =
      some (itemRowOf lpName (decimal it.id) it, alignDword p + it.units.length) := by
  obtain ⟨hcls, htitle⟩ := hit
  obtain ⟨q, hq⟩ : ∃ q, alignDword p = q := ⟨_, rfl⟩
  rw [hq] at h ⊢
  have hA : mem.drop q = [it.style % 65536, it.style / 65536, it.exStyle % 65536,
      it.exStyle / 65536, it.x, it.y, it.cx, it.cy, it.id] ++
      (it.windowClass.units ++ (it.title.units ++ ((2 * it.extra.length) :: (it.extra ++ rest)))) := by
    simpa [DlgItem.units, dwordUnits] using h
  have hstyle : readU32 mem q = some it.style :=
    readU32_add_of_drop mem _ q 0 it.style hA rfl rfl
  have hid : readU16 mem (q + 8) = some it.id :=
    (readU16_add_of_drop mem _ q 8 hA).trans (by simp)
  have hB := drop_shift mem q _ _ hA
  simp only [List.length_cons, List.length_nil, Nat.zero_add, Nat.reduceAdd] at hB
  have hC := drop_shift mem (q + 9) _ _ hB
  have hD := drop_shift mem (q + 9 + it.windowClass.units.length) _ _ hC
  have hcn := WindowClassName_field mem (q + 9) it.windowClass _ it.style hcls hB
  have hpt := Uint16AfterSzOrOrd_field mem (q + 9) it.windowClass _ hcls hB
  have hpe := Uint16AfterSzOrOrd_field mem _ it.title _ htitle hC
  have hcb := readU16_of_drop mem _ _ _ hD
  obtain ⟨cls, hclsName⟩ := Option.isSome_iff_exists.mp hcn.2
  have hlen : it.units.length =
      9 + it.windowClass.units.length + it.title.units.length + 1 + it.extra.length := by
    simp [DlgItem.units, dwordUnits]; omega
  obtain ⟨w, hw, hcase⟩ := title_field mem _ it.title _ htitle hC
  unfold standardDialogItem
  simp only [hq, Option.bind_eq_bind, Option.some_bind, hstyle, hcn.1, hclsName, hpt, hw]
  rcases hcase with ⟨s, hs, hw0, hwF, hsz⟩ | ⟨hw0, hno⟩
  · rw [if_pos ⟨hw0, hwF⟩]
    simp only [Option.bind_eq_bind, Option.some_bind, hsz, hid, hpe, hcb,
      itemRowOf_text lpName _ it s hs, hclsName, hlen]
    simp only [Option.some.injEq, Prod.mk.injEq, true_and]
    omega
  · rw [if_neg (by rintro ⟨a, b⟩; rcases hw0 with e | e <;> contradiction)]
    simp only [Option.bind_eq_bind, Option.some_bind, hpe, hcb,
      itemRowOf_other lpName _ it hno, hlen]
    simp only [Option.some.injEq, Prod.mk.injEq, true_and]
    omega

theorem extendedDialogItem_layout (lpName : ResourceName) (mem : List Nat) (p : Nat)
    (it : DlgItem) (rest : List Nat) (hit : it.WF)
    (h : mem.drop (alignDword p) = it.unitsEx ++ rest) :
    extendedDialogItem lpName mem p =
      some (itemRowOf lpName (decimalSigned32 it.id) it, alignDword p + it.unitsEx.length) := by
  obtain ⟨hcls, htitle⟩ := hit
  obtain ⟨q, hq⟩ : ∃ q, alignDword p = q := ⟨_, rfl⟩
  rw [hq] at h ⊢
  have hA : mem.drop q = [it.helpID % 65536, it.helpID / 65536, it.exStyle % 65536,
      it.exStyle / 65536, it.style % 65536, it.style / 65536, it.x, it.y, it.cx, it.cy,
      it.id % 65536, it.id / 65536] ++
      (it.windowClass.units ++ (it.title.units ++ ((2 * it.extra.length) :: (it.extra ++ rest)))) := by
    simpa [DlgItem.unitsEx, dwordUnits] using h
  have hstyle : readU32 mem (q + 4) = some it.style :=
    readU32_add_of_drop mem _ q 4 it.style hA rfl rfl
  have hid : readU32 mem (q + 10) = some it.id :=
    readU32_add_of_drop mem _ q 10 it.id hA (by simp) (by simp)
  have hB := drop_shift mem q _ _ hA
  simp only [List.length_cons, List.length_nil, Nat.zero_add, Nat.reduceAdd] at hB
  have hC := drop_shift mem (q + 12) _ _ hB
  have hD := drop_shift mem (q + 12 + it.windowClass.units.length) _ _ hC
  have hcn := WindowClassName_field mem (q + 12) it.windowClass _ it.style hcls hB
  have hpt := Uint16AfterSzOrOrd_field mem (q + 12) it.windowClass _ hcls hB
  have hpe := Uint16AfterSzOrOrd_field mem _ it.title _ htitle hC
  have hcb := readU16_of_drop mem _ _ _ hD
  obtain ⟨cls, hclsName⟩ := Option.isSome_iff_exists.mp hcn.2
  have hlen : it.unitsEx.length =
      12 + it.windowClass.units.length + it.title.units.length + 1 + it.extra.length := by
    simp [DlgItem.unitsEx, dwordUnits]; omega
  obtain ⟨w, hw, hcase⟩ := title_field mem _ it.title _ htitle hC
  unfold extendedDialogItem
  simp only [hq, Option.bind_eq_bind, Option.some_bind, hpt, hw]
  rcases hcase with ⟨s, hs, hw0, hwF, hsz⟩ | ⟨hw0, hno⟩
  · rw [if_pos ⟨hw0, hwF⟩]
    simp only [Option.bind_eq_bind, Option.some_bind, hsz, hid, hstyle, hcn.1, hpe, hcb,
      itemRowOf_text lpName _ it s hs, hclsName, hlen]
    simp only [Option.some.injEq, Prod.mk.injEq, true_and]
    omega
  · rw [if_neg (by rintro ⟨a, b⟩; rcases hw0 with e | e <;> contradiction)]
    simp only [Option.bind_eq_bind, Option.some_bind, hpe, hcb,
      itemRowOf_other lpName _ it hno, hlen]
    simp only [Option.some.injEq, Prod.mk.injEq, true_and]
    omega

/-! ### The item loop and the header of the classic dialog decoder -/

theorem standardDialogItems_layout (lpName : ResourceName) (mem : List Nat) :
    ∀ (its : List DlgItem) (p : Nat) (rest : List Nat), (∀ it ∈ its, it.WF) →
      mem.drop p = layoutItems DlgItem.units p its ++ rest →
      standardDialogItems lpName mem its.length p =
        some (its.flatMap fun it => itemRowOf lpName (decimal it.id) it) := by
  intro its
  induction its with
  | nil => intro p rest _ _; rfl
  | cons it its ih =>
    intro p rest hwf h
    have hit : it.WF := hwf it (by simp)
    have hwf' : ∀ i ∈ its, i.WF := fun i hi => hwf i (by simp [hi])
    obtain ⟨pad, hpad, hal⟩ : ∃ pad : List Nat,
        pad = (if (2 * p) % 4 = 0 then [] else [0]) ∧ alignDword p = p + pad.length := by
      refine ⟨_, rfl, ?_⟩
      unfold alignDword
      by_cases hp : (2 * p) % 4 = 0 <;> simp [hp]
    have h1 : mem.drop p = pad ++ (it.units ++
        (layoutItems DlgItem.units (p + pad.length + it.units.length) its ++ rest)) := by
      rw [h, hpad]; simp [layoutItems]
    have h2 := drop_shift mem p pad _ h1
    rw [← hal] at h2
    have hstep := standardDialogItem_layout lpName mem p it _ hit h2
    have h3 := drop_shift mem (alignDword p) it.units _ h2
    rw [hal] at h3
    have hrec := ih (p + pad.length + it.units.length) rest hwf' h3
    simp only [List.length_cons, standardDialogItems, Option.bind_eq_bind, Option.some_bind,
      hstep, hal, hrec, List.flatMap_cons]

theorem captionRows_layout (lpName : ResourceName) (mem : List Nat) (p : Nat)
    (caption rest : List Nat) (hc : 0 ∉ caption) (h : mem.drop p = caption ++ 0 :: rest) :
    captionRows lpName mem p = some (captionRowOf lpName caption) := by
  have hs := readSz_of_drop mem p caption rest h hc
  cases caption with
  | nil =>
    have h0 := readU16_of_drop mem p 0 rest (by simpa using h)
    simp [captionRows, captionRowOf, h0]
  | cons c s =>
    have h0 := readU16_of_drop mem p c (s ++ 0 :: rest) (by simpa using h)
    have hc0 : c ≠ 0 := by
      intro e; apply hc; simp [e]
    simp [captionRows, captionRowOf, h0, hc0, hs]

theorem ProcessStandardDialogTemplate_layout (lpName : ResourceName) (t : DlgTemplate)
    (trailing : List Nat) (hwf : t.WF) :
    ProcessStandardDialogTemplate lpName (t.units ++ trailing) =
      some (captionRowOf lpName t.caption ++
        t.items.flatMap fun it => itemRowOf lpName (decimal it.id) it) := by
  obtain ⟨hmenu, hcls, hcap, hface, hitems⟩ := hwf
  obtain ⟨mem, hmem⟩ : ∃ mem, mem = t.units ++ trailing := ⟨_, rfl⟩
  obtain ⟨font, hfont⟩ : ∃ font : List Nat,
      font = (if t.style &&& 0x40 ≠ 0 then [t.pointSize] ++ (t.typeface ++ [0]) else []) :=
    ⟨_, rfl⟩
  obtain ⟨tl, htl⟩ : ∃ tl, tl = layoutItems DlgItem.units t.headUnits.length t.items ++ trailing :=
    ⟨_, rfl⟩
  rw [← hmem]
  have hA : mem.drop 0 = [t.style % 65536, t.style / 65536, t.exStyle % 65536,
      t.exStyle / 65536, t.items.length, t.x, t.y, t.cx, t.cy] ++
      (t.menu.units ++ (t.windowClass.units ++ (t.caption ++ 0 :: (font ++ tl)))) := by
    rw [hmem, htl, hfont]
    simp [DlgTemplate.units, DlgTemplate.headUnits, dwordUnits]
  have hlen : t.headUnits.length =
      9 + t.menu.units.length + t.windowClass.units.length + (t.caption.length + 1)
        + font.length := by
    rw [hfont]
    simp [DlgTemplate.headUnits, dwordUnits]; omega
  have hn : readU16 mem 4 = some t.items.length := by
    have := readU16_add_of_drop mem _ 0 4 hA
    simpa using this
  have hstyle : readU32 mem 0 = some t.style := by
    have := readU32_add_of_drop mem _ 0 0 t.style hA rfl rfl
    simpa using this
  have hB : mem.drop 9 = t.menu.units ++ (t.windowClass.units ++
      (t.caption ++ 0 :: (font ++ tl))) := by
    have := drop_shift mem 0 _ _ hA
    simpa using this
  have hC := drop_shift mem 9 _ _ hB
  have hD := drop_shift mem (9 + t.menu.units.length) _ _ hC
  have hp1 := Uint16AfterSzOrOrd_field mem 9 t.menu _ hmenu hB
  have hp2 := Uint16AfterSzOrOrd_field mem _ t.windowClass _ hcls hC
  have hcapRows := captionRows_layout lpName mem _ t.caption _ hcap hD
  have hp3 := Uint16AfterSz_of_drop mem _ t.caption _ hD hcap
  have hE : mem.drop (9 + t.menu.units.length + t.windowClass.units.length
      + (t.caption.length + 1)) = font ++ tl := by
    have := drop_shift mem _ (t.caption ++ [0]) (font ++ tl) (by simpa using hD)
    simpa using this
  have hF := drop_shift mem _ _ _ hE
  rw [← hlen] at hF
  have hloop := standardDialogItems_layout lpName mem t.items t.headUnits.length trailing
    hitems (by rw [hF, htl])
  unfold ProcessStandardDialogTemplate
  simp only [Option.bind_eq_bind, Option.some_bind, hn, hp1, hp2, hcapRows, hp3, hstyle,
    DS_SETFONT]
  by_cases hs : t.style &&& 0x40 ≠ 0
  · rw [if_pos hs] at hfont
    rw [if_pos hs]
    have hG : mem.drop (9 + t.menu.units.length + t.windowClass.units.length
        + (t.caption.length + 1) + 1) = t.typeface ++ 0 :: tl := by
      have := drop_shift mem _ [t.pointSize] (t.typeface ++ 0 :: tl)
        (by rw [hE, hfont]; simp)
      simpa using this
    have hp4 := Uint16AfterSz_of_drop mem _ t.typeface _ hG hface
    have hpos : 9 + t.menu.units.length + t.windowClass.units.length
        + (t.caption.length + 1) + 1 + (t.typeface.length + 1) = t.headUnits.length := by
      rw [hlen, hfont]; simp; omega
    simp only [hp4, hpos, Option.some_bind, hloop]
  · rw [if_neg hs] at hfont
    rw [if_neg hs]
    have hpos : 9 + t.menu.units.length + t.windowClass.units.length
        + (t.caption.length + 1) = t.headUnits.length := by
      rw [hlen, hfont]; simp
    simp only [hpos, Option.some_bind, hloop]

/-! ### Columns of the rows -/

theorem escapeCrLfTab_ne_nil (s : WStr) (h : s ≠ []) : escapeCrLfTab s ≠ [] := by
  cases s with
  | nil => exact absurd rfl h
  | cons c s =>
    unfold escapeCrLfTab
    rw [List.flatMap_cons]
    split_ifs <;> simp

theorem digitChar_isDigit : ∀ m, m < 10 → 48 ≤ (Nat.digitChar m).toNat ∧ (Nat.digitChar m).toNat ≤ 57 := by
  decide

theorem toDigitsCore_digits (fuel : Nat) : ∀ (n : Nat) (ds : List Char),
    (∀ c ∈ ds, 48 ≤ c.toNat ∧ c.toNat ≤ 57) →
    ∀ c ∈ Nat.toDigitsCore 10 fuel n ds, 48 ≤ c.toNat ∧ c.toNat ≤ 57 := by
  induction fuel with
  | zero => intro n ds h; simpa [Nat.toDigitsCore] using h
  | succ fuel ih =>
    intro n ds h
    have hd := digitChar_isDigit (n % 10) (Nat.mod_lt _ (by decide))
    have h' : ∀ c ∈ Nat.digitChar (n % 10) :: ds, 48 ≤ c.toNat ∧ c.toNat ≤ 57 := by
      intro c hc
      rcases List.mem_cons.mp hc with e | e
      · rw [e]; exact hd
      · exact h c e
    unfold Nat.toDigitsCore
    by_cases h0 : n / 10 = 0
    · simpa [h0] using h'
    · simpa [h0] using ih (n / 10) _ h'

/-- Every unit of a decimal rendering is a digit. -/
theorem decimal_digits (n : Nat) : ∀ c ∈ decimal n, 48 ≤ c ∧ c ≤ 57 := by
  intro c hc
  unfold decimal Nat.toDigits at hc
  obtain ⟨ch, hch, rfl⟩ := List.mem_map.mp hc
  exact toDigitsCore_digits _ _ _ (by simp) ch hch

theorem decimal_ne_caption (n : Nat) : decimal n ≠ sz_Caption_ := by
  intro h
  have h91 : (91 : Nat) ∈ decimal n := by rw [h]; decide
  have := decimal_digits n 91 h91
  omega

/-! ### The bound on the passes of the menu loops is never reached -/

theorem szLen_pos : ∀ (l : List Nat) (n : Nat), szLen l = some n → 1 ≤ n := by
  intro l
  induction l with
  | nil => intro n h; simp [szLen] at h
  | cons w ws ih =>
    intro n h
    unfold szLen at h
    by_cases hw : w = 0
    · simp [hw] at h; omega
    · simp only [hw, if_false, Option.map_eq_some'] at h
      obtain ⟨m, _, rfl⟩ := h
      omega

theorem Uint16AfterSz_advance (mem : List Nat) (p r : Nat) (h : Uint16AfterSz mem p = some r) :
    p + 1 ≤ r := by
  unfold Uint16AfterSz at h
  simp only [Option.map_eq_some'] at h
  obtain ⟨n, hn, rfl⟩ := h
  have := szLen_pos _ _ hn
  omega

theorem standardMenuItem_advance (lpName : ResourceName) (mem : List Nat) (p : Nat)
    (rows : List TextRecord) (pNext : Nat)
    (h : standardMenuItem lpName mem p = some (rows, pNext)) : p + 2 ≤ pNext := by
  unfold standardMenuItem at h
  simp only [Option.bind_eq_bind, Option.bind_eq_some] at h
  obtain ⟨wFlags, _, h⟩ := h
  by_cases hp : wFlags &&& MF_POPUP ≠ 0
  · rw [if_pos hp] at h
    simp only [Option.bind_eq_bind, Option.bind_eq_some, Option.some.injEq, Prod.mk.injEq] at h
    obtain ⟨_, _, r, hr, _, rfl⟩ := h
    have := Uint16AfterSz_advance _ _ _ hr
    omega
  · rw [if_neg hp] at h
    simp only [Option.bind_eq_bind, Option.bind_eq_some, Option.some.injEq, Prod.mk.injEq] at h
    obtain ⟨_, _, _, _, r, hr, _, rfl⟩ := h
    have := Uint16AfterSz_advance _ _ _ hr
    omega

theorem extendedMenuItem_advance (lpName : ResourceName) (mem : List Nat) (p : Nat)
    (rows : List TextRecord) (pNext : Nat)
    (h : extendedMenuItem lpName mem p = some (rows, pNext)) : p + 2 ≤ pNext := by
  have hal : p ≤ alignDword p := by unfold alignDword; split_ifs <;> omega
  unfold extendedMenuItem at h
  simp only [Option.bind_eq_bind, Option.bind_eq_some] at h
  obtain ⟨dwType, _, wFlags, _, h⟩ := h
  by_cases hn : dwType &&& (MFT_SEPARATOR ||| MFT_BITMAP) ≠ 0
  · rw [if_pos hn] at h
    simp only [Option.some.injEq, Prod.mk.injEq] at h
    omega
  · rw [if_neg hn] at h
    simp only [Option.bind_eq_bind, Option.bind_eq_some] at h
    obtain ⟨_, _, _, _, r, hr, h⟩ := h
    simp only [Option.some.injEq, Prod.mk.injEq] at h
    have := Uint16AfterSz_advance _ _ _ hr
    obtain ⟨_, rfl⟩ := h
    split_ifs <;> omega

/-- More passes than `f + 1` change nothing once `dwResourceSize ≤ 2 * (p + 1) + 2 * f`. -/
theorem standardMenuLoop_fuel (lpName : ResourceName) (mem : List Nat) (dwResourceSize : Nat) :
    ∀ (f p k : Nat), dwResourceSize ≤ 2 * (p + 1) + 2 * f →
      standardMenuLoop lpName mem dwResourceSize (f + 1 + k) p =
        standardMenuLoop lpName mem dwResourceSize (f + 1) p := by
  intro f
  induction f with
  | zero =>
    intro p k h
    have hr : InAddressRange dwResourceSize (p + 1) = false := by
      simp only [InAddressRange, decide_eq_false_iff_not]; omega
    rw [show 0 + 1 + k = k + 1 by omega]
    simp [standardMenuLoop, hr]
  | succ f ih =>
    intro p k h
    rw [show f + 1 + 1 + k = (f + 1 + k) + 1 by omega]
    unfold standardMenuLoop
    by_cases hr : InAddressRange dwResourceSize (p + 1) = true
    · simp only [hr, if_true, Option.bind_eq_bind]
      cases hstep : standardMenuItem lpName mem p with
      | none => rfl
      | some res =>
        obtain ⟨rows, pNext⟩ := res
        have hadv := standardMenuItem_advance lpName mem p rows pNext hstep
        simp only [Option.some_bind]
        rw [ih pNext k (by omega)]
    · simp [hr]

/-- The same for the loop of the extended menu decoder. -/
theorem extendedMenuLoop_fuel (lpName : ResourceName) (mem : List Nat) (dwResourceSize : Nat) :
    ∀ (f p k : Nat), dwResourceSize ≤ 2 * (p + 1) + 2 * f →
      extendedMenuLoop lpName mem dwResourceSize (f + 1 + k) p =
        extendedMenuLoop lpName mem dwResourceSize (f + 1) p := by
  intro f
  induction f with
  | zero =>
    intro p k h
    have hr : InAddressRange dwResourceSize (p + 1) = false := by
      simp only [InAddressRange, decide_eq_false_iff_not]; omega
    rw [show 0 + 1 + k = k + 1 by omega]
    simp [extendedMenuLoop, hr]
  | succ f ih =>
    intro p k h
    rw [show f + 1 + 1 + k = (f + 1 + k) + 1 by omega]
    unfold extendedMenuLoop
    by_cases hr : InAddressRange dwResourceSize (p + 1) = true
    · simp only [hr, if_true, Option.bind_eq_bind]
      cases hstep : extendedMenuItem lpName mem p with
      | none => rfl
      | some res =>
        obtain ⟨rows, pNext⟩ := res
        have hadv := extendedMenuItem_advance lpName mem p rows pNext hstep
        simp only [Option.some_bind]
        rw [ih pNext k (by omega)]
    · simp [hr]

/-- The decoders give the same result with any larger bound on the passes. -/
theorem menuLoops_bound_unreached (lpName : ResourceName) (mem : List Nat)
    (dwResourceSize k : Nat) :
    standardMenuLoop lpName mem dwResourceSize (dwResourceSize + 1 + k) 2 =
      standardMenuLoop lpName mem dwResourceSize (dwResourceSize + 1) 2 ∧
    extendedMenuLoop lpName mem dwResourceSize (dwResourceSize + 1 + k) 4 =
      extendedMenuLoop lpName mem dwResourceSize (dwResourceSize + 1) 4 :=
  ⟨standardMenuLoop_fuel lpName mem dwResourceSize dwResourceSize 2 k (by omega),
   extendedMenuLoop_fuel lpName mem dwResourceSize dwResourceSize 4 k (by omega)⟩

/-! ### Alignment and type bits -/

theorem land_three (x : Nat) : x &&& 0x03 = x % 4 := by
  have := Nat.and_pow_two_sub_one_eq_mod x 2
  simpa using this

theorem alignDword_spec (p : Nat) :
    (2 * alignDword p) % 4 = 0 ∧ p ≤ alignDword p ∧
      ∀ q, p ≤ q → (2 * q) % 4 = 0 → alignDword p ≤ q := by
  unfold alignDword
  by_cases h : (2 * p) % 4 = 0
  · rw [if_pos h]
    exact ⟨h, Nat.le_refl _, fun q hq _ => hq⟩
  · rw [if_neg h]
    refine ⟨by omega, by omega, fun q hq hq4 => ?_⟩
    omega

theorem alignDword_idem (p : Nat) : alignDword (alignDword p) = alignDword p := by
  have h := (alignDword_spec p).1
  generalize alignDword p = q at h ⊢
  unfold alignDword
  rw [if_pos h]

theorem alignLoop_eq (base p fuel : Nat) (hbase : base % 4 = 0) :
    alignLoop (fuel + 1) (base + 2 * p) = base + 2 * alignDword p := by
  unfold alignDword
  by_cases h : (2 * p) % 4 = 0
  · have h0 : (base + 2 * p) % 4 = 0 := by omega
    simp [alignLoop, land_three, h0, h]
  · have h0 : (base + 2 * p) % 4 ≠ 0 := by omega
    have h1 : (base + 2 * p + 2) % 4 = 0 := by omega
    cases fuel with
    | zero => simp [alignLoop, land_three, h0, h]; omega
    | succ f => simp [alignLoop, land_three, h0, h1, h]; omega

theorem noText_bits (dwType : Nat) :
    dwType &&& (MFT_SEPARATOR ||| MFT_BITMAP) ≠ 0 ↔ (dwType &&& 0x800 ≠ 0 ∨ dwType &&& 0x4 ≠ 0) := by
  unfold MFT_SEPARATOR MFT_BITMAP
  rw [Nat.and_or_distrib_left]
  constructor
  · intro h
    by_contra hc
    push_neg at hc
    apply h
    rw [hc.1, hc.2]
    rfl
  · rintro h hz
    have h1 : dwType &&& 0x800 = 0 := by
      apply Nat.eq_of_testBit_eq
      intro i
      have := congrArg (fun n => Nat.testBit n i) hz
      simp only [Nat.testBit_or, Nat.zero_testBit, Bool.or_eq_false_iff] at this
      simpa using this.1
    have h2 : dwType &&& 0x4 = 0 := by
      apply Nat.eq_of_testBit_eq
      intro i
      have := congrArg (fun n => Nat.testBit n i) hz
      simp only [Nat.testBit_or, Nat.zero_testBit, Bool.or_eq_false_iff] at this
      simpa using this.2
    rcases h with h | h
    · exact h h1
    · exact h h2
/-! ### One item of an extended menu -/

theorem extendedMenuItem_noText (lpName : ResourceName) (mem : List Nat) (p : Nat)
    (dwType dwState uId wFlags : Nat) (rest : List Nat)
    (htype : dwType &&& (MFT_SEPARATOR ||| MFT_BITMAP) ≠ 0)
    (hmem : mem.drop (alignDword p) =
      dwordUnits dwType ++ dwordUnits dwState ++ dwordUnits uId ++ [wFlags] ++ rest) :
    extendedMenuItem lpName mem p = some ([], alignDword p + 7) := by
  obtain ⟨q, hq⟩ : ∃ q, alignDword p = q := ⟨_, rfl⟩
  rw [hq] at hmem ⊢
  have hA : mem.drop q = [dwType % 65536, dwType / 65536, dwState % 65536, dwState / 65536,
      uId % 65536, uId / 65536, wFlags] ++ rest := by
    simpa [dwordUnits] using hmem
  have htypeRead : readU32 mem q = some dwType :=
    readU32_add_of_drop mem _ q 0 dwType hA rfl rfl
  have hflags : readU16 mem (q + 6) = some wFlags :=
    (readU16_add_of_drop mem _ q 6 hA).trans (by simp)
  unfold extendedMenuItem
  simp only [hq, Option.bind_eq_bind, Option.some_bind, htypeRead, hflags]
  rw [if_pos htype]

theorem extendedMenuLoop_step (lpName : ResourceName) (mem : List Nat)
    (dwResourceSize fuel p : Nat) (rows : List TextRecord) (pNext : Nat)
    (hr : InAddressRange dwResourceSize (p + 1) = true)
    (hstep : extendedMenuItem lpName mem p = some (rows, pNext)) :
    extendedMenuLoop lpName mem dwResourceSize (fuel + 1) p =
      (extendedMenuLoop lpName mem dwResourceSize fuel pNext).map (rows ++ ·) := by
  rw [extendedMenuLoop]
  simp only [hr, if_true, hstep, Option.bind_eq_bind, Option.some_bind]
  generalize extendedMenuLoop lpName mem dwResourceSize fuel pNext = r
  cases r <;> rfl

theorem standardMenuLoop_step (lpName : ResourceName) (mem : List Nat)
    (dwResourceSize fuel p : Nat) (rows : List TextRecord) (pNext : Nat)
    (hr : InAddressRange dwResourceSize (p + 1) = true)
    (hstep : standardMenuItem lpName mem p = some (rows, pNext)) :
    standardMenuLoop lpName mem dwResourceSize (fuel + 1) p =
      (standardMenuLoop lpName mem dwResourceSize fuel pNext).map (rows ++ ·) := by
  rw [standardMenuLoop]
  simp only [hr, if_true, hstep, Option.bind_eq_bind, Option.some_bind]
  generalize standardMenuLoop lpName mem dwResourceSize fuel pNext = r
  cases r <;> rfl

theorem menuLoop_stop (lpName : ResourceName) (mem : List Nat) (dwResourceSize fuel p : Nat)
    (hr : InAddressRange dwResourceSize (p + 1) = false) :
    standardMenuLoop lpName mem dwResourceSize (fuel + 1) p = some [] ∧
    extendedMenuLoop lpName mem dwResourceSize (fuel + 1) p = some [] := by
  constructor
  · rw [standardMenuLoop]; simp [hr]
  · rw [extendedMenuLoop]; simp [hr]

/-! ### The classic menu decoder on a list of items -/

theorem RemoveTabAndAfter_id (s : WStr) (hs : 9 ∉ s) : RemoveTabAndAfter s = s := by
  unfold RemoveTabAndAfter
  rw [List.takeWhile_eq_self_iff]
  intro x hx
  have : x ≠ 9 := fun e => hs (e ▸ hx)
  simp [this]

theorem standardMenuRows_noTab (lpName : ResourceName) (idColumn text : WStr) (hs : 9 ∉ text) :
    standardMenuRows lpName idColumn text =
      if text ≠ [] then [⟨RSRCID_t lpName, idColumn, RemoveAccelsFromText text, text, none⟩]
      else [] := by
  unfold standardMenuRows
  cases text with
  | nil => simp
  | cons c s => simp [RemoveTabAndAfter_id (c :: s) hs]

theorem MenuItem.units_length (it : MenuItem) :
    it.units.length = (if it.flags &&& 0x10 ≠ 0 then 1 else 2) + it.text.length + 1 := by
  unfold MenuItem.units
  split_ifs <;> simp <;> omega

theorem standardMenuItem_layout (lpName : ResourceName) (mem : List Nat) (p : Nat)
    (it : MenuItem) (rest : List Nat) (h0 : 0 ∉ it.text) (h9 : 9 ∉ it.text)
    (hmem : mem.drop p = it.units ++ rest) :
    standardMenuItem lpName mem p = some (menuRowOf lpName it, p + it.units.length) := by
  have hlen := it.units_length
  unfold MenuItem.units at hmem
  by_cases hpop : it.flags &&& 0x10 ≠ 0
  · rw [if_pos hpop] at hmem hlen
    have hA : mem.drop p = it.flags :: (it.text ++ 0 :: rest) := by simpa using hmem
    have hf := readU16_of_drop mem p _ _ hA
    have hB : mem.drop (p + 1) = it.text ++ 0 :: rest :=
      drop_shift mem p [it.flags] _ hA
    have hs := readSz_of_drop mem (p + 1) _ _ hB h0
    have hn := Uint16AfterSz_of_drop mem (p + 1) _ _ hB h0
    unfold standardMenuItem
    simp only [hf, Option.bind_eq_bind, Option.some_bind, MF_POPUP]
    rw [if_pos hpop]
    simp only [hs, hn, Option.bind_eq_bind, Option.some_bind, standardMenuRows_noTab _ _ _ h9,
      menuRowOf, if_pos hpop, hlen, Option.some.injEq, Prod.mk.injEq, true_and]
    omega
  · rw [if_neg hpop] at hmem hlen
    have hA : mem.drop p = it.flags :: it.id :: (it.text ++ 0 :: rest) := by simpa using hmem
    have hf := readU16_of_drop mem p _ _ hA
    have hid := readU16_succ_of_drop mem p _ _ _ hA
    have hB : mem.drop (p + 1 + 1) = it.text ++ 0 :: rest := by
      have := drop_shift mem p [it.flags, it.id] _ hA
      simpa [Nat.add_assoc] using this
    have hs := readSz_of_drop mem (p + 1 + 1) _ _ hB h0
    have hn := Uint16AfterSz_of_drop mem (p + 1 + 1) _ _ hB h0
    unfold standardMenuItem
    simp only [hf, Option.bind_eq_bind, Option.some_bind, MF_POPUP]
    rw [if_neg hpop]
    simp only [hid, hs, hn, Option.bind_eq_bind, Option.some_bind,
      standardMenuRows_noTab _ _ _ h9, menuRowOf, if_neg hpop, hlen, Option.some.injEq,
      Prod.mk.injEq, true_and]
    omega

theorem standardMenuLoop_layout (lpName : ResourceName) (mem : List Nat) (dwResourceSize : Nat) :
    ∀ (its : List MenuItem) (p fuel : Nat) (rest : List Nat),
      (∀ it ∈ its, 0 ∉ it.text ∧ 9 ∉ it.text) →
      mem.drop p = classicMenuUnits its ++ rest →
      2 * (p + (classicMenuUnits its).length) ≤ dwResourceSize →
      dwResourceSize ≤ 2 * (p + (classicMenuUnits its).length) + 2 →
      its.length < fuel →
      standardMenuLoop lpName mem dwResourceSize fuel p = some (its.flatMap (menuRowOf lpName)) := by
  intro its
  induction its with
  | nil =>
    intro p fuel rest _ _ hlo hhi hfuel
    obtain ⟨f, rfl⟩ : ∃ f, fuel = f + 1 := ⟨fuel - 1, by simp at hfuel; omega⟩
    have hr : InAddressRange dwResourceSize (p + 1) = false := by
      simp only [InAddressRange, decide_eq_false_iff_not]
      simp [classicMenuUnits] at hhi
      omega
    simpa using (menuLoop_stop lpName mem dwResourceSize f p hr).1
  | cons it its ih =>
    intro p fuel rest hwf hmem hlo hhi hfuel
    obtain ⟨f, rfl⟩ : ∃ f, fuel = f + 1 := ⟨fuel - 1, by simp at hfuel; omega⟩
    have hit := hwf it (by simp)
    have hwf' : ∀ i ∈ its, 0 ∉ i.text ∧ 9 ∉ i.text := fun i hi => hwf i (by simp [hi])
    have hunits : classicMenuUnits (it :: its) = it.units ++ classicMenuUnits its := by
      simp [classicMenuUnits]
    rw [hunits] at hmem hlo hhi
    have hlen := it.units_length
    have hge : 2 ≤ it.units.length := by rw [hlen]; split_ifs <;> omega
    have hr : InAddressRange dwResourceSize (p + 1) = true := by
      simp only [InAddressRange, decide_eq_true_eq]
      simp only [List.length_append] at hlo
      omega
    have hstep := standardMenuItem_layout lpName mem p it (classicMenuUnits its ++ rest)
      hit.1 hit.2 (by simpa using hmem)
    have hnext : mem.drop (p + it.units.length) = classicMenuUnits its ++ rest :=
      drop_shift mem p it.units _ (by simpa using hmem)
    simp only [List.length_append] at hlo hhi
    have hrec := ih (p + it.units.length) f rest hwf' hnext (by omega) (by omega)
      (by simp at hfuel; omega)
    rw [standardMenuLoop_step lpName mem dwResourceSize f p _ _ hr hstep, hrec]
    simp

/-! ### The extended menu decoder on a list of items -/

theorem extendedMenuItem_text (lpName : ResourceName) (mem : List Nat) (p : Nat)
    (it : MenuExItem) (rest : List Nat) (hno : ¬ it.noText) (h0 : 0 ∉ it.text)
    (hmem : mem.drop (alignDword p) = it.units ++ rest) :
    extendedMenuItem lpName mem p =
      some (menuExRowOf lpName it, alignDword p + it.units.length) := by
  obtain ⟨q, hq⟩ : ∃ q, alignDword p = q := ⟨_, rfl⟩
  rw [hq] at hmem ⊢
  obtain ⟨sub, hsub⟩ : ∃ sub : List Nat,
      sub = (if it.wFlags &&& 0x01 ≠ 0 then dwordUnits it.dwHelpId else []) := ⟨_, rfl⟩
  have hA : mem.drop q = [it.dwType % 65536, it.dwType / 65536, it.dwState % 65536,
      it.dwState / 65536, it.uId % 65536, it.uId / 65536, it.wFlags] ++
      (it.text ++ 0 :: (sub ++ rest)) := by
    rw [hmem, hsub]
    simp [MenuExItem.units, dwordUnits, hno]
  have hlen : it.units.length = 7 + (it.text.length + 1) + sub.length := by
    rw [hsub]
    simp [MenuExItem.units, dwordUnits, hno]
    omega
  have htype : readU32 mem q = some it.dwType :=
    readU32_add_of_drop mem _ q 0 it.dwType hA rfl rfl
  have hid : readU32 mem (q + 4) = some it.uId :=
    readU32_add_of_drop mem _ q 4 it.uId hA rfl rfl
  have hflags : readU16 mem (q + 6) = some it.wFlags :=
    (readU16_add_of_drop mem _ q 6 hA).trans (by simp)
  have hB := drop_shift mem q _ _ hA
  simp only [List.length_cons, List.length_nil, Nat.zero_add, Nat.reduceAdd] at hB
  have hs := readSz_of_drop mem (q + 7) _ _ hB h0
  have hn := Uint16AfterSz_of_drop mem (q + 7) _ _ hB h0
  have hbits : ¬ (it.dwType &&& (MFT_SEPARATOR ||| MFT_BITMAP) ≠ 0) :=
    fun h => hno ((noText_bits it.dwType).mp h)
  have hrows : extendedMenuRows lpName mem q it.text = some (menuExRowOf lpName it) := by
    unfold extendedMenuRows menuExRowOf
    rw [if_neg hno]
    cases ht : it.text with
    | nil => simp
    | cons c s => simp [hid]
  unfold extendedMenuItem
  simp only [hq, Option.bind_eq_bind, Option.some_bind, htype, hflags]
  rw [if_neg hbits]
  simp only [hs, hrows, hn, Option.bind_eq_bind, Option.some_bind, Option.some.injEq,
    Prod.mk.injEq, true_and, hlen, hsub]
  by_cases hp : it.wFlags &&& 0x01 ≠ 0
  · rw [if_pos hp, if_pos hp]
    simp only [dwordUnits, List.length_cons, List.length_nil]
    omega
  · rw [if_neg hp, if_neg hp]
    simp only [List.length_nil]
    omega

theorem MenuExItem.units_length_ge (it : MenuExItem) : 7 ≤ it.units.length := by
  simp only [MenuExItem.units, dwordUnits, List.length_append, List.length_cons,
    List.length_nil]
  omega

theorem extendedMenuItem_layout (lpName : ResourceName) (mem : List Nat) (p : Nat)
    (it : MenuExItem) (rest : List Nat) (h0 : 0 ∉ it.text)
    (hmem : mem.drop (alignDword p) = it.units ++ rest) :
    extendedMenuItem lpName mem p =
      some (menuExRowOf lpName it, alignDword p + it.units.length) := by
  by_cases hno : it.noText
  · have hu : it.units = dwordUnits it.dwType ++ dwordUnits it.dwState ++ dwordUnits it.uId
        ++ [it.wFlags] := by simp [MenuExItem.units, hno]
    have := extendedMenuItem_noText lpName mem p it.dwType it.dwState it.uId it.wFlags rest
      ((noText_bits it.dwType).mpr hno) (by rw [hmem, hu])
    rw [this, hu]
    simp [menuExRowOf, hno, dwordUnits]
  · exact extendedMenuItem_text lpName mem p it rest hno h0 hmem

theorem extendedMenuLoop_layout (lpName : ResourceName) (mem : List Nat) (dwResourceSize : Nat) :
    ∀ (its : List MenuExItem) (p fuel : Nat) (rest : List Nat),
      (∀ it ∈ its, 0 ∉ it.text) →
      mem.drop p = layoutMenuEx p its ++ rest →
      2 * (p + (layoutMenuEx p its).length) ≤ dwResourceSize →
      dwResourceSize ≤ 2 * (p + (layoutMenuEx p its).length) + 2 →
      its.length < fuel →
      extendedMenuLoop lpName mem dwResourceSize fuel p =
        some (its.flatMap (menuExRowOf lpName)) := by
  intro its
  induction its with
  | nil =>
    intro p fuel rest _ _ hlo hhi hfuel
    obtain ⟨f, rfl⟩ : ∃ f, fuel = f + 1 := ⟨fuel - 1, by simp at hfuel; omega⟩
    have hr : InAddressRange dwResourceSize (p + 1) = false := by
      simp only [InAddressRange, decide_eq_false_iff_not]
      simp [layoutMenuEx] at hhi
      omega
    simpa using (menuLoop_stop lpName mem dwResourceSize f p hr).2
  | cons it its ih =>
    intro p fuel rest hwf hmem hlo hhi hfuel
    obtain ⟨f, rfl⟩ : ∃ f, fuel = f + 1 := ⟨fuel - 1, by simp at hfuel; omega⟩
    have hit := hwf it (by simp)
    have hwf' : ∀ i ∈ its, 0 ∉ i.text := fun i hi => hwf i (by simp [hi])
    obtain ⟨pad, hpad, hal⟩ : ∃ pad : List Nat,
        pad = (if (2 * p) % 4 = 0 then [] else [0]) ∧ alignDword p = p + pad.length := by
      refine ⟨_, rfl, ?_⟩
      unfold alignDword
      by_cases hp : (2 * p) % 4 = 0 <;> simp [hp]
    have hlay : layoutMenuEx p (it :: its) = pad ++ (it.units ++
        layoutMenuEx (p + pad.length + it.units.length) its) := by
      rw [hpad]; simp [layoutMenuEx]
    rw [hlay] at hmem hlo hhi
    simp only [List.length_append] at hlo hhi
    have hge := it.units_length_ge
    have hr : InAddressRange dwResourceSize (p + 1) = true := by
      simp only [InAddressRange, decide_eq_true_eq]
      omega
    have h2 := drop_shift mem p pad _ (by simpa [List.append_assoc] using hmem)
    rw [← hal] at h2
    have hstep := extendedMenuItem_layout lpName mem p it _ hit h2
    have h3 := drop_shift mem (alignDword p) it.units _ h2
    rw [hal] at h3 hstep
    have hrec := ih (p + pad.length + it.units.length) f rest hwf' h3 (by omega) (by omega)
      (by simp at hfuel; omega)
    rw [extendedMenuLoop_step lpName mem dwResourceSize f p _ _ hr hstep, hrec]
    simp
theorem layoutMenuEx_length_ge : ∀ (its : List MenuExItem) (p : Nat),
    its.length ≤ (layoutMenuEx p its).length := by
  intro its
  induction its with
  | nil => intro p; simp
  | cons it its ih =>
    intro p
    have h1 := it.units_length_ge
    have h2 := ih (p + (if (2 * p) % 4 = 0 then ([] : List Nat) else [0]).length
      + it.units.length)
    simp only [layoutMenuEx, List.length_append, List.length_cons] at h2 ⊢
    omega

/-! ### Message entries at a known place -/

namespace MessageTable

theorem readLE16_of_drop (mem : List Nat) (q v : Nat) (rest : List Nat)
    (h : mem.drop q = le16 v ++ rest) : readLE16 mem q = some v := by
  have h0 := getElem?_of_drop mem _ q 0 h
  have h1 := getElem?_of_drop mem _ q 1 h
  unfold readLE16
  rw [Nat.add_zero] at h0
  rw [h0, h1]
  simp only [le16, List.cons_append, List.getElem?_cons_zero, List.getElem?_cons_succ,
    Option.some.injEq]
  exact Nat.mod_add_div v 256

theorem payloadBytes_eq (length : Nat) (h4 : 4 ≤ length) :
    payloadBytes length = length - 4 := by
  unfold payloadBytes
  rw [if_pos h4]

theorem payloadBytes_mod (length : Nat) (h : length < 2 ^ 64) :
    payloadBytes length = (length + 2 ^ 64 - 4) % 2 ^ 64 := by
  unfold payloadBytes
  split_ifs <;> omega

theorem readLE16_units (mem : List Nat) (rest : List Nat) :
    ∀ (units : List Nat) (q i u : Nat), mem.drop q = units.flatMap le16 ++ rest →
      units[i]? = some u → readLE16 mem (q + 2 * i) = some u := by
  intro units
  induction units with
  | nil => intro q i u _ hu; simp at hu
  | cons c cs ih =>
    intro q i u h hu
    have h' : mem.drop q = le16 c ++ (cs.flatMap le16 ++ rest) := by
      simpa [List.flatMap_cons, List.append_assoc] using h
    cases i with
    | zero =>
      simp only [List.getElem?_cons_zero, Option.some.injEq] at hu
      subst hu
      exact readLE16_of_drop mem q c _ h'
    | succ i =>
      have hs := drop_shift mem q (le16 c) _ h'
      have := ih (q + (le16 c).length) i u hs (by simpa using hu)
      have e : q + 2 * (i + 1) = q + (le16 c).length + 2 * i := by simp [le16]; omega
      rw [e]; exact this

theorem trimTrailingNul_eq (read : Nat → Option Nat) (units : List Nat)
    (hread : ∀ i u, units[i]? = some u → read i = some u) :
    ∀ n, n ≤ units.length →
      trimTrailingNul read n = some ((units.take n).rdropWhile (· == 0)).length := by
  intro n
  induction n with
  | zero => intro _; simp [trimTrailingNul]
  | succ n ih =>
    intro hn
    have hlt : n < units.length := hn
    have hget : units[n]? = some units[n] := List.getElem?_eq_getElem hlt
    have htake : units.take (n + 1) = units.take n ++ [units[n]] := by
      rw [List.take_succ, hget]; rfl
    rw [trimTrailingNul, hread n _ hget, htake, List.rdropWhile_concat]
    by_cases h0 : units[n] = 0
    · simp [h0, ih (Nat.le_of_lt hlt)]
    · simpa [h0] using hn

theorem readWideString_units (mem : List Nat) (rest : List Nat) :
    ∀ (a : List Nat) (q : Nat), mem.drop q = a.flatMap le16 ++ rest →
      readWideString mem q a.length = some a := by
  intro a
  induction a with
  | nil => intro q _; rfl
  | cons c cs ih =>
    intro q h
    have h' : mem.drop q = le16 c ++ (cs.flatMap le16 ++ rest) := by
      simpa [List.flatMap_cons, List.append_assoc] using h
    have hs := drop_shift mem q (le16 c) _ h'
    have e : q + (le16 c).length = q + 2 := by simp [le16]
    rw [e] at hs
    simp only [List.length_cons, readWideString, readLE16_of_drop mem q c _ h', ih (q + 2) hs,
      Option.map_some']

/-- The wide string of a Unicode entry: the payload units without the trailing NULs. -/
theorem unicodeEntryString_layout (mem : List Nat) (p length flags : Nat)
    (units rest : List Nat) (h4 : 4 ≤ length)
    (hunits : units.length = (length - 4) / 2)
    (hmem : mem.drop p = le16 length ++ le16 flags ++ units.flatMap le16 ++ rest) :
    unicodeEntryString mem p = some (.str (units.rdropWhile (· == 0))) := by
  have hA : mem.drop p = le16 length ++ (le16 flags ++ (units.flatMap le16 ++ rest)) := by
    simpa [List.append_assoc] using hmem
  have hlen := readLE16_of_drop mem p length _ hA
  have hB : mem.drop (p + 4) = units.flatMap le16 ++ rest := by
    have := drop_shift mem p (le16 length ++ le16 flags) (units.flatMap le16 ++ rest)
      (by simpa [List.append_assoc] using hmem)
    simpa [le16] using this
  have htrim := trimTrailingNul_eq (fun i => readLE16At mem (p + 4 + 2 * i)) units
    (fun i u hu => by
      show readLE16At mem (p + 4 + 2 * i) = some u
      unfold readLE16At
      rw [readLE16_units mem rest units (p + 4) i u hB hu])
    units.length (Nat.le_refl _)
  rw [List.take_length] at htrim
  obtain ⟨b, hb⟩ := List.rdropWhile_prefix (fun u : Nat => u == 0) units
  have hread := readWideString_units mem (b.flatMap le16 ++ rest)
    (units.rdropWhile (· == 0)) (p + 4)
    (by rw [hB]; conv_lhs => rw [← hb]; simp [List.flatMap_append, List.append_assoc])
  have hcount : payloadBytes length / 2 = units.length := by
    rw [payloadBytes_eq length h4, hunits]
  unfold unicodeEntryString
  rw [hlen, Option.bind_eq_bind, Option.some_bind, hcount, htrim, Option.some_bind]
  unfold stdWstring
  rw [hread]

end MessageTable

namespace MessageTable

/-- What `rdropWhile (· == 0)` leaves: the list without its trailing NULs. -/
theorem rdropWhile_nul_spec (l : List Nat) :
    (∃ k, l = l.rdropWhile (· == 0) ++ List.replicate k 0) ∧
      (l.rdropWhile (· == 0)).getLast? ≠ some 0 := by
  induction l using List.reverseRecOn with
  | nil => exact ⟨⟨0, by simp⟩, by simp⟩
  | append_singleton l a ih =>
    rw [List.rdropWhile_concat]
    by_cases ha : a = 0
    · subst ha
      obtain ⟨⟨k, hk⟩, hlast⟩ := ih
      refine ⟨⟨k + 1, ?_⟩, by simpa using hlast⟩
      simp only [beq_self_eq_true, if_true]
      conv_lhs => rw [hk]
      rw [List.replicate_succ', List.append_assoc]
    · have hb : (a == 0) = false := by simpa using ha
      simp only [hb, Bool.false_eq_true, if_false]
      exact ⟨⟨0, by simp⟩, by simp [ha]⟩

end MessageTable

/-! ### The units before the first item of an extended menu -/

theorem readU16_tail (a b a' b' : Nat) (rest : List Nat) (i : Nat) (hi : 2 ≤ i) :
    readU16 (a :: b :: rest) i = readU16 (a' :: b' :: rest) i := by
  obtain ⟨k, rfl⟩ : ∃ k, i = k + 2 := ⟨i - 2, by omega⟩
  simp [readU16]

theorem readU32_tail (a b a' b' : Nat) (rest : List Nat) (i : Nat) (hi : 2 ≤ i) :
    readU32 (a :: b :: rest) i = readU32 (a' :: b' :: rest) i := by
  obtain ⟨k, rfl⟩ : ∃ k, i = k + 2 := ⟨i - 2, by omega⟩
  simp [readU32]

theorem drop_tail (a b a' b' : Nat) (rest : List Nat) (i : Nat) (hi : 2 ≤ i) :
    (a :: b :: rest).drop i = (a' :: b' :: rest).drop i := by
  obtain ⟨k, rfl⟩ : ∃ k, i = k + 2 := ⟨i - 2, by omega⟩
  simp

theorem extendedMenuItem_tail (lpName : ResourceName) (a b a' b' : Nat) (rest : List Nat)
    (p : Nat) (hp : 2 ≤ p) :
    extendedMenuItem lpName (a :: b :: rest) p = extendedMenuItem lpName (a' :: b' :: rest) p := by
  have hal := (alignDword_spec p).2.1
  obtain ⟨q, hq⟩ : ∃ q, alignDword p = q := ⟨_, rfl⟩
  rw [hq] at hal
  have h1 := readU32_tail a b a' b' rest q (by omega)
  have h2 := readU16_tail a b a' b' rest (q + 6) (by omega)
  have h3 : readSz (a :: b :: rest) (q + 7) = readSz (a' :: b' :: rest) (q + 7) := by
    unfold readSz; rw [drop_tail a b a' b' rest (q + 7) (by omega)]
  have h4 : Uint16AfterSz (a :: b :: rest) (q + 7) = Uint16AfterSz (a' :: b' :: rest) (q + 7) := by
    unfold Uint16AfterSz; rw [drop_tail a b a' b' rest (q + 7) (by omega)]
  have h5 : ∀ s, extendedMenuRows lpName (a :: b :: rest) q s
      = extendedMenuRows lpName (a' :: b' :: rest) q s := by
    intro s
    unfold extendedMenuRows
    rw [readU32_tail a b a' b' rest (q + 4) (by omega)]
  unfold extendedMenuItem
  simp only [hq, h1, h2, h3, h4, h5]

theorem extendedMenuLoop_tail (lpName : ResourceName) (a b a' b' : Nat) (rest : List Nat)
    (dwResourceSize : Nat) :
    ∀ (fuel p : Nat), 2 ≤ p →
      extendedMenuLoop lpName (a :: b :: rest) dwResourceSize fuel p
        = extendedMenuLoop lpName (a' :: b' :: rest) dwResourceSize fuel p := by
  intro fuel
  induction fuel with
  | zero => intro p _; rfl
  | succ fuel ih =>
    intro p hp
    rw [extendedMenuLoop, extendedMenuLoop, extendedMenuItem_tail lpName a b a' b' rest p hp]
    by_cases hr : InAddressRange dwResourceSize (p + 1) = true
    · simp only [hr, if_true]
      cases hitem : extendedMenuItem lpName (a' :: b' :: rest) p with
      | none => rfl
      | some r =>
        obtain ⟨rows, pNext⟩ := r
        have hadv := extendedMenuItem_advance lpName _ p rows pNext hitem
        simp only [Option.bind_eq_bind, Option.some_bind]
        rw [ih pNext (by omega)]
    · simp only [hr]
      rfl

/-! ### The loop over the ids of a block -/

namespace MessageTable

theorem entriesLoop_packed (mem : List Nat) (dwResourceSize highId : Nat)
    (h32 : highId < 2 ^ 32) :
    ∀ (es : List (WStr × Nat)) (fuel ixEntry p : Nat),
      packedAt mem dwResourceSize p es → ixEntry + es.length ≤ highId → es.length < fuel →
      InAddressRange dwResourceSize (p + (es.map Prod.snd).sum) = false →
      entriesLoop mem dwResourceSize highId fuel ixEntry p
        = some (rowsOf ixEntry es, .outOfRange) := by
  intro es
  induction es with
  | nil =>
    intro fuel ixEntry p _ hid hfuel hout
    obtain ⟨f, rfl⟩ : ∃ f, fuel = f + 1 := ⟨fuel - 1, by simp at hfuel; omega⟩
    simp only [List.map_nil, List.sum_nil, Nat.add_zero, List.length_nil] at hout hid
    rw [entriesLoop, if_pos hid]
    simp only [hout]
    rfl
  | cons e es ih =>
    intro fuel ixEntry p hp hid hfuel hout
    obtain ⟨f, rfl⟩ : ∃ f, fuel = f + 1 := ⟨fuel - 1, by simp at hfuel; omega⟩
    obtain ⟨hin, htext, hlen, hrest⟩ := hp
    simp only [List.length_cons] at hid hfuel
    simp only [List.map_cons, List.sum_cons] at hout
    have hnext : (ixEntry + 1) % 2 ^ 32 = ixEntry + 1 := Nat.mod_eq_of_lt (by omega)
    have hrec := ih f (ixEntry + 1) (p + e.2) hrest (by omega) (by omega)
      (by rw [Nat.add_assoc]; exact hout)
    rw [entriesLoop, if_pos (by omega : ixEntry ≤ highId)]
    simp only [hin, if_true, htext, hlen, hnext, hrec]
    rfl

theorem entriesLoop_endless :
    ∀ (fuel ixEntry : Nat), ixEntry < 2 ^ 32 →
      ∃ rows, entriesLoop endlessTable 20 0xFFFFFFFF fuel ixEntry 16 = some (rows, .unfinished)
        ∧ rows.length = fuel := by
  intro fuel
  induction fuel with
  | zero => intro ixEntry _; exact ⟨[], rfl, rfl⟩
  | succ fuel ih =>
    intro ixEntry hix
    obtain ⟨rows, hrows, hlen⟩ := ih ((ixEntry + 1) % 2 ^ 32) (Nat.mod_lt _ (by norm_num))
    have hin : InAddressRange 20 16 = true := by decide
    have htext : entryText endlessTable 16
        = some (.wide (L "[[[UTF-8 text (not supported)]]]")) := by decide
    have hzero : readLE16 endlessTable 16 = some 0 := by decide
    refine ⟨⟨ixEntry, L "[[[UTF-8 text (not supported)]]]"⟩ :: rows, ?_, by simp [hlen]⟩
    rw [entriesLoop, if_pos (by omega : ixEntry ≤ 0xFFFFFFFF)]
    simp only [hin, if_true, htext, hzero, Nat.add_zero, hrows]

end MessageTable

/-! ### The ampersands of the result -/

theorem replaceScan_paired (m : WStr → Bool) (len : Nat) :
    ∀ (t : WStr) (k : Nat), 38 ∉ t → AmpersandsPaired (replaceScan m len [38, 38] t k) := by
  intro t
  induction t with
  | nil => intro k _; simp only [replaceScan]; exact .nil
  | cons c cs ih =>
    intro k ht
    have hc : c ≠ 38 := fun e => ht (by simp [e])
    have hcs : 38 ∉ cs := fun h => ht (by simp [h])
    cases k with
    | zero =>
      simp only [replaceScan]
      split_ifs
      · exact .pair _ (ih _ hcs)
      · exact .char c _ hc (ih _ hcs)
    | succ k =>
      simp only [replaceScan]
      exact ih k hcs

theorem paired_run_head (s : WStr) (hs : AmpersandsPaired s) :
    ∀ (n : Nat) (post : WStr), s = List.replicate n 38 ++ post → post.head? ≠ some 38 →
      Even n := by
  induction hs with
  | nil => intro n post h _; cases n <;> simp_all [List.replicate_succ]
  | char c s hc _ _ =>
    intro n post h _
    cases n with
    | zero => exact ⟨0, rfl⟩
    | succ n =>
      simp only [List.replicate_succ, List.cons_append, List.cons.injEq] at h
      exact absurd h.1 hc
  | pair s _ ih =>
    intro n post h hpost
    cases n with
    | zero =>
      simp only [List.replicate_zero, List.nil_append] at h
      rw [← h] at hpost
      exact absurd rfl hpost
    | succ n =>
      cases n with
      | zero =>
        simp only [List.replicate_succ, List.replicate_zero, List.cons_append, List.nil_append,
          List.cons.injEq, true_and] at h
        rw [← h] at hpost
        exact absurd rfl hpost
      | succ n =>
        simp only [List.replicate_succ, List.cons_append, List.cons.injEq, true_and] at h
        obtain ⟨k, hk⟩ := ih n post h hpost
        exact ⟨k + 1, by omega⟩

theorem paired_run (s : WStr) (hs : AmpersandsPaired s) :
    ∀ (pre : WStr) (n : Nat) (post : WStr), s = pre ++ List.replicate n 38 ++ post →
      pre.getLast? ≠ some 38 → post.head? ≠ some 38 → Even n := by
  induction hs with
  | nil =>
    intro pre n post h _ _
    cases n with
    | zero => exact ⟨0, rfl⟩
    | succ n =>
      have := congrArg List.length h
      simp at this
      omega
  | char c s hc hs ih =>
    intro pre n post h hpre hpost
    cases pre with
    | nil => exact paired_run_head (c :: s) (.char c s hc hs) n post (by simpa using h) hpost
    | cons d pre =>
      simp only [List.cons_append, List.cons.injEq] at h
      refine ih pre n post h.2 ?_ hpost
      cases pre with
      | nil => simp
      | cons e pre => simpa [List.getLast?_cons_cons] using hpre
  | pair s hs ih =>
    intro pre n post h hpre hpost
    cases pre with
    | nil => exact paired_run_head (38 :: 38 :: s) (.pair s hs) n post (by simpa using h) hpost
    | cons d pre =>
      cases pre with
      | nil =>
        simp only [List.cons_append, List.nil_append, List.cons.injEq] at h
        exact absurd (by rw [← h.1]; rfl) hpre
      | cons e pre =>
        simp only [List.cons_append, List.cons.injEq] at h
        refine ih pre n post h.2.2 ?_ hpost
        cases pre with
        | nil => simp
        | cons f pre => simpa [List.getLast?_cons_cons] using hpre

theorem RemoveAccelsFromText_paired (s : WStr) : AmpersandsPaired (RemoveAccelsFromText s) := by
  rw [RemoveAccelsFromText_eq]
  have h := not_mem_removeAmp
    (replaceStringAll (regexReplaceAsianAccel s) [38, 38] [126, 96, 126])
  generalize replaceStringAll
    (replaceStringAll (regexReplaceAsianAccel s) [38, 38] [126, 96, 126]) [38] [] = t at h ⊢
  unfold replaceStringAll
  rw [if_neg (by simp)]
  exact replaceScan_paired _ _ t 0 h

theorem replaceStringAll_no_infix (pat rep : WStr) :
    ∀ s : WStr, ¬ pat <:+: s → replaceStringAll s pat rep = s := by
  intro s
  induction s with
  | nil => intro _; exact replaceStringAll_nil pat rep
  | cons c cs ih =>
    intro h
    have hpre : pat.isPrefixOf (c :: cs) = false := by
      cases hp : pat.isPrefixOf (c :: cs) with
      | false => rfl
      | true => exact absurd (List.isPrefixOf_iff_prefix.mp hp).isInfix h
    rw [replaceStringAll_miss pat rep c cs hpre,
      ih (fun hin => h (List.infix_cons hin))]

theorem replaceStringAll_infix (pat rep : WStr) (hp : pat ≠ []) :
    ∀ s : WStr, pat <:+: s → ∃ a b, replaceStringAll s pat rep = a ++ rep ++ b := by
  intro s
  induction s with
  | nil =>
    intro h
    exact absurd (List.infix_nil.mp h) hp
  | cons c cs ih =>
    intro h
    cases hpre : pat.isPrefixOf (c :: cs) with
    | true =>
      obtain ⟨r, hr⟩ := List.isPrefixOf_iff_prefix.mp hpre
      rw [← hr, replaceStringAll_hit pat rep r hp]
      exact ⟨[], _, rfl⟩
    | false =>
      rw [replaceStringAll_miss pat rep c cs hpre]
      rcases List.infix_cons_iff.mp h with h1 | h1
      · rw [List.isPrefixOf_iff_prefix.mpr h1] at hpre
        exact absurd hpre (by simp)
      · obtain ⟨a, b, hab⟩ := ih h1
        exact ⟨c :: a, b, by rw [hab]; rfl⟩

theorem RemoveAccelsFromText_no_amp (s : WStr) (hs : 38 ∉ s) :
    RemoveAccelsFromText s = replaceStringAll s [126, 96, 126] [38, 38] := by
  rw [RemoveAccelsFromText_eq, regex_id s hs, replaceStringAll_id 38 [38] _ s hs,
    replaceStringAll_id 38 [] _ s hs]

/-! ### The cleaned column and the id column of the rows -/

theorem captionRows_rows (lpName : ResourceName) (mem : List Nat) (p : Nat)
    (rows : List TextRecord) (h : captionRows lpName mem p = some rows) :
    ∀ r ∈ rows, r.cleaned = RemoveAccelsFromText r.raw := by
  unfold captionRows at h
  cases hw : readU16 mem p with
  | none => rw [hw] at h; simp at h
  | some w =>
    rw [hw] at h
    simp only at h
    by_cases hz : w ≠ 0
    · rw [if_pos hz] at h
      cases ht : readSz mem p with
      | none => rw [ht] at h; simp at h
      | some t =>
        rw [ht] at h
        simp only [Option.some.injEq] at h
        subst h
        intro r hr
        simp only [List.mem_singleton] at hr
        subst hr
        rfl
    · rw [if_neg hz] at h
      simp only [Option.some.injEq] at h
      subst h
      intro r hr
      simp at hr

theorem standardDialogItem_rows (lpName : ResourceName) (mem : List Nat) (p : Nat)
    (rows : List TextRecord) (q : Nat)
    (h : standardDialogItem lpName mem p = some (rows, q)) :
    ∀ r ∈ rows, r.cleaned = RemoveAccelsFromText r.raw ∧
      (readU16 mem (alignDword p + 8)).map decimal = some r.itemId := by
  unfold standardDialogItem at h
  simp only [Option.bind_eq_bind, Option.bind_eq_some] at h
  obtain ⟨style, _, cls, _, pTitle, _, w, _, h⟩ := h
  by_cases hw : w ≠ 0 ∧ w ≠ 0xFFFF
  · rw [if_pos hw] at h
    simp only [Option.bind_eq_bind, Option.bind_eq_some, Option.some.injEq, Prod.mk.injEq] at h
    obtain ⟨t, _, id, hid, rows1, rfl, pExtra, _, cb, _, rfl, _⟩ := h
    intro r hr
    simp only [List.mem_singleton] at hr
    subst hr
    exact ⟨rfl, by rw [hid]; rfl⟩
  · rw [if_neg hw] at h
    simp only [Option.bind_eq_bind, Option.bind_eq_some, Option.some.injEq, Prod.mk.injEq] at h
    obtain ⟨rows1, rfl, pExtra, _, cb, _, rfl, _⟩ := h
    intro r hr
    simp at hr

theorem extendedDialogItem_rows (lpName : ResourceName) (mem : List Nat) (p : Nat)
    (rows : List TextRecord) (q : Nat)
    (h : extendedDialogItem lpName mem p = some (rows, q)) :
    ∀ r ∈ rows, r.cleaned = RemoveAccelsFromText r.raw ∧
      (readU32 mem (alignDword p + 10)).map decimalSigned32 = some r.itemId := by
  unfold extendedDialogItem at h
  simp only [Option.bind_eq_bind, Option.bind_eq_some] at h
  obtain ⟨pTitle, _, w, _, h⟩ := h
  by_cases hw : w ≠ 0 ∧ w ≠ 0xFFFF
  · rw [if_pos hw] at h
    simp only [Option.bind_eq_bind, Option.bind_eq_some, Option.some.injEq, Prod.mk.injEq] at h
    obtain ⟨t, _, id, hid, style, _, cls, _, rows1, rfl, pExtra, _, cb, _, rfl, _⟩ := h
    intro r hr
    simp only [List.mem_singleton] at hr
    subst hr
    exact ⟨rfl, by rw [hid]; rfl⟩
  · rw [if_neg hw] at h
    simp only [Option.bind_eq_bind, Option.bind_eq_some, Option.some.injEq, Prod.mk.injEq] at h
    obtain ⟨rows1, rfl, pExtra, _, cb, _, rfl, _⟩ := h
    intro r hr
    simp at hr

theorem standardMenuRows_rows (lpName : ResourceName) (idColumn sText : WStr) :
    ∀ r ∈ standardMenuRows lpName idColumn sText,
      r.cleaned = RemoveAccelsFromText r.raw ∧ r.itemId = idColumn := by
  intro r hr
  unfold standardMenuRows at hr
  by_cases hs : sText.length > 0
  · rw [if_pos hs] at hr
    simp only [List.mem_singleton] at hr
    subst hr
    exact ⟨rfl, rfl⟩
  · rw [if_neg hs] at hr
    simp at hr

theorem standardMenuItem_rows (lpName : ResourceName) (mem : List Nat) (p : Nat)
    (rows : List TextRecord) (q : Nat)
    (h : standardMenuItem lpName mem p = some (rows, q)) :
    ∀ r ∈ rows, r.cleaned = RemoveAccelsFromText r.raw ∧
      ∃ wFlags, readU16 mem p = some wFlags ∧
        if wFlags &&& 0x10 ≠ 0 then r.itemId = L "n/a"
        else (readU16 mem (p + 1)).map decimal = some r.itemId := by
  unfold standardMenuItem at h
  simp only [Option.bind_eq_bind, Option.bind_eq_some] at h
  obtain ⟨wFlags, hflags, h⟩ := h
  by_cases hp : wFlags &&& MF_POPUP ≠ 0
  · rw [if_pos hp] at h
    simp only [Option.bind_eq_bind, Option.bind_eq_some, Option.some.injEq, Prod.mk.injEq] at h
    obtain ⟨sText, _, r1, _, rfl, _⟩ := h
    intro r hr
    obtain ⟨h1, h2⟩ := standardMenuRows_rows lpName _ sText r hr
    refine ⟨h1, wFlags, hflags, ?_⟩
    have hp' : wFlags &&& 0x10 ≠ 0 := hp
    rw [if_pos hp']
    exact h2
  · rw [if_neg hp] at h
    simp only [Option.bind_eq_bind, Option.bind_eq_some, Option.some.injEq, Prod.mk.injEq] at h
    obtain ⟨wID, hid, sText, _, r1, _, rfl, _⟩ := h
    intro r hr
    obtain ⟨h1, h2⟩ := standardMenuRows_rows lpName _ sText r hr
    refine ⟨h1, wFlags, hflags, ?_⟩
    have hp' : ¬ wFlags &&& 0x10 ≠ 0 := hp
    rw [if_neg hp', hid, h2]
    rfl

theorem extendedMenuItem_rows (lpName : ResourceName) (mem : List Nat) (p : Nat)
    (rows : List TextRecord) (q : Nat)
    (h : extendedMenuItem lpName mem p = some (rows, q)) :
    ∀ r ∈ rows, r.cleaned = RemoveAccelsFromText r.raw ∧
      (readU32 mem (alignDword p + 4)).map decimalSigned32 = some r.itemId := by
  unfold extendedMenuItem at h
  simp only [Option.bind_eq_bind, Option.bind_eq_some] at h
  obtain ⟨dwType, _, wFlags, _, h⟩ := h
  by_cases hn : dwType &&& (MFT_SEPARATOR ||| MFT_BITMAP) ≠ 0
  · rw [if_pos hn] at h
    simp only [Option.some.injEq, Prod.mk.injEq] at h
    obtain ⟨rfl, _⟩ := h
    intro r hr
    simp at hr
  · rw [if_neg hn] at h
    simp only [Option.bind_eq_bind, Option.bind_eq_some, Option.some.injEq, Prod.mk.injEq] at h
    obtain ⟨sText, _, rows1, hrows, r1, _, rfl, _⟩ := h
    unfold extendedMenuRows at hrows
    by_cases hs : sText.length > 0
    · rw [if_pos hs] at hrows
      cases hid : readU32 mem (alignDword p + 4) with
      | none => rw [hid] at hrows; simp at hrows
      | some uId =>
        rw [hid] at hrows
        simp only [Option.some.injEq] at hrows
        subst hrows
        intro r hr
        simp only [List.mem_singleton] at hr
        subst hr
        exact ⟨rfl, rfl⟩
    · rw [if_neg hs] at hrows
      simp only [Option.some.injEq] at hrows
      subst hrows
      intro r hr
      simp at hr

theorem standardDialogItems_rows (lpName : ResourceName) (mem : List Nat) :
    ∀ (n p : Nat) (rows : List TextRecord), standardDialogItems lpName mem n p = some rows →
      ∀ r ∈ rows, r.cleaned = RemoveAccelsFromText r.raw := by
  intro n
  induction n with
  | zero =>
    intro p rows h r hr
    simp only [standardDialogItems, Option.some.injEq] at h
    subst h
    simp at hr
  | succ n ih =>
    intro p rows h r hr
    rw [standardDialogItems] at h
    simp only [Option.bind_eq_bind, Option.bind_eq_some, Option.some.injEq] at h
    obtain ⟨⟨rows1, pNext⟩, hitem, rest, hrest, rfl⟩ := h
    rcases List.mem_append.mp hr with h1 | h1
    · exact (standardDialogItem_rows lpName mem p rows1 pNext hitem r h1).1
    · exact ih pNext rest hrest r h1

theorem extendedDialogItems_rows (lpName : ResourceName) (mem : List Nat) :
    ∀ (n p : Nat) (rows : List TextRecord), extendedDialogItems lpName mem n p = some rows →
      ∀ r ∈ rows, r.cleaned = RemoveAccelsFromText r.raw := by
  intro n
  induction n with
  | zero =>
    intro p rows h r hr
    simp only [extendedDialogItems, Option.some.injEq] at h
    subst h
    simp at hr
  | succ n ih =>
    intro p rows h r hr
    rw [extendedDialogItems] at h
    simp only [Option.bind_eq_bind, Option.bind_eq_some, Option.some.injEq] at h
    obtain ⟨⟨rows1, pNext⟩, hitem, rest, hrest, rfl⟩ := h
    rcases List.mem_append.mp hr with h1 | h1
    · exact (extendedDialogItem_rows lpName mem p rows1 pNext hitem r h1).1
    · exact ih pNext rest hrest r h1

theorem standardMenuLoop_rows (lpName : ResourceName) (mem : List Nat) (dwResourceSize : Nat) :
    ∀ (fuel p : Nat) (rows : List TextRecord),
      standardMenuLoop lpName mem dwResourceSize fuel p = some rows →
      ∀ r ∈ rows, r.cleaned = RemoveAccelsFromText r.raw := by
  intro fuel
  induction fuel with
  | zero => intro p rows h; simp [standardMenuLoop] at h
  | succ fuel ih =>
    intro p rows h r hr
    rw [standardMenuLoop] at h
    by_cases hin : InAddressRange dwResourceSize (p + 1) = true
    · rw [if_pos hin] at h
      simp only [Option.bind_eq_bind, Option.bind_eq_some, Option.some.injEq] at h
      obtain ⟨⟨rows1, pNext⟩, hitem, rest, hrest, rfl⟩ := h
      rcases List.mem_append.mp hr with h1 | h1
      · exact (standardMenuItem_rows lpName mem p rows1 pNext hitem r h1).1
      · exact ih pNext rest hrest r h1
    · rw [if_neg hin] at h
      simp only [Option.some.injEq] at h
      subst h
      simp at hr

theorem extendedMenuLoop_rows (lpName : ResourceName) (mem : List Nat) (dwResourceSize : Nat) :
    ∀ (fuel p : Nat) (rows : List TextRecord),
      extendedMenuLoop lpName mem dwResourceSize fuel p = some rows →
      ∀ r ∈ rows, r.cleaned = RemoveAccelsFromText r.raw := by
  intro fuel
  induction fuel with
  | zero => intro p rows h; simp [extendedMenuLoop] at h
  | succ fuel ih =>
    intro p rows h r hr
    rw [extendedMenuLoop] at h
    by_cases hin : InAddressRange dwResourceSize (p + 1) = true
    · rw [if_pos hin] at h
      simp only [Option.bind_eq_bind, Option.bind_eq_some, Option.some.injEq] at h
      obtain ⟨⟨rows1, pNext⟩, hitem, rest, hrest, rfl⟩ := h
      rcases List.mem_append.mp hr with h1 | h1
      · exact (extendedMenuItem_rows lpName mem p rows1 pNext hitem r h1).1
      · exact ih pNext rest hrest r h1
    · rw [if_neg hin] at h
      simp only [Option.some.injEq] at h
      subst h
      simp at hr

/-! ### The extended dialog decoder on a well-formed template -/

theorem extendedDialogItems_layout (lpName : ResourceName) (mem : List Nat) :
    ∀ (its : List DlgItem) (p : Nat) (rest : List Nat), (∀ it ∈ its, it.WF) →
      mem.drop p = layoutItems DlgItem.unitsEx p its ++ rest →
      extendedDialogItems lpName mem its.length p =
        some (its.flatMap fun it => itemRowOf lpName (decimalSigned32 it.id) it) := by
  intro its
  induction its with
  | nil => intro p rest _ _; rfl
  | cons it its ih =>
    intro p rest hwf h
    have hit : it.WF := hwf it (by simp)
    have hwf' : ∀ i ∈ its, i.WF := fun i hi => hwf i (by simp [hi])
    obtain ⟨pad, hpad, hal⟩ : ∃ pad : List Nat,
        pad = (if (2 * p) % 4 = 0 then [] else [0]) ∧ alignDword p = p + pad.length := by
      refine ⟨_, rfl, ?_⟩
      unfold alignDword
      by_cases hp : (2 * p) % 4 = 0 <;> simp [hp]
    have h1 : mem.drop p = pad ++ (it.unitsEx ++
        (layoutItems DlgItem.unitsEx (p + pad.length + it.unitsEx.length) its ++ rest)) := by
      rw [h, hpad]; simp [layoutItems]
    have h2 := drop_shift mem p pad _ h1
    rw [← hal] at h2
    have hstep := extendedDialogItem_layout lpName mem p it _ hit h2
    have h3 := drop_shift mem (alignDword p) it.unitsEx _ h2
    rw [hal] at h3
    have hrec := ih (p + pad.length + it.unitsEx.length) rest hwf' h3
    simp only [List.length_cons, extendedDialogItems, Option.bind_eq_bind, Option.some_bind,
      hstep, hal, hrec, List.flatMap_cons]

theorem ProcessExtendedDialogTemplate_layout (lpName : ResourceName) (t : DlgTemplateEx)
    (trailing : List Nat) (hwf : t.WF) :
    ProcessExtendedDialogTemplate lpName (t.units ++ trailing) =
      some (captionRowOf lpName t.caption ++
        t.items.flatMap fun it => itemRowOf lpName (decimalSigned32 it.id) it) := by
  obtain ⟨hmenu, hcls, hcap, hface, hitems⟩ := hwf
  obtain ⟨mem, hmem⟩ : ∃ mem, mem = t.units ++ trailing := ⟨_, rfl⟩
  obtain ⟨face, hfaceEq⟩ : ∃ face : List Nat,
      face = (if t.style &&& 0x48 ≠ 0 then t.typeface ++ [0] else []) := ⟨_, rfl⟩
  obtain ⟨tl, htl⟩ : ∃ tl, tl = layoutItems DlgItem.unitsEx t.headUnits.length t.items
      ++ trailing := ⟨_, rfl⟩
  rw [← hmem]
  have hA : mem.drop 0 = [1, 0xFFFF, t.helpID % 65536, t.helpID / 65536, t.exStyle % 65536,
      t.exStyle / 65536, t.style % 65536, t.style / 65536, t.items.length, t.x, t.y, t.cx,
      t.cy] ++
      (t.menu.units ++ (t.windowClass.units ++ (t.caption ++ 0 ::
        ([t.pointSize, t.weight, t.italicCharset] ++ (face ++ tl))))) := by
    rw [hmem, htl, hfaceEq]
    simp [DlgTemplateEx.units, DlgTemplateEx.headUnits, dwordUnits]
  have hlen : t.headUnits.length =
      13 + t.menu.units.length + t.windowClass.units.length + (t.caption.length + 1) + 3
        + face.length := by
    rw [hfaceEq]
    simp [DlgTemplateEx.headUnits, dwordUnits]; omega
  have hn : readU16 mem 8 = some t.items.length := by
    have := readU16_add_of_drop mem _ 0 8 hA
    simpa using this
  have hstyle : readU32 mem 6 = some t.style := by
    have := readU32_add_of_drop mem _ 0 6 t.style hA rfl rfl
    simpa using this
  have hB : mem.drop 13 = t.menu.units ++ (t.windowClass.units ++
      (t.caption ++ 0 :: ([t.pointSize, t.weight, t.italicCharset] ++ (face ++ tl)))) := by
    have := drop_shift mem 0 _ _ hA
    simpa using this
  have hC := drop_shift mem 13 _ _ hB
  have hD := drop_shift mem (13 + t.menu.units.length) _ _ hC
  have hp1 := Uint16AfterSzOrOrd_field mem 13 t.menu _ hmenu hB
  have hp2 := Uint16AfterSzOrOrd_field mem _ t.windowClass _ hcls hC
  have hcapRows := captionRows_layout lpName mem _ t.caption _ hcap hD
  have hp3 := Uint16AfterSz_of_drop mem _ t.caption _ hD hcap
  have hE : mem.drop (13 + t.menu.units.length + t.windowClass.units.length
      + (t.caption.length + 1)) = [t.pointSize, t.weight, t.italicCharset] ++ (face ++ tl) := by
    have := drop_shift mem _ (t.caption ++ [0])
      ([t.pointSize, t.weight, t.italicCharset] ++ (face ++ tl)) (by simpa using hD)
    simpa using this
  have hF : mem.drop (13 + t.menu.units.length + t.windowClass.units.length
      + (t.caption.length + 1) + 3) = face ++ tl := by
    have := drop_shift mem _ _ _ hE
    simpa using this
  have hG := drop_shift mem _ _ _ hF
  rw [← hlen] at hG
  have hloop := extendedDialogItems_layout lpName mem t.items t.headUnits.length trailing
    hitems (by rw [hG, htl])
  have hbits : DS_SETFONT ||| DS_SHELLFONT = 0x48 := by decide
  unfold ProcessExtendedDialogTemplate
  simp only [Option.bind_eq_bind, Option.some_bind, hn, hp1, hp2, hcapRows, hp3, hstyle, hbits]
  by_cases hs : t.style &&& 0x48 ≠ 0
  · rw [if_pos hs] at hfaceEq
    rw [if_pos hs]
    have hH : mem.drop (13 + t.menu.units.length + t.windowClass.units.length
        + (t.caption.length + 1) + 3) = t.typeface ++ 0 :: tl := by
      rw [hF, hfaceEq]; simp
    have hp4 := Uint16AfterSz_of_drop mem _ t.typeface _ hH hface
    have hpos : 13 + t.menu.units.length + t.windowClass.units.length
        + (t.caption.length + 1) + 3 + (t.typeface.length + 1) = t.headUnits.length := by
      rw [hlen, hfaceEq]; simp
    simp only [hp4, hpos, Option.some_bind, hloop]
  · rw [if_neg hs] at hfaceEq
    rw [if_neg hs]
    have hpos : 13 + t.menu.units.length + t.windowClass.units.length
        + (t.caption.length + 1) + 3 = t.headUnits.length := by
      rw [hlen, hfaceEq]; simp
    simp only [hpos, Option.some_bind, hloop]

/-! ### The option the loop over the arguments leaves -/

theorem getLast?_cons_getD (m o : option_t) (l : List option_t) :
    (m :: l).getLast?.getD o = l.getLast?.getD m := by
  cases l with
  | nil => rfl
  | cons a l =>
    obtain ⟨x, hx⟩ : ∃ x, (a :: l).getLast? = some x :=
      ⟨(a :: l).getLast (by simp), List.getLast?_eq_getLast _ _⟩
    rw [List.getLast?_cons_cons, hx]
    rfl

theorem withLastMode_withLastMode (r : ArgResult) (m o : option_t) (l : List option_t) :
    (r.withLastMode l m).withLastMode (m :: l) o = r.withLastMode l m := by
  cases r with
  | usage e => rfl
  | parsed c =>
    simp only [ArgResult.withLastMode, getLast?_cons_getD]

theorem wmainLoop_cons (arg : WStr) (rest : List WStr) (c : CommandLine) :
    wmainLoop (arg :: rest) c =
      if arg = L "-s" then wmainLoop rest { c with option := .eStringTable }
      else if arg = L "-d" then wmainLoop rest { c with option := .eDialog }
      else if arg = L "-m" then wmainLoop rest { c with option := .eMessageTable }
      else if arg = L "-n" then wmainLoop rest { c with option := .eMenu }
      else if arg = L "-o" then
        if c.bOut_toFile then .usage (some (L "Output file specified multiple times"))
        else
          match rest with
          | [] => .usage (some (L "Missing arg for -o"))
          | value :: rest2 => wmainLoop rest2 { c with bOut_toFile := true, sOutFile := value }
      else if arg = L "-l" then
        if c.sLangSpec.length > 0 then .usage (some (L "Language specified multiple times"))
        else
          match rest with
          | [] => .usage (some (L "Missing arg for -l"))
          | value :: rest2 => wmainLoop rest2 { c with sLangSpec := value }
      else
        if c.sResourceFile.length > 0 then .usage none
        else wmainLoop rest { c with sResourceFile := arg } := by
  rw [wmainLoop.eq_def]

theorem standaloneModes_cons (arg : WStr) (rest : List WStr) :
    standaloneModes (arg :: rest) =
      (modeOf arg).toList ++
        (if arg = L "-o" ∨ arg = L "-l" then
          match rest with
          | [] => []
          | _ :: rest2 => standaloneModes rest2
        else standaloneModes rest) := by
  rw [standaloneModes.eq_def]

theorem standaloneModes_mode (arg : WStr) (rest : List WStr) (m : option_t)
    (hm : modeOf arg = some m) (ho : arg ≠ L "-o") (hl : arg ≠ L "-l") :
    standaloneModes (arg :: rest) = m :: standaloneModes rest := by
  rw [standaloneModes_cons, hm, if_neg (not_or.mpr ⟨ho, hl⟩)]
  rfl

theorem wmainLoop_option :
    ∀ (n : Nat) (args : List WStr) (c : CommandLine) (o : option_t), args.length ≤ n →
      wmainLoop args { c with option := o }
        = (wmainLoop args c).withLastMode (standaloneModes args) o := by
  intro n
  induction n with
  | zero =>
    intro args c o h
    cases args with
    | nil => rfl
    | cons a r => simp at h
  | succ n ih =>
    intro args c o h
    cases args with
    | nil => rfl
    | cons arg rest =>
      have hrest : rest.length ≤ n := by simp at h; omega
      by_cases h1 : arg = L "-s"
      · have hm : modeOf arg = some .eStringTable := by rw [modeOf, if_pos h1]
        rw [wmainLoop_cons, wmainLoop_cons, if_pos h1, if_pos h1,
          standaloneModes_mode arg rest _ hm (by rw [h1]; decide) (by rw [h1]; decide)]
        have e := ih rest c .eStringTable hrest
        simp only at e ⊢
        rw [e, withLastMode_withLastMode]
      by_cases h2 : arg = L "-d"
      · have hm : modeOf arg = some .eDialog := by rw [modeOf, if_neg h1, if_pos h2]
        rw [wmainLoop_cons, wmainLoop_cons, if_neg h1, if_neg h1, if_pos h2, if_pos h2,
          standaloneModes_mode arg rest _ hm (by rw [h2]; decide) (by rw [h2]; decide)]
        have e := ih rest c .eDialog hrest
        simp only at e ⊢
        rw [e, withLastMode_withLastMode]
      by_cases h3 : arg = L "-m"
      · have hm : modeOf arg = some .eMessageTable := by
          rw [modeOf, if_neg h1, if_neg h2, if_pos h3]
        rw [wmainLoop_cons, wmainLoop_cons, if_neg h1, if_neg h1, if_neg h2, if_neg h2,
          if_pos h3, if_pos h3,
          standaloneModes_mode arg rest _ hm (by rw [h3]; decide) (by rw [h3]; decide)]
        have e := ih rest c .eMessageTable hrest
        simp only at e ⊢
        rw [e, withLastMode_withLastMode]
      by_cases h4 : arg = L "-n"
      · have hm : modeOf arg = some .eMenu := by
          rw [modeOf, if_neg h1, if_neg h2, if_neg h3, if_pos h4]
        rw [wmainLoop_cons, wmainLoop_cons, if_neg h1, if_neg h1, if_neg h2, if_neg h2,
          if_neg h3, if_neg h3, if_pos h4, if_pos h4,
          standaloneModes_mode arg rest _ hm (by rw [h4]; decide) (by rw [h4]; decide)]
        have e := ih rest c .eMenu hrest
        simp only at e ⊢
        rw [e, withLastMode_withLastMode]
      have hmode : modeOf arg = none := by
        rw [modeOf, if_neg h1, if_neg h2, if_neg h3, if_neg h4]
      by_cases h5 : arg = L "-o"
      · rw [wmainLoop_cons, wmainLoop_cons, standaloneModes_cons, hmode, if_neg h1, if_neg h1, if_neg h2,
          if_neg h2, if_neg h3, if_neg h3, if_neg h4, if_neg h4, if_pos h5, if_pos h5]
        simp only [if_pos (Or.inl h5 : arg = L "-o" ∨ arg = L "-l"), Option.toList,
          List.nil_append]
        by_cases hb : c.bOut_toFile = true
        · simp only [hb, if_true]
          rfl
        · simp only [hb]
          cases rest with
          | nil => rfl
          | cons value rest2 =>
            have hrest2 : rest2.length ≤ n := by simp at hrest; omega
            exact ih rest2 { c with bOut_toFile := true, sOutFile := value } o hrest2
      by_cases h6 : arg = L "-l"
      · rw [wmainLoop_cons, wmainLoop_cons, standaloneModes_cons, hmode, if_neg h1, if_neg h1, if_neg h2,
          if_neg h2, if_neg h3, if_neg h3, if_neg h4, if_neg h4, if_neg h5, if_neg h5,
          if_pos h6, if_pos h6]
        simp only [if_pos (Or.inr h6 : arg = L "-o" ∨ arg = L "-l"), Option.toList,
          List.nil_append]
        by_cases hb : c.sLangSpec.length > 0
        · simp only [hb, if_true]
          rfl
        · simp only [hb]
          cases rest with
          | nil => rfl
          | cons value rest2 =>
            have hrest2 : rest2.length ≤ n := by simp at hrest; omega
            exact ih rest2 { c with sLangSpec := value } o hrest2
      · rw [wmainLoop_cons, wmainLoop_cons, standaloneModes_cons, hmode, if_neg h1, if_neg h1, if_neg h2,
          if_neg h2, if_neg h3, if_neg h3, if_neg h4, if_neg h4, if_neg h5, if_neg h5,
          if_neg h6, if_neg h6]
        simp only [if_neg (not_or.mpr ⟨h5, h6⟩ : ¬ (arg = L "-o" ∨ arg = L "-l")),
          Option.toList, List.nil_append]
        by_cases hb : c.sResourceFile.length > 0
        · simp only [hb, if_true]
          rfl
        · simp only [hb]
          exact ih rest { c with sResourceFile := arg } o hrest

theorem wmainLoop_mode (arg : WStr) (rest : List WStr) (c : CommandLine) (m : option_t)
    (hm : modeOf arg = some m) :
    wmainLoop (arg :: rest) c = wmainLoop rest { c with option := m } := by
  rw [wmainLoop_cons]
  unfold modeOf at hm
  by_cases h1 : arg = L "-s"
  · rw [if_pos h1] at hm ⊢
    cases hm; rfl
  rw [if_neg h1] at hm ⊢
  by_cases h2 : arg = L "-d"
  · rw [if_pos h2] at hm ⊢
    cases hm; rfl
  rw [if_neg h2] at hm ⊢
  by_cases h3 : arg = L "-m"
  · rw [if_pos h3] at hm ⊢
    cases hm; rfl
  rw [if_neg h3] at hm ⊢
  by_cases h4 : arg = L "-n"
  · rw [if_pos h4] at hm ⊢
    cases hm; rfl
  rw [if_neg h4] at hm
  cases hm

theorem wmainLoop_last (args : List WStr) (c : CommandLine)
    (h : wmainLoop args ⟨.eNotSet, false, [], [], []⟩ = .parsed c) :
    c.option = (standaloneModes args).getLast?.getD .eNotSet := by
  have e := wmainLoop_option args.length args ⟨.eNotSet, false, [], [], []⟩ .eNotSet
    (Nat.le_refl _)
  simp only at e
  rw [h] at e
  simp only [ArgResult.withLastMode, ArgResult.parsed.injEq] at e
  exact congrArg CommandLine.option e

theorem wmainArguments_parsed (args : List WStr) (c : CommandLine)
    (h : wmainArguments args = .parsed c) :
    wmainLoop args ⟨.eNotSet, false, [], [], []⟩ = .parsed c ∧ c.option ≠ .eNotSet ∧
      ¬ c.sResourceFile.length = 0 := by
  unfold wmainArguments at h
  cases hloop : wmainLoop args ⟨.eNotSet, false, [], [], []⟩ with
  | usage e => rw [hloop] at h; simp at h
  | parsed c0 =>
    rw [hloop] at h
    simp only at h
    by_cases ho : c0.option = .eNotSet
    · rw [if_pos ho] at h; simp at h
    · rw [if_neg ho] at h
      by_cases hr : c0.sResourceFile.length = 0
      · rw [if_pos hr] at h; simp at h
      · rw [if_neg hr] at h
        cases h
        exact ⟨rfl, ho, hr⟩

/-! ### A total length below 4 -/

namespace MessageTable

theorem trimTrailingNul_first (read : Nat → Option Nat) (n c : Nat) (hn : n = c + 1) :
    trimTrailingNul read n =
      (read c).bind (fun v => if v = 0 then trimTrailingNul read c else some n) := by
  subst hn
  rw [trimTrailingNul]
  cases read c <;> rfl

/-- When the elements from `a` up to `b` cannot be read, a scan that starts at
`b` or above and ends has not gone below `b`. -/
theorem trimTrailingNul_ge (read : Nat → Option Nat) (a b : Nat)
    (hgap : ∀ i, a ≤ i → i < b → read i = none) (hab : a < b) :
    ∀ m n, b ≤ m → trimTrailingNul read m = some n → b ≤ n := by
  intro m
  induction m with
  | zero => intro n hb _; omega
  | succ k ih =>
    intro n hb h
    rw [trimTrailingNul] at h
    cases hr : read k with
    | none => rw [hr] at h; simp at h
    | some c =>
      rw [hr] at h
      simp only at h
      by_cases hc : c = 0
      · rw [if_pos hc] at h
        by_cases hk : b ≤ k
        · exact ih n hk h
        · have := hgap k (by omega) (by omega)
          rw [hr] at this
          simp at this
      · rw [if_neg hc] at h
        simp only [Option.some.injEq] at h
        omega

theorem readByte_lt (mem : List Nat) (x b : Nat) (h : readByte mem x = some b) :
    x < mem.length := by
  unfold readByte at h
  by_contra hx
  rw [List.getElem?_eq_none (by omega)] at h
  simp at h

theorem readLE16_lt (mem : List Nat) (x w : Nat) (h : readLE16 mem x = some w) :
    x + 1 < mem.length := by
  unfold readLE16 at h
  by_contra hx
  rw [List.getElem?_eq_none (by omega : mem.length ≤ x + 1)] at h
  cases h0 : mem[x]? <;> simp [h0] at h

theorem readByteString_le (mem : List Nat) :
    ∀ (n q : Nat) (s : List Nat), readByteString mem q (n + 1) = some s →
      q + (n + 1) ≤ mem.length := by
  intro n
  induction n with
  | zero =>
    intro q s h
    rw [readByteString] at h
    cases hb : readByte mem q with
    | none => rw [hb] at h; simp at h
    | some b => have := readByte_lt mem q b hb; omega
  | succ n ih =>
    intro q s h
    rw [readByteString] at h
    cases hb : readByte mem q with
    | none => rw [hb] at h; simp at h
    | some b =>
      rw [hb] at h
      simp only [Option.map_eq_some'] at h
      obtain ⟨t, ht, _⟩ := h
      have := ih (q + 1) t ht
      omega

theorem readWideString_le (mem : List Nat) :
    ∀ (n q : Nat) (s : WStr), readWideString mem q (n + 1) = some s →
      q + 2 * (n + 1) ≤ mem.length := by
  intro n
  induction n with
  | zero =>
    intro q s h
    rw [readWideString] at h
    cases hb : readLE16 mem q with
    | none => rw [hb] at h; simp at h
    | some b => have := readLE16_lt mem q b hb; omega
  | succ n ih =>
    intro q s h
    rw [readWideString] at h
    cases hb : readLE16 mem q with
    | none => rw [hb] at h; simp at h
    | some b =>
      rw [hb] at h
      simp only [Option.map_eq_some'] at h
      obtain ⟨t, ht, _⟩ := h
      have := ih (q + 2) t ht
      omega

theorem readByte_none (mem : List Nat) (x : Nat) (h : mem.length ≤ x) :
    readByte mem x = none := by
  unfold readByte
  exact List.getElem?_eq_none h

theorem readLE16_none (mem : List Nat) (x : Nat) (h : mem.length ≤ x) :
    readLE16 mem x = none := by
  unfold readLE16
  rw [List.getElem?_eq_none h]

theorem readByteAt_gap (mem : List Nat) (x : Nat) (h : mem.length ≤ x) (hx : x < 2 ^ 64) :
    readByteAt mem x = none := by
  unfold readByteAt wrap64
  rw [readByte_none mem x h, if_pos hx]
  simp only
  exact readByte_none mem x h

theorem readLE16At_gap (mem : List Nat) (x : Nat) (h : mem.length ≤ x) (hx : x < 2 ^ 64) :
    readLE16At mem x = none := by
  unfold readLE16At wrap64
  rw [readLE16_none mem x h, if_pos hx]
  simp only
  exact readLE16_none mem x h

theorem readByteAt_wrap (mem : List Nat) (x : Nat) (h : mem.length ≤ 2 ^ 64) :
    readByteAt mem (2 ^ 64 + x) = readByte mem x := by
  unfold readByteAt wrap64
  rw [readByte_none mem (2 ^ 64 + x) (by omega), if_neg (by omega)]
  simp only
  rw [Nat.add_sub_cancel_left]

theorem readLE16At_wrap (mem : List Nat) (x : Nat) (h : mem.length ≤ 2 ^ 64) :
    readLE16At mem (2 ^ 64 + x) = readLE16 mem x := by
  unfold readLE16At wrap64
  rw [readLE16_none mem (2 ^ 64 + x) (by omega), if_neg (by omega)]
  simp only
  rw [Nat.add_sub_cancel_left]

theorem payloadBytes_wrap (L : Nat) (hL : L < 4) : payloadBytes L = 2 ^ 64 + L - 4 := by
  unfold payloadBytes
  rw [if_neg (by omega)]

/-- The narrow string of an entry of total length below 4 in a resource of
fewer than `2 ^ 32` bytes: when the scan ends, the count left is `2 ^ 63` or
more and the constructor throws `std::length_error`. -/
theorem ansiEntryString_short (mem : List Nat) (p L n : Nat) (hL : L < 4)
    (hlen : readLE16 mem p = some L) (hmem : mem.length < 2 ^ 32)
    (hn : trimTrailingNul (fun i => readByteAt mem (p + 4 + i)) (payloadBytes L) = some n) :
    2 ^ 63 ≤ n ∧ ansiEntryString mem p = some .lengthError := by
  have hp := readLE16_lt mem p L hlen
  have hge := trimTrailingNul_ge (fun i => readByteAt mem (p + 4 + i)) mem.length
    (2 ^ 64 - p - 4)
    (fun i h1 h2 => readByteAt_gap mem (p + 4 + i) (by omega) (by omega)) (by omega)
    (payloadBytes L) n (by rw [payloadBytes_wrap L hL]; omega) hn
  have hbig : 2 ^ 63 ≤ n := by omega
  refine ⟨hbig, ?_⟩
  have hnone : readByteString mem (p + 4) n = none := by
    obtain ⟨k, rfl⟩ : ∃ k, n = k + 1 := ⟨n - 1, by omega⟩
    cases hs : readByteString mem (p + 4) (k + 1) with
    | none => rfl
    | some s =>
      have := readByteString_le mem k (p + 4) s hs
      omega
  unfold ansiEntryString
  rw [hlen, Option.bind_eq_bind, Option.some_bind, hn, Option.some_bind]
  unfold stdString stringMaxSize
  rw [hnone]
  simp only
  rw [if_pos (by omega)]

/-- The wide string of an entry of total length below 4 in a resource of
fewer than `2 ^ 32` bytes: when the scan ends, the count left asks for `2 ^ 63`
bytes or more and the constructor throws. -/
theorem unicodeEntryString_short (mem : List Nat) (p L n : Nat) (hL : L < 4)
    (hlen : readLE16 mem p = some L) (hmem : mem.length < 2 ^ 32)
    (hn : trimTrailingNul (fun i => readLE16At mem (p + 4 + 2 * i)) (payloadBytes L / 2)
      = some n) :
    2 ^ 63 ≤ 2 * n ∧
      (unicodeEntryString mem p = some .lengthError ∨
        unicodeEntryString mem p = some .badAlloc) := by
  have hp := readLE16_lt mem p L hlen
  have hge := trimTrailingNul_ge (fun i => readLE16At mem (p + 4 + 2 * i)) mem.length
    ((2 ^ 64 - p - 3) / 2)
    (fun i h1 h2 => readLE16At_gap mem (p + 4 + 2 * i) (by omega) (by omega)) (by omega)
    (payloadBytes L / 2) n (by rw [payloadBytes_wrap L hL]; omega) hn
  have hbig : 2 ^ 63 ≤ 2 * n := by omega
  refine ⟨hbig, ?_⟩
  have hnone : readWideString mem (p + 4) n = none := by
    obtain ⟨k, rfl⟩ : ∃ k, n = k + 1 := ⟨n - 1, by omega⟩
    cases hs : readWideString mem (p + 4) (k + 1) with
    | none => rfl
    | some s =>
      have := readWideString_le mem k (p + 4) s hs
      omega
  unfold unicodeEntryString
  rw [hlen, Option.bind_eq_bind, Option.some_bind, hn, Option.some_bind]
  unfold stdWstring wstringMaxSize
  rw [hnone]
  simp only
  by_cases hmax : 2 ^ 63 - 2 < n
  · left; rw [if_pos hmax]
  · right; rw [if_neg hmax, if_pos hbig]

end MessageTable

/-! ### A control with any creation-data count, laid out at the aligned cursor -/

theorem standardDialogItem_count (lpName : ResourceName) (mem : List Nat) (p : Nat)
    (it : DlgItem) (c : Nat) (rest : List Nat) (hit : it.WF)
    (h : mem.drop (alignDword p) = it.unitsWithCount c ++ rest) :
    standardDialogItem lpName mem p =
      some (itemRowOf lpName (decimal it.id) it,
        alignDword p + (it.unitsWithCount c).length + c / 2) := by
  obtain ⟨hcls, htitle⟩ := hit
  obtain ⟨q, hq⟩ : ∃ q, alignDword p = q := ⟨_, rfl⟩
  rw [hq] at h ⊢
  have hA : mem.drop q = [it.style % 65536, it.style / 65536, it.exStyle % 65536,
      it.exStyle / 65536, it.x, it.y, it.cx, it.cy, it.id] ++
      (it.windowClass.units ++ (it.title.units ++ (c :: rest))) := by
    simpa [DlgItem.unitsWithCount, dwordUnits] using h
  have hstyle : readU32 mem q = some it.style :=
    readU32_add_of_drop mem _ q 0 it.style hA rfl rfl
  have hid : readU16 mem (q + 8) = some it.id :=
    (readU16_add_of_drop mem _ q 8 hA).trans (by simp)
  have hB := drop_shift mem q _ _ hA
  simp only [List.length_cons, List.length_nil, Nat.zero_add, Nat.reduceAdd] at hB
  have hC := drop_shift mem (q + 9) _ _ hB
  have hD := drop_shift mem (q + 9 + it.windowClass.units.length) _ _ hC
  have hcn := WindowClassName_field mem (q + 9) it.windowClass _ it.style hcls hB
  have hpt := Uint16AfterSzOrOrd_field mem (q + 9) it.windowClass _ hcls hB
  have hpe := Uint16AfterSzOrOrd_field mem _ it.title _ htitle hC
  have hcb := readU16_of_drop mem _ _ _ hD
  obtain ⟨cls, hclsName⟩ := Option.isSome_iff_exists.mp hcn.2
  have hlen : (it.unitsWithCount c).length =
      9 + it.windowClass.units.length + it.title.units.length + 1 := by
    simp [DlgItem.unitsWithCount, dwordUnits]; omega
  obtain ⟨w, hw, hcase⟩ := title_field mem _ it.title _ htitle hC
  unfold standardDialogItem
  simp only [hq, Option.bind_eq_bind, Option.some_bind, hstyle, hcn.1, hclsName, hpt, hw]
  rcases hcase with ⟨s, hs, hw0, hwF, hsz⟩ | ⟨hw0, hno⟩
  · rw [if_pos ⟨hw0, hwF⟩]
    simp only [Option.bind_eq_bind, Option.some_bind, hsz, hid, hpe, hcb,
      itemRowOf_text lpName _ it s hs, hclsName, hlen]
    simp only [Option.some.injEq, Prod.mk.injEq, true_and]
    omega
  · rw [if_neg (by rintro ⟨a, b⟩; rcases hw0 with e | e <;> contradiction)]
    simp only [Option.bind_eq_bind, Option.some_bind, hpe, hcb,
      itemRowOf_other lpName _ it hno, hlen]
    simp only [Option.some.injEq, Prod.mk.injEq, true_and]
    omega

theorem extendedDialogItem_count (lpName : ResourceName) (mem : List Nat) (p : Nat)
    (it : DlgItem) (c : Nat) (rest : List Nat) (hit : it.WF)
    (h : mem.drop (alignDword p) = it.unitsExWithCount c ++ rest) :
    extendedDialogItem lpName mem p =
      some (itemRowOf lpName (decimalSigned32 it.id) it,
        alignDword p + (it.unitsExWithCount c).length + c / 2) := by
  obtain ⟨hcls, htitle⟩ := hit
  obtain ⟨q, hq⟩ : ∃ q, alignDword p = q := ⟨_, rfl⟩
  rw [hq] at h ⊢
  have hA : mem.drop q = [it.helpID % 65536, it.helpID / 65536, it.exStyle % 65536,
      it.exStyle / 65536, it.style % 65536, it.style / 65536, it.x, it.y, it.cx, it.cy,
      it.id % 65536, it.id / 65536] ++
      (it.windowClass.units ++ (it.title.units ++ (c :: rest))) := by
    simpa [DlgItem.unitsExWithCount, dwordUnits] using h
  have hstyle : readU32 mem (q + 4) = some it.style :=
    readU32_add_of_drop mem _ q 4 it.style hA rfl rfl
  have hid : readU32 mem (q + 10) = some it.id :=
    readU32_add_of_drop mem _ q 10 it.id hA (by simp) (by simp)
  have hB := drop_shift mem q _ _ hA
  simp only [List.length_cons, List.length_nil, Nat.zero_add, Nat.reduceAdd] at hB
  have hC := drop_shift mem (q + 12) _ _ hB
  have hD := drop_shift mem (q + 12 + it.windowClass.units.length) _ _ hC
  have hcn := WindowClassName_field mem (q + 12) it.windowClass _ it.style hcls hB
  have hpt := Uint16AfterSzOrOrd_field mem (q + 12) it.windowClass _ hcls hB
  have hpe := Uint16AfterSzOrOrd_field mem _ it.title _ htitle hC
  have hcb := readU16_of_drop mem _ _ _ hD
  obtain ⟨cls, hclsName⟩ := Option.isSome_iff_exists.mp hcn.2
  have hlen : (it.unitsExWithCount c).length =
      12 + it.windowClass.units.length + it.title.units.length + 1 := by
    simp [DlgItem.unitsExWithCount, dwordUnits]; omega
  obtain ⟨w, hw, hcase⟩ := title_field mem _ it.title _ htitle hC
  unfold extendedDialogItem
  simp only [hq, Option.bind_eq_bind, Option.some_bind, hpt, hw]
  rcases hcase with ⟨s, hs, hw0, hwF, hsz⟩ | ⟨hw0, hno⟩
  · rw [if_pos ⟨hw0, hwF⟩]
    simp only [Option.bind_eq_bind, Option.some_bind, hsz, hid, hstyle, hcn.1, hpe, hcb,
      itemRowOf_text lpName _ it s hs, hclsName, hlen]
    simp only [Option.some.injEq, Prod.mk.injEq, true_and]
    omega
  · rw [if_neg (by rintro ⟨a, b⟩; rcases hw0 with e | e <;> contradiction)]
    simp only [Option.bind_eq_bind, Option.some_bind, hpe, hcb,
      itemRowOf_other lpName _ it hno, hlen]
    simp only [Option.some.injEq, Prod.mk.injEq, true_and]
    omega

/-! ### A pass reads nothing before the aligned cursor -/

theorem drop_frame (mem mem2 : List Nat) (q c : Nat) (h : mem2.drop q = mem.drop q)
    (hc : q ≤ c) : mem2.drop c = mem.drop c := by
  obtain ⟨k, rfl⟩ := Nat.exists_eq_add_of_le hc
  rw [← List.drop_drop, ← List.drop_drop, h]

theorem readU16_frame (mem mem2 : List Nat) (q c : Nat) (h : mem2.drop q = mem.drop q)
    (hc : q ≤ c) : readU16 mem2 c = readU16 mem c := by
  obtain ⟨k, rfl⟩ := Nat.exists_eq_add_of_le hc
  rw [readU16_add_of_drop mem2 _ q k rfl, readU16_add_of_drop mem _ q k rfl, h]

theorem readU32_frame (mem mem2 : List Nat) (q c : Nat) (h : mem2.drop q = mem.drop q)
    (hc : q ≤ c) : readU32 mem2 c = readU32 mem c := by
  have h0 := readU16_frame mem mem2 q c h hc
  have h1 := readU16_frame mem mem2 q (c + 1) h (by omega)
  unfold readU16 at h0 h1
  unfold readU32
  rw [h0, h1]

theorem readSz_frame (mem mem2 : List Nat) (q c : Nat) (h : mem2.drop q = mem.drop q)
    (hc : q ≤ c) : readSz mem2 c = readSz mem c := by
  unfold readSz
  rw [drop_frame mem mem2 q c h hc]

theorem Uint16AfterSz_frame (mem mem2 : List Nat) (q c : Nat) (h : mem2.drop q = mem.drop q)
    (hc : q ≤ c) : Uint16AfterSz mem2 c = Uint16AfterSz mem c := by
  unfold Uint16AfterSz
  rw [drop_frame mem mem2 q c h hc]

theorem Uint16AfterSzOrOrd_frame (mem mem2 : List Nat) (q c : Nat)
    (h : mem2.drop q = mem.drop q) (hc : q ≤ c) :
    Uint16AfterSzOrOrd mem2 c = Uint16AfterSzOrOrd mem c := by
  unfold Uint16AfterSzOrOrd
  rw [readU16_frame mem mem2 q c h hc, Uint16AfterSz_frame mem mem2 q c h hc]

theorem WindowClassName_frame (mem mem2 : List Nat) (q c dwStyle : Nat)
    (h : mem2.drop q = mem.drop q) (hc : q ≤ c) :
    WindowClassName mem2 c dwStyle = WindowClassName mem c dwStyle := by
  unfold WindowClassName
  rw [readU16_frame mem mem2 q c h hc, readU16_frame mem mem2 q (c + 1) h (by omega),
    readSz_frame mem mem2 q c h hc]

theorem Uint16AfterSzOrOrd_advance (mem : List Nat) (p r : Nat)
    (h : Uint16AfterSzOrOrd mem p = some r) : p + 1 ≤ r := by
  unfold Uint16AfterSzOrOrd at h
  cases hw : readU16 mem p with
  | none => rw [hw] at h; simp at h
  | some w0 =>
    rw [hw] at h
    simp only at h
    split_ifs at h with h0 hF
    · simp only [Option.some.injEq] at h; omega
    · simp only [Option.some.injEq] at h; omega
    · exact Uint16AfterSz_advance mem p r h

theorem standardDialogItem_frame (lpName : ResourceName) (mem mem2 : List Nat) (p : Nat)
    (h : mem2.drop (alignDword p) = mem.drop (alignDword p)) :
    standardDialogItem lpName mem2 p = standardDialogItem lpName mem p := by
  obtain ⟨q, hq⟩ : ∃ q, alignDword p = q := ⟨_, rfl⟩
  rw [hq] at h
  unfold standardDialogItem
  simp only [hq, Option.bind_eq_bind]
  rw [readU32_frame mem mem2 q q h (Nat.le_refl _)]
  cases readU32 mem q with
  | none => rfl
  | some style =>
    simp only [Option.some_bind]
    rw [WindowClassName_frame mem mem2 q (q + 9) style h (by omega)]
    cases WindowClassName mem (q + 9) style with
    | none => rfl
    | some cls =>
      simp only [Option.some_bind]
      rw [Uint16AfterSzOrOrd_frame mem mem2 q (q + 9) h (by omega)]
      cases hpt : Uint16AfterSzOrOrd mem (q + 9) with
      | none => rfl
      | some pTitle =>
        have hge := Uint16AfterSzOrOrd_advance mem _ _ hpt
        simp only [Option.some_bind]
        rw [readU16_frame mem mem2 q pTitle h (by omega),
          readSz_frame mem mem2 q pTitle h (by omega),
          readU16_frame mem mem2 q (q + 8) h (by omega),
          Uint16AfterSzOrOrd_frame mem mem2 q pTitle h (by omega)]
        cases hpe : Uint16AfterSzOrOrd mem pTitle with
        | none => rfl
        | some pExtra =>
          have hge2 := Uint16AfterSzOrOrd_advance mem _ _ hpe
          simp only [Option.some_bind]
          rw [readU16_frame mem mem2 q pExtra h (by omega)]

theorem extendedDialogItem_frame (lpName : ResourceName) (mem mem2 : List Nat) (p : Nat)
    (h : mem2.drop (alignDword p) = mem.drop (alignDword p)) :
    extendedDialogItem lpName mem2 p = extendedDialogItem lpName mem p := by
  obtain ⟨q, hq⟩ : ∃ q, alignDword p = q := ⟨_, rfl⟩
  rw [hq] at h
  unfold extendedDialogItem
  simp only [hq, Option.bind_eq_bind]
  rw [Uint16AfterSzOrOrd_frame mem mem2 q (q + 12) h (by omega)]
  cases hpt : Uint16AfterSzOrOrd mem (q + 12) with
  | none => rfl
  | some pTitle =>
    have hge := Uint16AfterSzOrOrd_advance mem _ _ hpt
    simp only [Option.some_bind]
    rw [readU16_frame mem mem2 q pTitle h (by omega),
      readSz_frame mem mem2 q pTitle h (by omega),
      readU32_frame mem mem2 q (q + 10) h (by omega),
      readU32_frame mem mem2 q (q + 4) h (by omega),
      Uint16AfterSzOrOrd_frame mem mem2 q pTitle h (by omega)]
    have hcn : ∀ style, WindowClassName mem2 (q + 12) style = WindowClassName mem (q + 12) style :=
      fun style => WindowClassName_frame mem mem2 q (q + 12) style h (by omega)
    simp only [hcn]
    cases hpe : Uint16AfterSzOrOrd mem pTitle with
    | none => rfl
    | some pExtra =>
      have hge2 := Uint16AfterSzOrOrd_advance mem _ _ hpe
      simp only [Option.some_bind]
      rw [readU16_frame mem mem2 q pExtra h (by omega)]

theorem extendedMenuItem_frame (lpName : ResourceName) (mem mem2 : List Nat) (p : Nat)
    (h : mem2.drop (alignDword p) = mem.drop (alignDword p)) :
    extendedMenuItem lpName mem2 p = extendedMenuItem lpName mem p := by
  obtain ⟨q, hq⟩ : ∃ q, alignDword p = q := ⟨_, rfl⟩
  rw [hq] at h
  have h5 : ∀ s, extendedMenuRows lpName mem2 q s = extendedMenuRows lpName mem q s := by
    intro s
    unfold extendedMenuRows
    rw [readU32_frame mem mem2 q (q + 4) h (by omega)]
  unfold extendedMenuItem
  simp only [hq, h5, readU32_frame mem mem2 q q h (Nat.le_refl _),
    readU16_frame mem mem2 q (q + 6) h (by omega), readSz_frame mem mem2 q (q + 7) h (by omega),
    Uint16AfterSz_frame mem mem2 q (q + 7) h (by omega)]

/-! ### What a pass that returns has read, and where it leaves the cursor -/

theorem Uint16AfterSzOrOrd_reads (mem : List Nat) (p r : Nat)
    (h : Uint16AfterSzOrOrd mem p = some r) : ∃ w, readU16 mem p = some w := by
  unfold Uint16AfterSzOrOrd at h
  cases hw : readU16 mem p with
  | none => rw [hw] at h; simp at h
  | some w0 => exact ⟨w0, rfl⟩

theorem standardDialogItem_header (lpName : ResourceName) (mem : List Nat) (p : Nat)
    (rows : List TextRecord) (q : Nat)
    (h : standardDialogItem lpName mem p = some (rows, q)) :
    (∃ style, readU32 mem (alignDword p) = some style) ∧ alignDword p + 12 ≤ q := by
  unfold standardDialogItem at h
  simp only [Option.bind_eq_bind, Option.bind_eq_some] at h
  obtain ⟨style, hstyle, cls, _, pTitle, hpt, w, _, h⟩ := h
  have h1 := Uint16AfterSzOrOrd_advance mem _ _ hpt
  refine ⟨⟨style, hstyle⟩, ?_⟩
  by_cases hw : w ≠ 0 ∧ w ≠ 0xFFFF
  · rw [if_pos hw] at h
    simp only [Option.bind_eq_bind, Option.bind_eq_some, Option.some.injEq, Prod.mk.injEq] at h
    obtain ⟨t, _, id, _, rows1, _, pExtra, hpe, cb, _, _, rfl⟩ := h
    have h2 := Uint16AfterSzOrOrd_advance mem _ _ hpe
    omega
  · rw [if_neg hw] at h
    simp only [Option.bind_eq_bind, Option.bind_eq_some, Option.some.injEq, Prod.mk.injEq] at h
    obtain ⟨rows1, _, pExtra, hpe, cb, _, _, rfl⟩ := h
    have h2 := Uint16AfterSzOrOrd_advance mem _ _ hpe
    omega

theorem extendedDialogItem_header (lpName : ResourceName) (mem : List Nat) (p : Nat)
    (rows : List TextRecord) (q : Nat)
    (h : extendedDialogItem lpName mem p = some (rows, q)) :
    (∃ w, readU16 mem (alignDword p + 12) = some w) ∧ alignDword p + 15 ≤ q := by
  unfold extendedDialogItem at h
  simp only [Option.bind_eq_bind, Option.bind_eq_some] at h
  obtain ⟨pTitle, hpt, w, _, h⟩ := h
  have h1 := Uint16AfterSzOrOrd_advance mem _ _ hpt
  refine ⟨Uint16AfterSzOrOrd_reads mem _ _ hpt, ?_⟩
  by_cases hw : w ≠ 0 ∧ w ≠ 0xFFFF
  · rw [if_pos hw] at h
    simp only [Option.bind_eq_bind, Option.bind_eq_some, Option.some.injEq, Prod.mk.injEq] at h
    obtain ⟨t, _, id, _, style, _, cls, _, rows1, _, pExtra, hpe, cb, _, _, rfl⟩ := h
    have h2 := Uint16AfterSzOrOrd_advance mem _ _ hpe
    omega
  · rw [if_neg hw] at h
    simp only [Option.bind_eq_bind, Option.bind_eq_some, Option.some.injEq, Prod.mk.injEq] at h
    obtain ⟨rows1, _, pExtra, hpe, cb, _, _, rfl⟩ := h
    have h2 := Uint16AfterSzOrOrd_advance mem _ _ hpe
    omega

theorem extendedMenuItem_header (lpName : ResourceName) (mem : List Nat) (p : Nat)
    (rows : List TextRecord) (q : Nat)
    (h : extendedMenuItem lpName mem p = some (rows, q)) :
    (∃ dwType wFlags, readU32 mem (alignDword p) = some dwType ∧
      readU16 mem (alignDword p + 6) = some wFlags) ∧ alignDword p + 7 ≤ q := by
  unfold extendedMenuItem at h
  simp only [Option.bind_eq_bind, Option.bind_eq_some] at h
  obtain ⟨dwType, hty, wFlags, hfl, h⟩ := h
  refine ⟨⟨dwType, wFlags, hty, hfl⟩, ?_⟩
  by_cases hn : dwType &&& (MFT_SEPARATOR ||| MFT_BITMAP) ≠ 0
  · rw [if_pos hn] at h
    simp only [Option.some.injEq, Prod.mk.injEq] at h
    omega
  · rw [if_neg hn] at h
    simp only [Option.bind_eq_bind, Option.bind_eq_some] at h
    obtain ⟨_, _, _, _, r, hr, h⟩ := h
    simp only [Option.some.injEq, Prod.mk.injEq] at h
    have := Uint16AfterSz_advance _ _ _ hr
    obtain ⟨_, rfl⟩ := h
    split_ifs <;> omega

/-! ### Each pass of a loop starts at the cursor the pass before it left -/

theorem standardDialogItems_succ (lpName : ResourceName) (mem : List Nat) (n p : Nat) :
    standardDialogItems lpName mem (n + 1) p =
      (standardDialogItem lpName mem p).bind fun r =>
        (standardDialogItems lpName mem n r.2).map (r.1 ++ ·) := by
  rw [standardDialogItems]
  cases standardDialogItem lpName mem p with
  | none => rfl
  | some r =>
    obtain ⟨rows, pNext⟩ := r
    simp only [Option.bind_eq_bind, Option.some_bind]
    generalize standardDialogItems lpName mem n pNext = rest
    cases rest <;> rfl

theorem extendedDialogItems_succ (lpName : ResourceName) (mem : List Nat) (n p : Nat) :
    extendedDialogItems lpName mem (n + 1) p =
      (extendedDialogItem lpName mem p).bind fun r =>
        (extendedDialogItems lpName mem n r.2).map (r.1 ++ ·) := by
  rw [extendedDialogItems]
  cases extendedDialogItem lpName mem p with
  | none => rfl
  | some r =>
    obtain ⟨rows, pNext⟩ := r
    simp only [Option.bind_eq_bind, Option.some_bind]
    generalize extendedDialogItems lpName mem n pNext = rest
    cases rest <;> rfl

theorem extendedMenuLoop_succ (lpName : ResourceName) (mem : List Nat)
    (dwResourceSize fuel p : Nat) :
    extendedMenuLoop lpName mem dwResourceSize (fuel + 1) p =
      if InAddressRange dwResourceSize (p + 1) = true then
        (extendedMenuItem lpName mem p).bind fun r =>
          (extendedMenuLoop lpName mem dwResourceSize fuel r.2).map (r.1 ++ ·)
      else some [] := by
  rw [extendedMenuLoop]
  by_cases hr : InAddressRange dwResourceSize (p + 1) = true
  · rw [if_pos hr, if_pos hr]
    cases extendedMenuItem lpName mem p with
    | none => rfl
    | some r =>
      obtain ⟨rows, pNext⟩ := r
      simp only [Option.bind_eq_bind, Option.some_bind]
      generalize extendedMenuLoop lpName mem dwResourceSize fuel pNext = rest
      cases rest <;> rfl
  · rw [if_neg hr, if_neg hr]

/-! ### Templates whose creation data is in whole 16-bit units -/

/-- On the units of a well-formed classic dialog template with `N` controls
(18-byte header, menu field, class field, caption, font block exactly when
style bit 0x40 is set, each control on a 4-byte boundary and with creation
data in whole 16-bit units, so with an even count), followed by anything,
`ProcessStandardDialogTemplate` writes the caption row (id column
"[Caption]", type column "[Dialog]") exactly when the caption is not empty,
first, then the rows of the controls in control order, at most one a control
and so at most `N`, none of which is a caption row; every raw-text column
written is non-empty. -/
theorem ProcessStandardDialogTemplate_whole_units (lpName : ResourceName) (t : DlgTemplate)
    (trailing : List Nat) (hwf : t.WF) :
    ∃ captionRows itemRows : List TextRecord,
      ProcessStandardDialogTemplate lpName (t.units ++ trailing) = some (captionRows ++ itemRows) ∧
      captionRows =
        (if t.caption ≠ [] then
          [⟨RSRCID_t lpName, L "[Caption]", RemoveAccelsFromText (escapeCrLfTab t.caption),
            escapeCrLfTab t.caption, some (L "[Dialog]")⟩]
         else []) ∧
      itemRows = (t.items.flatMap fun it => itemRowOf lpName (decimal it.id) it) ∧
      (∀ it ∈ t.items, (itemRowOf lpName (decimal it.id) it).length ≤ 1) ∧
      itemRows.length ≤ t.items.length ∧
      (∀ r ∈ itemRows, r.itemId ≠ L "[Caption]") ∧
      (∀ r ∈ captionRows ++ itemRows, r.raw ≠ []) := by
  have hone : ∀ it : DlgItem, (itemRowOf lpName (decimal it.id) it).length ≤ 1 := by
    intro it
    unfold itemRowOf
    cases it.title <;> simp
  have hlen : ∀ its : List DlgItem,
      (its.flatMap fun it => itemRowOf lpName (decimal it.id) it).length ≤ its.length := by
    intro its
    induction its with
    | nil => simp
    | cons it its ih =>
      have := hone it
      simp only [List.flatMap_cons, List.length_append, List.length_cons]
      omega
  have hitem : ∀ it ∈ t.items, ∀ r ∈ itemRowOf lpName (decimal it.id) it,
      r.itemId ≠ L "[Caption]" ∧ r.raw ≠ [] := by
    intro it hit r hr
    have hw := (hwf.2.2.2.2 it hit).2
    unfold itemRowOf at hr
    cases htitle : it.title with
    | absent => simp [htitle] at hr
    | ordinal n => simp [htitle] at hr
    | text s =>
      rw [htitle] at hw
      simp only [htitle, List.mem_singleton] at hr
      subst hr
      exact ⟨decimal_ne_caption it.id, escapeCrLfTab_ne_nil s hw.1⟩
  refine ⟨_, _, ?_, rfl, rfl, fun it _ => hone it, hlen _, ?_, ?_⟩
  · exact ProcessStandardDialogTemplate_layout lpName t trailing hwf
  · intro r hr
    obtain ⟨it, hit, hrit⟩ := List.mem_flatMap.mp hr
    exact (hitem it hit r hrit).1
  · intro r hr
    rcases List.mem_append.mp hr with hc | hi
    · by_cases hcap : t.caption ≠ []
      · rw [if_pos hcap, List.mem_singleton] at hc
        subst hc
        exact escapeCrLfTab_ne_nil _ hcap
      · rw [if_neg hcap] at hc
        simp at hc
    · obtain ⟨it, hit, hrit⟩ := List.mem_flatMap.mp hi
      exact (hitem it hit r hrit).2

/-- In both dialog decoders, the pass of the item loop over a well-formed
control with creation data in whole 16-bit units, laid out at the aligned
cursor, writes one row exactly when the title field is a text, that is when
its first unit is neither 0x0000 nor 0xFFFF; the row has the id of the
control, the escaped title, the escaped title stripped of its accelerators,
and the class name `WindowClassName` gives for the class field and style of
the control. A control whose title is absent or an ordinal writes nothing. -/
theorem dialogItem_whole_units (lpName : ResourceName) (mem : List Nat) (p : Nat) (it : DlgItem)
    (rest : List Nat) (hit : it.WF) :
    (mem.drop (alignDword p) = it.units ++ rest →
      standardDialogItem lpName mem p =
        some (itemRowOf lpName (decimal it.id) it, alignDword p + it.units.length)) ∧
    (mem.drop (alignDword p) = it.unitsEx ++ rest →
      extendedDialogItem lpName mem p =
        some (itemRowOf lpName (decimalSigned32 it.id) it, alignDword p + it.unitsEx.length)) ∧
    (∀ idColumn : WStr,
      (∀ s, it.title = .text s →
        itemRowOf lpName idColumn it =
          [⟨RSRCID_t lpName, idColumn, RemoveAccelsFromText (escapeCrLfTab s), escapeCrLfTab s,
            WindowClassName it.windowClass.units 0 it.style⟩]) ∧
      ((∀ s, it.title ≠ .text s) → itemRowOf lpName idColumn it = []) ∧
      (itemRowOf lpName idColumn it ≠ [] ↔
        ∃ w, it.title.units.head? = some w ∧ w ≠ 0 ∧ w ≠ 0xFFFF)) ∧
    (WindowClassName it.windowClass.units 0 it.style).isSome = true := by
  refine ⟨fun h => standardDialogItem_layout lpName mem p it rest hit h,
    fun h => extendedDialogItem_layout lpName mem p it rest hit h, ?_, ?_⟩
  · intro idColumn
    refine ⟨fun s hs => itemRowOf_text lpName idColumn it s hs,
      fun h => itemRowOf_other lpName idColumn it h, ?_⟩
    have hw := hit.2
    cases htitle : it.title with
    | absent => simp [itemRowOf, htitle, SzOrOrd.units]
    | ordinal n => simp [itemRowOf, htitle, SzOrOrd.units]
    | text s =>
      rw [htitle] at hw
      obtain ⟨c, s', rfl, hc0, hcF⟩ := text_head s hw
      simp [itemRowOf, htitle, SzOrOrd.units, hc0, hcF]
  · exact (WindowClassName_field it.windowClass.units 0 it.windowClass [] it.style hit.1
      (by simp)).2

/-! # The claims -/

/-- Claim C1, evaluated where the code departs from it. A creation-data count
is a number of bytes and may be odd; the decoder moves the cursor by
`cbExtra / 2` units, rounding down. In the classic dialog of two well-formed
controls whose first control has one byte of creation data, the second
control, the button "&OK" with id 65, lies at byte offset 56 and read there
gives its row; the decoder reads it at byte offset 52 instead and the second
row it writes is the row of no control (id 50, which is the width of the
button, and text "AButton"), while the row of "&OK" is not written. When
the second control is the sample push button, the decoder reads the unit at
byte offset 88 of the 88-byte resource, past its end, and returns no rows at
all. With the count 2 in the same resources the rows are those of the two
controls. -/
theorem C1_odd_creation_data_count_gives_rows_of_no_control :
    sampleStatic.WF ∧ flatButton.WF ∧ sampleButton.WF ∧
    (creationDataDialog 1 flatButton).length = 49 ∧
    (creationDataDialog 1 flatButton).drop 28 = flatButton.units ∧
    standardDialogItem (.ordinal 1) (creationDataDialog 1 flatButton) 28
      = some ([⟨L "1", L "65", L "OK", L "&OK", some (L "Button")⟩], 49) ∧
    ProcessStandardDialogTemplate (.ordinal 1) (creationDataDialog 1 flatButton)
      = some [⟨L "1", L "100", L "A", L "A", some (L "Static")⟩,
              ⟨L "1", L "50", L "AButton", L "AButton", some []⟩] ∧
    ProcessStandardDialogTemplate (.ordinal 1) (creationDataDialog 2 flatButton)
      = some [⟨L "1", L "100", L "A", L "A", some (L "Static")⟩,
              ⟨L "1", L "65", L "OK", L "&OK", some (L "Button")⟩] ∧
    (creationDataDialog 1 sampleButton).length = 44 ∧
    (creationDataDialog 1 sampleButton).drop 28 = sampleButton.units ∧
    readU16 (creationDataDialog 1 sampleButton) 44 = none ∧
    ProcessStandardDialogTemplate (.ordinal 1) (creationDataDialog 1 sampleButton) = none ∧
    ProcessStandardDialogTemplate (.ordinal 1) (creationDataDialog 2 sampleButton)
      = some [⟨L "1", L "100", L "A", L "A", some (L "Static")⟩,
              ⟨L "1", L "1", L "OK", L "&OK", some (L "Button")⟩] := by
  decide

/-- Claim C2, evaluated where the code departs from it. A creation-data count
is a number of bytes and may be odd; both decoders move the cursor by
`cbExtra / 2` units, rounding down, and read the next control 4 bytes before
its place when the count unit ends on a 4-byte boundary. Classic decoder: the
second control of the dialog is an icon whose title is an ordinal, which read
at its place (byte offset 56) writes nothing, yet two rows are written for the
two controls, the second with the id 50 and the text "AStatic" taken from the
width, the id and the class name of the icon. Extended decoder: the second
control is the push button "&OK", whose title is a text and which read at its
place (byte offset 88) gives its row, yet no row is written for it. With the
count 2 in the same resources a row is written exactly for the controls whose
title is a text. -/
theorem C2_control_after_odd_count_is_misread :
    sampleStatic.WF ∧ sampleStaticAB.WF ∧ flatIcon.WF ∧ sampleButton.WF ∧
    (creationDataDialog 1 flatIcon).drop 28 = flatIcon.units ∧
    flatIcon.title = .ordinal 101 ∧
    standardDialogItem (.ordinal 1) (creationDataDialog 1 flatIcon) 28 = some ([], 47) ∧
    standardDialogItem (.ordinal 1) (creationDataDialog 1 flatIcon) 12
      = some ([⟨L "1", L "100", L "A", L "A", some (L "Static")⟩], 26) ∧
    standardDialogItem (.ordinal 1) (creationDataDialog 1 flatIcon) 26
      = some ([⟨L "1", L "50", L "AStatic", L "AStatic", some []⟩], 32812) ∧
    ProcessStandardDialogTemplate (.ordinal 1) (creationDataDialog 1 flatIcon)
      = some [⟨L "1", L "100", L "A", L "A", some (L "Static")⟩,
              ⟨L "1", L "50", L "AStatic", L "AStatic", some []⟩] ∧
    ProcessStandardDialogTemplate (.ordinal 1) (creationDataDialog 2 flatIcon)
      = some [⟨L "1", L "100", L "A", L "A", some (L "Static")⟩] ∧
    (creationDataDialogEx 1).drop 44 = sampleButton.unitsEx ∧
    sampleButton.title = .text (L "&OK") ∧
    extendedDialogItem (.ordinal 1) (creationDataDialogEx 1) 44
      = some ([⟨L "1", L "1", L "OK", L "&OK", some (L "Button")⟩], 63) ∧
    extendedDialogItem (.ordinal 1) (creationDataDialogEx 1) 24
      = some ([⟨L "1", L "100", L "AB", L "AB", some (L "Static")⟩], 42) ∧
    extendedDialogItem (.ordinal 1) (creationDataDialogEx 1) 42 = some ([], 78) ∧
    ProcessExtendedDialogTemplate (.ordinal 1) (creationDataDialogEx 1)
      = some [⟨L "1", L "[Caption]", L "Hi", L "Hi", some (L "[Dialog]")⟩,
              ⟨L "1", L "100", L "AB", L "AB", some (L "Static")⟩] ∧
    ProcessExtendedDialogTemplate (.ordinal 1) (creationDataDialogEx 2)
      = some [⟨L "1", L "[Caption]", L "Hi", L "Hi", some (L "[Dialog]")⟩,
              ⟨L "1", L "100", L "AB", L "AB", some (L "Static")⟩,
              ⟨L "1", L "1", L "OK", L "&OK", some (L "Button")⟩] := by
  decide

/-- Claim C3. `IsExtendedDialogTemplate` answers true exactly when the first
unit of the resource is 1 and the second is 0xFFFF; on a resource that starts
with any other pair of units it answers false and the callback runs the
classic decoder, and on the pair (1, 0xFFFF) the callback runs the extended
decoder. -/
theorem C3_IsExtendedDialogTemplate_signature (lpName : ResourceName) (w0 w1 : Nat)
    (rest : List Nat) :
    (∀ mem : List Nat, IsExtendedDialogTemplate mem = some true ↔
        (mem[0]? = some 1 ∧ mem[1]? = some 0xFFFF)) ∧
    IsExtendedDialogTemplate (w0 :: w1 :: rest) = some (decide (w0 = 1 ∧ w1 = 0xFFFF)) ∧
    EnumDialogCallbackProc lpName (w0 :: w1 :: rest) =
      (if w0 = 1 ∧ w1 = 0xFFFF then ProcessExtendedDialogTemplate lpName (w0 :: w1 :: rest)
       else ProcessStandardDialogTemplate lpName (w0 :: w1 :: rest)) := by
  have key : IsExtendedDialogTemplate (w0 :: w1 :: rest) = some (decide (w0 = 1 ∧ w1 = 0xFFFF)) := by
    by_cases h0 : w0 = 1 <;> by_cases h1 : w1 = 0xFFFF <;>
      simp [IsExtendedDialogTemplate, readU16, h0, h1]
  refine ⟨?_, key, ?_⟩
  · intro mem
    match mem with
    | [] => simp [IsExtendedDialogTemplate, readU16]
    | [a] => by_cases h0 : a = 1 <;> simp [IsExtendedDialogTemplate, readU16, h0]
    | a :: b :: r =>
      by_cases h0 : a = 1 <;> by_cases h1 : b = 0xFFFF <;>
        simp [IsExtendedDialogTemplate, readU16, h0, h1]
  · unfold EnumDialogCallbackProc
    rw [key]
    by_cases h : w0 = 1 ∧ w1 = 0xFFFF <;> simp [h]

/-- Claim C4. For a window-class field of ordinal shape (first unit 0xFFFF)
whose ordinal `n` is not 0x80, at any place of any resource and for every
style, `WindowClassName` returns "Edit", "Static", "List box", "Scroll bar",
"Combo box" for 0x81 to 0x85 and otherwise "Ordinal " followed by `n` in
decimal; the style has no part in the result. -/
theorem C4_WindowClassName_ordinal (pre rest : List Nat) (n dwStyle : Nat) (hn : n ≠ 0x80) :
    WindowClassName (pre ++ 0xFFFF :: n :: rest) pre.length dwStyle =
      some (if n = 0x81 then L "Edit"
        else if n = 0x82 then L "Static"
        else if n = 0x83 then L "List box"
        else if n = 0x84 then L "Scroll bar"
        else if n = 0x85 then L "Combo box"
        else L "Ordinal " ++ decimal n) ∧
    ∀ dwStyle' : Nat,
      WindowClassName (pre ++ 0xFFFF :: n :: rest) pre.length dwStyle' =
        WindowClassName (pre ++ 0xFFFF :: n :: rest) pre.length dwStyle := by
  have key : ∀ st : Nat, WindowClassName (pre ++ 0xFFFF :: n :: rest) pre.length st =
      some (if n = 0x81 then L "Edit"
        else if n = 0x82 then L "Static"
        else if n = 0x83 then L "List box"
        else if n = 0x84 then L "Scroll bar"
        else if n = 0x85 then L "Combo box"
        else L "Ordinal " ++ decimal n) := by
    intro st
    have h0 : readU16 (pre ++ 0xFFFF :: n :: rest) pre.length = some 0xFFFF := by
      simpa using readU16_append pre (0xFFFF :: n :: rest) 0
    have h1 : readU16 (pre ++ 0xFFFF :: n :: rest) (pre.length + 1) = some n := by
      simpa using readU16_append pre (0xFFFF :: n :: rest) 1
    unfold WindowClassName
    rw [h0]
    simp only [if_true]
    rw [h1]
    simp only [if_neg hn]
    split_ifs <;> rfl
  exact ⟨key dwStyle, fun st => by rw [key st, key dwStyle]⟩

/-- Witness of C4 at the unknown ordinal 0x86: the label is "Ordinal 134". -/
theorem C4_WindowClassName_ordinal_witness :
    WindowClassName ([] ++ 0xFFFF :: 0x86 :: []) ([] : List Nat).length 0x50010000
      = some (L "Ordinal 134") :=
  (C4_WindowClassName_ordinal [] [] 0x86 0x50010000 (by decide)).1

/-- Claim C5. For the button ordinal 0x80 and every style `s`,
`WindowClassName` is a function of `s & 0x0F` alone: "Checkbox" for 2, 3, 5, 6,
"Radio button" for 4 and 9, "Group box" for 7, "Button" for every other value. -/
theorem C5_WindowClassName_button (pre rest : List Nat) (s : Nat) :
    WindowClassName (pre ++ 0xFFFF :: 0x80 :: rest) pre.length s =
      some (if s &&& 0x0F = 2 ∨ s &&& 0x0F = 3 ∨ s &&& 0x0F = 5 ∨ s &&& 0x0F = 6 then L "Checkbox"
        else if s &&& 0x0F = 4 ∨ s &&& 0x0F = 9 then L "Radio button"
        else if s &&& 0x0F = 7 then L "Group box"
        else L "Button") := by
  have h0 : readU16 (pre ++ 0xFFFF :: 0x80 :: rest) pre.length = some 0xFFFF := by
    simpa using readU16_append pre (0xFFFF :: 0x80 :: rest) 0
  have h1 : readU16 (pre ++ 0xFFFF :: 0x80 :: rest) (pre.length + 1) = some 0x80 := by
    simpa using readU16_append pre (0xFFFF :: 0x80 :: rest) 1
  unfold WindowClassName
  rw [h0]
  simp only [if_true]
  rw [h1]
  simp only [if_true, BS_TYPEMASK]
  split_ifs <;> first | rfl | (exfalso; omega)

/-- Claim C6. For texts `s` and `t` with neither an ampersand nor a tilde and
`X` in A-Z or 0-9, stripping `s ++ "(&X)" ++ t` gives `s ++ t`. -/
theorem C6_RemoveAccelsFromText_parenthetical (s t : WStr) (X : Nat)
    (hs : 38 ∉ s ∧ 126 ∉ s) (ht : 38 ∉ t ∧ 126 ∉ t)
    (hX : (65 ≤ X ∧ X ≤ 90) ∨ (48 ≤ X ∧ X ≤ 57)) :
    RemoveAccelsFromText (s ++ L "(&" ++ [X] ++ L ")" ++ t) = s ++ t := by
  have hx : isAccelChar X = true := by
    simp only [isAccelChar, Bool.or_eq_true, Bool.and_eq_true, decide_eq_true_eq]
    exact hX
  have := RemoveAccelsFromText_paren s t X hx hs.1 hs.2 ht.1 ht.2
  have e : s ++ L "(&" ++ [X] ++ L ")" ++ t = s ++ 40 :: 38 :: X :: 41 :: t := by
    have e1 : L "(&" = [40, 38] := by decide
    have e2 : L ")" = [41] := by decide
    rw [e1, e2]; simp
  rw [e, this]

/-- Witness of C6: "Delete(&R)" yields "Delete". -/
theorem C6_RemoveAccelsFromText_parenthetical_witness :
    RemoveAccelsFromText (L "Delete" ++ L "(&" ++ [82] ++ L ")" ++ []) = L "Delete" ++ [] :=
  C6_RemoveAccelsFromText_parenthetical (L "Delete") [] 82 (by decide) (by decide) (by decide)

/-- Claim C7. For texts `s` and `t` with neither an ampersand nor a tilde, when
the ampersand put between them is not the one of a parenthetical "(&X)" with
`X` in A-Z or 0-9: stripping `s ++ "&" ++ t` gives `s ++ t`, and stripping
`s ++ "&&" ++ t` gives `s ++ "&&" ++ t`. -/
theorem C7_RemoveAccelsFromText_ampersand (s t : WStr)
    (hs : 38 ∉ s ∧ 126 ∉ s) (ht : 38 ∉ t ∧ 126 ∉ t)
    (hpar : ¬ ∃ s0 X t0, s = s0 ++ L "(" ∧ t = X :: L ")" ++ t0 ∧
      ((65 ≤ X ∧ X ≤ 90) ∨ (48 ≤ X ∧ X ≤ 57))) :
    RemoveAccelsFromText (s ++ L "&" ++ t) = s ++ t ∧
    RemoveAccelsFromText (s ++ L "&&" ++ t) = s ++ L "&&" ++ t := by
  have e1 : L "&" = [38] := by decide
  have e2 : L "&&" = [38, 38] := by decide
  have e3 : L "(" = [40] := by decide
  have e4 : L ")" = [41] := by decide
  rw [e1, e2]
  rw [e3, e4] at hpar
  have hpar' : s.getLast? = some 40 → ∀ x t0, t = x :: 41 :: t0 → isAccelChar x = false := by
    intro hl x t0 htx
    obtain ⟨s0, hs0⟩ := List.getLast?_eq_some_iff.mp hl
    by_contra hacc
    apply hpar
    refine ⟨s0, x, t0, hs0, by simpa using htx, ?_⟩
    have hacc' : isAccelChar x = true := by simpa using hacc
    simpa only [isAccelChar, Bool.or_eq_true, Bool.and_eq_true, decide_eq_true_eq] using hacc'
  constructor
  · have := RemoveAccelsFromText_single s t hs.1 hs.2 ht.1 ht.2 hpar'
    simpa using this
  · have := RemoveAccelsFromText_double s t hs.1 hs.2 ht.1 ht.2
    simpa using this

/-- Witness of C7: "&Open" yields "Open" (and "&&Open" is kept). -/
theorem C7_RemoveAccelsFromText_ampersand_witness :
    RemoveAccelsFromText ([] ++ L "&" ++ L "Open") = [] ++ L "Open" ∧
    RemoveAccelsFromText ([] ++ L "&&" ++ L "Open") = [] ++ L "&&" ++ L "Open" :=
  C7_RemoveAccelsFromText_ampersand [] (L "Open") (by decide) (by decide)
    (by
      rintro ⟨s0, X, t0, h, -⟩
      have e : L "(" = [40] := by decide
      rw [e] at h
      simp at h)

/-- Claim C8. `RemoveAccelsFromText` is idempotent on every text. -/
theorem C8_RemoveAccelsFromText_idempotent (s : WStr) :
    RemoveAccelsFromText (RemoveAccelsFromText s) = RemoveAccelsFromText s :=
  RemoveAccelsFromText_idem s

/-- Claim C9. `IsExtendedMenuTemplate` succeeds with "classic" when the first
unit is 0, with "extended" when it is 1, and fails for every other value; the
callback then runs the matching decoder, and on failure it writes the
diagnostic line and no row. -/
theorem C9_menu_variant_selection (lpName : ResourceName) (wVersion : Nat) (rest : List Nat)
    (dwResourceSize : Nat) :
    IsExtendedMenuTemplate (wVersion :: rest) =
      some (if wVersion = 0 then some false else if wVersion = 1 then some true else none) ∧
    EnumMenuCallbackProc lpName (wVersion :: rest) dwResourceSize =
      (if wVersion = 0 then ProcessStandardMenuTemplate lpName (wVersion :: rest) dwResourceSize
       else if wVersion = 1 then
         ProcessExtendedMenuTemplate lpName (wVersion :: rest) dwResourceSize
       else some ⟨[], [L "INVALID MENU, WTAF"]⟩) := by
  have key : IsExtendedMenuTemplate (wVersion :: rest) =
      some (if wVersion = 0 then some false else if wVersion = 1 then some true else none) := by
    by_cases h0 : wVersion = 0 <;> by_cases h1 : wVersion = 1 <;>
      simp [IsExtendedMenuTemplate, readU16, h0, h1]
  refine ⟨key, ?_⟩
  unfold EnumMenuCallbackProc
  rw [key]
  by_cases h0 : wVersion = 0
  · simp [h0]
  · by_cases h1 : wVersion = 1
    · simp [h1]
    · simp [h0, h1]

/-- Claim C10, as amended. For a classic menu item whose popup flag is set and
whose text is "&" ++ a ++ TAB ++ b (a non-empty and free of ampersand, tilde,
TAB; a and b without a NUL unit), the pass of `ProcessStandardMenuTemplate`
over the item, wherever the item lies, writes the one row with id column
"n/a", cleaned text `a` and raw text "&" ++ a (the text cut at the TAB, with its
ampersand); a menu made of that single item yields exactly that row and no
diagnostic. -/
theorem C10_classic_menu_popup_tab (lpName : ResourceName) (wFlags : Nat) (a b : WStr)
    (hpop : wFlags &&& 0x10 ≠ 0)
    (ha : a ≠ [] ∧ 38 ∉ a ∧ 126 ∉ a ∧ 9 ∉ a ∧ 0 ∉ a) (hb : 0 ∉ b) :
    (∀ (mem : List Nat) (p : Nat) (rest : List Nat),
      mem.drop p = wFlags :: (L "&" ++ a ++ [9] ++ b ++ [0]) ++ rest →
      standardMenuItem lpName mem p =
        some ([⟨RSRCID_t lpName, L "n/a", a, L "&" ++ a, none⟩],
          p + (a.length + b.length + 4))) ∧
    ProcessStandardMenuTemplate lpName ([0, 0, wFlags] ++ (L "&" ++ a ++ [9] ++ b ++ [0]))
        (2 * (a.length + b.length + 6))
      = some ⟨[⟨RSRCID_t lpName, L "n/a", a, L "&" ++ a, none⟩], []⟩ := by
  have e1 : L "&" = [38] := by decide
  rw [e1]
  constructor
  · intro mem p rest hmem
    have := standardMenuItem_popup_tab lpName mem p wFlags a b rest hpop ha.2 hb
      (by simpa using hmem)
    simpa using this
  · have := standardMenu_single_popup_tab lpName wFlags a b hpop ha.2 hb
    simpa using this

/-- Witness of C10 (amended): the popup item "&File", TAB, "Alt+F" yields the row
with id "n/a", cleaned "File" and raw "&File". -/
theorem C10_classic_menu_popup_tab_witness :
    ProcessStandardMenuTemplate (.ordinal 1)
        ([0, 0, 0x10] ++ (L "&" ++ L "File" ++ [9] ++ L "Alt+F" ++ [0]))
        (2 * ((L "File").length + (L "Alt+F").length + 6))
      = some ⟨[⟨RSRCID_t (.ordinal 1), L "n/a", L "File", L "&" ++ L "File", none⟩], []⟩ :=
  (C10_classic_menu_popup_tab (.ordinal 1) 0x10 (L "File") (L "Alt+F")
    (by decide) (by decide) (by decide)).2

/-- Counterexample to C10 as stated: on the popup item "&File", TAB, "Alt+F" the
raw-text column of the emitted row is "&File", not "File". -/
theorem C10_raw_text_keeps_ampersand :
    ProcessStandardMenuTemplate (.ordinal 1) ([0, 0, 0x10] ++ L "&File" ++ [9] ++ L "Alt+F" ++ [0]) 30
      = some ⟨[⟨L "1", L "n/a", L "File", L "&File", none⟩], []⟩ ∧
    ProcessStandardMenuTemplate (.ordinal 1) ([0, 0, 0x10] ++ L "&File" ++ [9] ++ L "Alt+F" ++ [0]) 30
      ≠ some ⟨[⟨L "1", L "n/a", L "File", L "File", none⟩], []⟩ := by
  decide

/-- Claim C11, evaluated where the code departs from it. The classic menu
decoder tests the text for emptiness before it cuts the text at the first
TAB: for the item with id 101 whose text is a TAB followed by "Ctrl+X" a row
is written although the text cut at the TAB is empty, and the cleaned and raw
columns of that row are empty. -/
theorem C11_tab_first_text_emits_empty_row :
    RemoveTabAndAfter ([9] ++ L "Ctrl+X") = [] ∧
    ProcessStandardMenuTemplate (.ordinal 1) ([0, 0, 0, 101, 9] ++ L "Ctrl+X" ++ [0]) 24
      = some ⟨[⟨L "1", L "101", [], [], none⟩], []⟩ := by
  decide

/-- Claim C12. For every list of classic menu items, each laid out as its
flags unit, its id unless the popup bit 0x0010 is set, and its text (without
NUL or TAB) with a terminator, placed after any 4-byte header and followed by
anything, with the declared length equal to the encoded size,
`ProcessStandardMenuTemplate` writes, in item order, exactly one row for each
item whose text is not empty: id column the unsigned decimal id, or "n/a" for
a popup, cleaned text `RemoveAccelsFromText text`, raw text `text`. The only
other output is the diagnostic line when the header size unit is not 0. -/
theorem C12_classic_menu_item_list (lpName : ResourceName) (wVersion cbHeaderSize : Nat)
    (items : List MenuItem) (trailing : List Nat)
    (htext : ∀ it ∈ items, 0 ∉ it.text ∧ 9 ∉ it.text) :
    ProcessStandardMenuTemplate lpName
        ([wVersion, cbHeaderSize] ++ classicMenuUnits items ++ trailing)
        (2 * (2 + (classicMenuUnits items).length))
      = some
        ⟨items.flatMap fun it =>
            if it.text ≠ [] then
              [⟨RSRCID_t lpName, if it.flags &&& 0x10 ≠ 0 then L "n/a" else decimal it.id,
                RemoveAccelsFromText it.text, it.text, none⟩]
            else [],
          if cbHeaderSize ≠ 0 then
            [L "STANDARD CBHEADERSIZE UNEXPECTED VALUE: " ++ decimal cbHeaderSize]
          else []⟩ := by
  have hcb : readU16 ([wVersion, cbHeaderSize] ++ classicMenuUnits items ++ trailing) 1
      = some cbHeaderSize := by simp [readU16]
  have hloop := standardMenuLoop_layout lpName
    ([wVersion, cbHeaderSize] ++ classicMenuUnits items ++ trailing)
    (2 * (2 + (classicMenuUnits items).length)) items 2
    (2 * (2 + (classicMenuUnits items).length) + 1) trailing htext (by simp) (by omega)
    (by omega)
    (by
      have : ∀ its : List MenuItem, its.length ≤ (classicMenuUnits its).length := by
        intro its
        induction its with
        | nil => simp
        | cons it its ih =>
          have h1 := it.units_length
          simp only [classicMenuUnits, List.flatMap_cons, List.length_append,
            List.length_cons] at ih ⊢
          omega
      have := this items
      omega)
  unfold ProcessStandardMenuTemplate
  simp only [hcb, Option.bind_eq_bind, Option.some_bind, hloop]
  rfl

/-- Witness of C12: a popup "&File", an item 101 "E&xit" and an item with an
empty text yield the rows of the first two. -/
theorem C12_classic_menu_item_list_witness :
    ProcessStandardMenuTemplate (.ordinal 1)
        ([0, 0] ++ classicMenuUnits [⟨0x10, 0, L "&File"⟩, ⟨0, 101, L "E&xit"⟩, ⟨0x80, 0, []⟩]
          ++ [])
        (2 * (2 + (classicMenuUnits
          [⟨0x10, 0, L "&File"⟩, ⟨0, 101, L "E&xit"⟩, ⟨0x80, 0, []⟩]).length))
      = some ⟨[⟨L "1", L "n/a", L "File", L "&File", none⟩,
               ⟨L "1", L "101", L "Exit", L "E&xit", none⟩], []⟩ :=
  (C12_classic_menu_item_list (.ordinal 1) 0 0
    [⟨0x10, 0, L "&File"⟩, ⟨0, 101, L "E&xit"⟩, ⟨0x80, 0, []⟩] [] (by decide)).trans
    (by decide)

/-- Claim C13. For an extended-menu item whose type has the separator bit
(0x800) or the bitmap bit (0x4), whatever its state, id and flags and whatever
units follow its 14-byte fixed header, the pass of `ProcessExtendedMenuTemplate`
over it writes no row and leaves the cursor 14 bytes after the item start; the
loop goes on from there adding no row for the item, and the next item is read
16 bytes after the item start, which is the first 4-byte-aligned offset at or
after item start + 14. -/
theorem C13_extended_menu_separator_or_bitmap (lpName : ResourceName) (mem : List Nat)
    (p dwType dwState uId wFlags : Nat) (rest : List Nat)
    (htype : dwType &&& 0x800 ≠ 0 ∨ dwType &&& 0x4 ≠ 0)
    (hmem : mem.drop (alignDword p) =
      dwordUnits dwType ++ dwordUnits dwState ++ dwordUnits uId ++ [wFlags] ++ rest) :
    extendedMenuItem lpName mem p = some ([], alignDword p + 7) ∧
    (∀ dwResourceSize fuel : Nat, InAddressRange dwResourceSize (p + 1) = true →
      extendedMenuLoop lpName mem dwResourceSize (fuel + 1) p =
        extendedMenuLoop lpName mem dwResourceSize fuel (alignDword p + 7)) ∧
    alignDword (alignDword p + 7) = alignDword p + 8 ∧
    (2 * (alignDword p + 8)) % 4 = 0 ∧
    (∀ q, alignDword p + 7 ≤ q → (2 * q) % 4 = 0 → alignDword p + 8 ≤ q) := by
  have hstep := extendedMenuItem_noText lpName mem p dwType dwState uId wFlags rest
    ((noText_bits dwType).mpr htype) hmem
  have hal := (alignDword_spec p).1
  have hnext : alignDword (alignDword p + 7) = alignDword p + 8 := by
    generalize alignDword p = q at hal ⊢
    unfold alignDword
    rw [if_neg (by omega)]
  refine ⟨hstep, ?_, hnext, by omega, fun q hq hq4 => by omega⟩
  intro dwResourceSize fuel hr
  rw [extendedMenuLoop_step lpName mem dwResourceSize fuel p [] _ hr hstep]
  generalize extendedMenuLoop lpName mem dwResourceSize fuel (alignDword p + 7) = r
  cases r <;> rfl

/-- Witness of C13: a separator whose flags have the submenu bit and which is
followed by text-like units writes no row; the cursor moves 7 units on. -/
theorem C13_extended_menu_separator_or_bitmap_witness :
    extendedMenuItem (.ordinal 1)
        ([1, 4, 0, 0] ++ (dwordUnits 0x800 ++ dwordUnits 0 ++ dwordUnits 9 ++ [1] ++ L "Text"))
        4 = some ([], alignDword 4 + 7) :=
  (C13_extended_menu_separator_or_bitmap (.ordinal 1)
    ([1, 4, 0, 0] ++ (dwordUnits 0x800 ++ dwordUnits 0 ++ dwordUnits 9 ++ [1] ++ L "Text"))
    4 0x800 0 9 1 (L "Text") (by decide) (by decide)).1

/-- Claim C14. For every list of extended menu items laid out after the 8-byte
header, each on a 4-byte boundary, as type, state, id (32 bits each), flags
(16 bits) and, when the type has neither the separator nor the bitmap bit,
the text (without NUL) with its terminator and then the 4-byte submenu header
when flags bit 0 is set (an item with the separator or bitmap bit has no text
field, as in the data model of the spec), followed by anything, with a
declared length equal to the encoded size or to the encoded size and one
padding unit, `ProcessExtendedMenuTemplate` writes, in item order, exactly
one row for each item that has neither type bit and whose text is not empty:
the id as a signed decimal, cleaned text `RemoveAccelsFromText text`, raw text
`text`. The only other output is the diagnostic line when the offset unit of
the header is not 4. -/
theorem C14_extended_menu_item_list (lpName : ResourceName) (wVersion wOffset dwHelpId : Nat)
    (items : List MenuExItem) (trailing : List Nat) (dwResourceSize : Nat)
    (htext : ∀ it ∈ items, 0 ∉ it.text)
    (hsize : 2 * (4 + (layoutMenuEx 4 items).length) ≤ dwResourceSize ∧
      dwResourceSize ≤ 2 * (4 + (layoutMenuEx 4 items).length) + 2) :
    ProcessExtendedMenuTemplate lpName
        ([wVersion, wOffset] ++ dwordUnits dwHelpId ++ layoutMenuEx 4 items ++ trailing)
        dwResourceSize
      = some
        ⟨items.flatMap fun it =>
            if it.dwType &&& 0x800 ≠ 0 ∨ it.dwType &&& 0x4 ≠ 0 then []
            else if it.text ≠ [] then
              [⟨RSRCID_t lpName, decimalSigned32 it.uId, RemoveAccelsFromText it.text, it.text,
                none⟩]
            else [],
          if wOffset ≠ 4 then [L "EXTENDED OFFSET UNEXPECTED VALUE: " ++ decimal wOffset]
          else []⟩ := by
  have hoff : readU16
      ([wVersion, wOffset] ++ dwordUnits dwHelpId ++ layoutMenuEx 4 items ++ trailing) 1
      = some wOffset := by simp [readU16]
  have hlen := layoutMenuEx_length_ge items 4
  have hloop := extendedMenuLoop_layout lpName
    ([wVersion, wOffset] ++ dwordUnits dwHelpId ++ layoutMenuEx 4 items ++ trailing)
    dwResourceSize items 4 (dwResourceSize + 1) trailing htext
    (by simp [dwordUnits]) hsize.1 hsize.2 (by omega)
  unfold ProcessExtendedMenuTemplate
  simp only [hoff, Option.bind_eq_bind, Option.some_bind, hloop]
  rfl

/-- Witness of C14: a popup "&File", a separator and the item 7 "&Save" (type
0, flags 0) yield the rows of the popup and of "&Save", the latter with
cleaned text "Save" and raw text "&Save". -/
theorem C14_extended_menu_item_list_witness :
    ProcessExtendedMenuTemplate (.ordinal 1)
        ([1, 4] ++ dwordUnits 0 ++ layoutMenuEx 4
          [⟨0, 0, 0xFFFFFFFF, 1, L "&File", 0⟩, ⟨0x800, 0, 0, 0, [], 0⟩,
           ⟨0, 0, 7, 0, L "&Save", 0⟩] ++ [])
        84
      = some ⟨[⟨L "1", L "-1", L "File", L "&File", none⟩,
               ⟨L "1", L "7", L "Save", L "&Save", none⟩], []⟩ :=
  (C14_extended_menu_item_list (.ordinal 1) 1 4 0
    [⟨0, 0, 0xFFFFFFFF, 1, L "&File", 0⟩, ⟨0x800, 0, 0, 0, [], 0⟩,
     ⟨0, 0, 7, 0, L "&Save", 0⟩] [] 84 (by decide) (by decide)).trans (by decide)

/-- Claim C15. When the resource starts on a 4-byte boundary, the alignment
loop that opens each pass of the classic dialog, extended dialog and
extended menu item loops stops (after at most one increment) at the cursor
`alignDword p`: its byte offset from the resource start is a multiple of 4 and
it is the least such cursor at or after the cursor `p` left by the previous
step. In each of the three decoders the fixed header of the item is read at
that cursor: an item laid out there (a well-formed control with any
creation-data count, a well-formed extended menu item) is the one the pass
decodes, whatever lies between `p` and the aligned cursor; the pass gives
the same result on any resource with the same units from the aligned cursor
on, so it reads nothing before it; a pass that returns has read the first
field of its header at the aligned cursor (the style of a classic control,
the class field 24 bytes into an extended control, the type and the flags of
a menu item), takes the id column of a row from the id field of that header
(byte offset 16, 20 and 8 from the aligned cursor) and leaves the cursor past
the header; and each pass of the loops starts at the cursor the pass before
it left. -/
theorem C15_item_alignment (lpName : ResourceName) (mem : List Nat) (base p fuel : Nat)
    (hbase : base % 4 = 0) :
    alignLoop (fuel + 1) (base + 2 * p) = base + 2 * alignDword p ∧
    (2 * alignDword p) % 4 = 0 ∧
    p ≤ alignDword p ∧
    (∀ q, p ≤ q → (2 * q) % 4 = 0 → alignDword p ≤ q) ∧
    ((∀ (it : DlgItem) (c : Nat) (rest : List Nat), it.WF →
        mem.drop (alignDword p) = it.unitsWithCount c ++ rest →
        standardDialogItem lpName mem p =
          some (itemRowOf lpName (decimal it.id) it,
            alignDword p + (it.unitsWithCount c).length + c / 2)) ∧
      (∀ mem2 : List Nat, mem2.drop (alignDword p) = mem.drop (alignDword p) →
        standardDialogItem lpName mem2 p = standardDialogItem lpName mem p) ∧
      (∀ rows q, standardDialogItem lpName mem p = some (rows, q) →
        (∃ style, readU32 mem (alignDword p) = some style) ∧ alignDword p + 12 ≤ q ∧
        ∀ r ∈ rows, (readU16 mem (alignDword p + 8)).map decimal = some r.itemId) ∧
      (∀ n, standardDialogItems lpName mem (n + 1) p =
        (standardDialogItem lpName mem p).bind fun r =>
          (standardDialogItems lpName mem n r.2).map (r.1 ++ ·)) ∧
      standardDialogItem lpName mem p = standardDialogItem lpName mem (alignDword p)) ∧
    ((∀ (it : DlgItem) (c : Nat) (rest : List Nat), it.WF →
        mem.drop (alignDword p) = it.unitsExWithCount c ++ rest →
        extendedDialogItem lpName mem p =
          some (itemRowOf lpName (decimalSigned32 it.id) it,
            alignDword p + (it.unitsExWithCount c).length + c / 2)) ∧
      (∀ mem2 : List Nat, mem2.drop (alignDword p) = mem.drop (alignDword p) →
        extendedDialogItem lpName mem2 p = extendedDialogItem lpName mem p) ∧
      (∀ rows q, extendedDialogItem lpName mem p = some (rows, q) →
        (∃ w, readU16 mem (alignDword p + 12) = some w) ∧ alignDword p + 15 ≤ q ∧
        ∀ r ∈ rows, (readU32 mem (alignDword p + 10)).map decimalSigned32 = some r.itemId) ∧
      (∀ n, extendedDialogItems lpName mem (n + 1) p =
        (extendedDialogItem lpName mem p).bind fun r =>
          (extendedDialogItems lpName mem n r.2).map (r.1 ++ ·)) ∧
      extendedDialogItem lpName mem p = extendedDialogItem lpName mem (alignDword p)) ∧
    ((∀ (it : MenuExItem) (rest : List Nat), 0 ∉ it.text →
        mem.drop (alignDword p) = it.units ++ rest →
        extendedMenuItem lpName mem p =
          some (menuExRowOf lpName it, alignDword p + it.units.length)) ∧
      (∀ mem2 : List Nat, mem2.drop (alignDword p) = mem.drop (alignDword p) →
        extendedMenuItem lpName mem2 p = extendedMenuItem lpName mem p) ∧
      (∀ rows q, extendedMenuItem lpName mem p = some (rows, q) →
        (∃ dwType wFlags, readU32 mem (alignDword p) = some dwType ∧
          readU16 mem (alignDword p + 6) = some wFlags) ∧ alignDword p + 7 ≤ q ∧
        ∀ r ∈ rows, (readU32 mem (alignDword p + 4)).map decimalSigned32 = some r.itemId) ∧
      (∀ dwResourceSize n, extendedMenuLoop lpName mem dwResourceSize (n + 1) p =
        if InAddressRange dwResourceSize (p + 1) = true then
          (extendedMenuItem lpName mem p).bind fun r =>
            (extendedMenuLoop lpName mem dwResourceSize n r.2).map (r.1 ++ ·)
        else some []) ∧
      extendedMenuItem lpName mem p = extendedMenuItem lpName mem (alignDword p)) := by
  obtain ⟨h1, h2, h3⟩ := alignDword_spec p
  refine ⟨alignLoop_eq base p fuel hbase, h1, h2, h3, ⟨?_, ?_, ?_, ?_, ?_⟩,
    ⟨?_, ?_, ?_, ?_, ?_⟩, ⟨?_, ?_, ?_, ?_, ?_⟩⟩
  · exact fun it c rest hit h => standardDialogItem_count lpName mem p it c rest hit h
  · exact fun mem2 h => standardDialogItem_frame lpName mem mem2 p h
  · intro rows q h
    obtain ⟨ha, hb⟩ := standardDialogItem_header lpName mem p rows q h
    exact ⟨ha, hb, fun r hr => (standardDialogItem_rows lpName mem p rows q h r hr).2⟩
  · exact fun n => standardDialogItems_succ lpName mem n p
  · unfold standardDialogItem; rw [alignDword_idem]
  · exact fun it c rest hit h => extendedDialogItem_count lpName mem p it c rest hit h
  · exact fun mem2 h => extendedDialogItem_frame lpName mem mem2 p h
  · intro rows q h
    obtain ⟨ha, hb⟩ := extendedDialogItem_header lpName mem p rows q h
    exact ⟨ha, hb, fun r hr => (extendedDialogItem_rows lpName mem p rows q h r hr).2⟩
  · exact fun n => extendedDialogItems_succ lpName mem n p
  · unfold extendedDialogItem; rw [alignDword_idem]
  · exact fun it rest h0 h => extendedMenuItem_layout lpName mem p it rest h0 h
  · exact fun mem2 h => extendedMenuItem_frame lpName mem mem2 p h
  · intro rows q h
    obtain ⟨ha, hb⟩ := extendedMenuItem_header lpName mem p rows q h
    exact ⟨ha, hb, fun r hr => (extendedMenuItem_rows lpName mem p rows q h r hr).2⟩
  · exact fun dwResourceSize n => extendedMenuLoop_succ lpName mem dwResourceSize n p
  · unfold extendedMenuItem; rw [alignDword_idem]

/-- Witness of C15: a resource at address 0x1000 whose cursor is left at the
odd unit 3 (byte offset 6), followed by one unit of padding and an item at
unit 4 (byte offset 8). The loop stops at cursor 4, and each of the three
passes entered at cursor 3 decodes the item that lies at cursor 4: the sample
push button in the classic and in the extended layout, and the menu item
"&Save" with id 7. -/
theorem C15_item_alignment_witness :
    0x1000 % 4 = 0 ∧
    alignLoop (1 + 1) (0x1000 + 2 * 3) = 0x1000 + 2 * 4 ∧
    standardDialogItem (.ordinal 7) ([9, 9, 9, 0xAAAA] ++ sampleButton.unitsWithCount 0) 3 =
      some ([⟨L "7", L "1", L "OK", L "&OK", some (L "Button")⟩], 20) ∧
    extendedDialogItem (.ordinal 7) ([9, 9, 9, 0xAAAA] ++ sampleButton.unitsExWithCount 0) 3 =
      some ([⟨L "7", L "1", L "OK", L "&OK", some (L "Button")⟩], 23) ∧
    extendedMenuItem (.ordinal 7)
        ([9, 9, 9, 0xAAAA] ++ (⟨0, 0, 7, 0, L "&Save", 0⟩ : MenuExItem).units) 3 =
      some ([⟨L "7", L "7", L "Save", L "&Save", none⟩], 17) :=
  ⟨by decide,
   (C15_item_alignment (.ordinal 7) [] 0x1000 3 1 (by decide)).1.trans (by decide),
   ((C15_item_alignment (.ordinal 7) ([9, 9, 9, 0xAAAA] ++ sampleButton.unitsWithCount 0)
      0x1000 3 1 (by decide)).2.2.2.2.1.1 sampleButton 0 [] (by decide) (by decide)).trans
     (by decide),
   ((C15_item_alignment (.ordinal 7) ([9, 9, 9, 0xAAAA] ++ sampleButton.unitsExWithCount 0)
      0x1000 3 1 (by decide)).2.2.2.2.2.1.1 sampleButton 0 [] (by decide) (by decide)).trans
     (by decide),
   ((C15_item_alignment (.ordinal 7)
      ([9, 9, 9, 0xAAAA] ++ (⟨0, 0, 7, 0, L "&Save", 0⟩ : MenuExItem).units)
      0x1000 3 1 (by decide)).2.2.2.2.2.2.1 ⟨0, 0, 7, 0, L "&Save", 0⟩ [] (by decide)
      (by decide)).trans (by decide)⟩

/-- Claim C16, evaluated where the code departs from it. Two resources of
declared length 8 (classic) and 24 (extended) that agree on every unit inside
the declared length and differ only beyond it give different rows: the scan
of a text that is not terminated inside the declared length reads the units
past it. The loop condition only tests that the item starts inside. -/
theorem C16_menu_text_scan_reads_past_declared_length :
    ([0, 0, 0x10, 65, 66, 0].take 4 = [0, 0, 0x10, 65, 67, 0].take 4 ∧
      ProcessStandardMenuTemplate (.ordinal 1) [0, 0, 0x10, 65, 66, 0] 8
        = some ⟨[⟨L "1", L "n/a", L "AB", L "AB", none⟩], []⟩ ∧
      ProcessStandardMenuTemplate (.ordinal 1) [0, 0, 0x10, 65, 67, 0] 8
        = some ⟨[⟨L "1", L "n/a", L "AC", L "AC", none⟩], []⟩) ∧
    ([1, 4, 0, 0, 0, 0, 0, 0, 5, 0, 0, 65, 66, 0].take 12
        = [1, 4, 0, 0, 0, 0, 0, 0, 5, 0, 0, 65, 67, 0].take 12 ∧
      ProcessExtendedMenuTemplate (.ordinal 1) [1, 4, 0, 0, 0, 0, 0, 0, 5, 0, 0, 65, 66, 0] 24
        = some ⟨[⟨L "1", L "5", L "AB", L "AB", none⟩], []⟩ ∧
      ProcessExtendedMenuTemplate (.ordinal 1) [1, 4, 0, 0, 0, 0, 0, 0, 5, 0, 0, 65, 67, 0] 24
        = some ⟨[⟨L "1", L "5", L "AC", L "AC", none⟩], []⟩) := by
  decide

/-- Claim C17, evaluated where the code departs from it. A table of two
blocks, the first with `LowId = HighId = 0xFFFFFFFF` and one entry "A" at
offset 28, the second with `LowId = HighId = 1` and one entry "B" at offset 34,
declared length 40: after the entry of id 0xFFFFFFFF the `DWORD` counter wraps
to 0, which is still not above `HighId`, so the loop of the first block goes
on into the entry of the second block and writes it under id 0, then finds
the pointer out of range, writes the diagnostic and returns `FALSE`; the
second block is never reached. -/
theorem C17_high_id_max_wraps :
    MessageTable.EnumMessageTableCallbackProc
        (MessageTable.le32 2 ++
          (MessageTable.le32 0xFFFFFFFF ++ MessageTable.le32 0xFFFFFFFF ++ MessageTable.le32 28) ++
          (MessageTable.le32 1 ++ MessageTable.le32 1 ++ MessageTable.le32 34) ++
          (MessageTable.le16 6 ++ MessageTable.le16 1 ++ MessageTable.le16 65) ++
          (MessageTable.le16 6 ++ MessageTable.le16 1 ++ MessageTable.le16 66)) 40 8
      = some ⟨[⟨0xFFFFFFFF, L "A"⟩, ⟨0, L "B"⟩], [L "Error: address out of range"],
          .returned false⟩ := by
  decide

/-- Claim C18. For a message entry anywhere in the resource with the Unicode
flag (0x0001) set and total length `L` with `4 ≤ L`, whose
payload starts with the `(L - 4) / 2` units `units`: the string built before
escaping is `units` without its trailing NUL units (interior NULs are kept:
`units` is that string followed by NULs only, and the string does not end in a
NUL), and the text column is its `escapeCrLfTab`. -/
theorem C18_unicode_entry_text (mem : List Nat) (p length flags : Nat) (units rest : List Nat)
    (hflag : flags &&& 0x0001 ≠ 0) (hlen : 4 ≤ length)
    (hunits : units.length = (length - 4) / 2)
    (hmem : mem.drop p = MessageTable.le16 length ++ MessageTable.le16 flags
      ++ units.flatMap MessageTable.le16 ++ rest) :
    MessageTable.unicodeEntryString mem p = some (.str (units.rdropWhile (· == 0))) ∧
    MessageTable.entryText mem p =
      some (.wide (escapeCrLfTab (units.rdropWhile (· == 0)))) ∧
    (∃ k, units = units.rdropWhile (· == 0) ++ List.replicate k 0) ∧
    (units.rdropWhile (· == 0)).getLast? ≠ some 0 := by
  have hs := MessageTable.unicodeEntryString_layout mem p length flags units rest hlen
    hunits hmem
  have hf : MessageTable.readLE16 mem (p + 2) = some flags := by
    have := drop_shift mem p (MessageTable.le16 length)
      (MessageTable.le16 flags ++ (units.flatMap MessageTable.le16 ++ rest))
      (by simpa [List.append_assoc] using hmem)
    exact MessageTable.readLE16_of_drop mem (p + 2) flags _ (by simpa [MessageTable.le16] using this)
  refine ⟨hs, ?_, (MessageTable.rdropWhile_nul_spec units).1,
    (MessageTable.rdropWhile_nul_spec units).2⟩
  unfold MessageTable.entryText
  simp only [hf, MessageTable.MESSAGE_RESOURCE_UNICODE]
  rw [if_pos hflag, hs]
  rfl

/-- Witness of C18: total length 10, payload "OK" and one NUL: three units are
counted and the text is "OK". -/
theorem C18_unicode_entry_text_witness :
    ([79, 75, 0] : List Nat).length = (10 - 4) / 2 ∧
    MessageTable.entryText
        (MessageTable.le16 10 ++ MessageTable.le16 1 ++ [79, 75, 0].flatMap MessageTable.le16 ++ [])
        0 = some (.wide (L "OK")) :=
  ⟨by decide,
   (C18_unicode_entry_text
      (MessageTable.le16 10 ++ MessageTable.le16 1 ++ [79, 75, 0].flatMap MessageTable.le16 ++ [])
      0 10 1 [79, 75, 0] [] (by decide) (by decide) (by decide) (by decide)).2.1.trans
    (by decide)⟩

/-- Claim C19, as amended. For a message entry whose flags have the UTF-8 bit
(0x0002) set and the Unicode bit (0x0001) clear, whatever its length and
payload, the text column is the fixed "[[[UTF-8 text (not supported)]]]". -/
theorem C19_utf8_entry_placeholder (mem : List Nat) (p flags : Nat)
    (hutf8 : flags &&& 0x0002 ≠ 0) (hunicode : flags &&& 0x0001 = 0)
    (hflags : MessageTable.readLE16 mem (p + 2) = some flags) :
    MessageTable.entryText mem p = some (.wide (L "[[[UTF-8 text (not supported)]]]")) := by
  unfold MessageTable.entryText
  simp only [hflags, MessageTable.MESSAGE_RESOURCE_UNICODE, MessageTable.MESSAGE_RESOURCE_UTF8]
  rw [if_neg (by simp [hunicode]), if_pos hutf8]

/-- Witness of C19 (amended): an entry of flags 2 whose payload is "A". -/
theorem C19_utf8_entry_placeholder_witness :
    MessageTable.entryText (MessageTable.le16 5 ++ MessageTable.le16 2 ++ [65]) 0
      = some (.wide (L "[[[UTF-8 text (not supported)]]]")) :=
  C19_utf8_entry_placeholder (MessageTable.le16 5 ++ MessageTable.le16 2 ++ [65]) 0 2
    (by decide) (by decide) (by decide)

/-- Counterexample to C19 as stated: the flags value 3 has the UTF-8 bit set,
yet the Unicode test comes first and the payload is decoded: the row of the
entry has the text "A", not the placeholder. -/
theorem C19_utf8_bit_with_unicode_bit_is_decoded :
    (3 : Nat) &&& 0x0002 ≠ 0 ∧
    MessageTable.entryText
        (MessageTable.le16 6 ++ MessageTable.le16 3 ++ MessageTable.le16 65) 0
      = some (.wide (L "A")) ∧
    MessageTable.EnumMessageTableCallbackProc
        (MessageTable.le32 1 ++
          (MessageTable.le32 1 ++ MessageTable.le32 1 ++ MessageTable.le32 16) ++
          (MessageTable.le16 6 ++ MessageTable.le16 3 ++ MessageTable.le16 65)) 22 8
      = some ⟨[⟨1, L "A"⟩], [], .returned true⟩ ∧
    L "A" ≠ L "[[[UTF-8 text (not supported)]]]" := by
  decide

/-- Claim C20, evaluated where the code departs from it. An entry of flags 0
and total length 5 whose payload is the single byte 0x80: the narrow string
has that one byte, and its conversion through `from_bytes`, which reads the
bytes as UTF-8, throws `std::range_error`; the exception leaves the callback
after the id columns were written and no row is completed. With the payload
0xC3 0xA9 (total length 6) nothing is thrown but the two bytes give the one
character U+00E9. -/
theorem C20_ansi_entry_is_read_as_utf8 :
    MessageTable.ansiEntryString (MessageTable.le16 5 ++ MessageTable.le16 0 ++ [0x80]) 0
      = some (.str [0x80]) ∧
    MessageTable.entryText (MessageTable.le16 5 ++ MessageTable.le16 0 ++ [0x80]) 0
      = some .rangeError ∧
    MessageTable.EnumMessageTableCallbackProc
        (MessageTable.le32 1 ++
          (MessageTable.le32 1 ++ MessageTable.le32 1 ++ MessageTable.le32 16) ++
          (MessageTable.le16 5 ++ MessageTable.le16 0 ++ [0x80])) 21 8
      = some ⟨[], [], .threw 1⟩ ∧
    MessageTable.ansiEntryString (MessageTable.le16 6 ++ MessageTable.le16 0 ++ [0xC3, 0xA9]) 0
      = some (.str [0xC3, 0xA9]) ∧
    MessageTable.entryText (MessageTable.le16 6 ++ MessageTable.le16 0 ++ [0xC3, 0xA9]) 0
      = some (.wide [0xE9]) := by
  decide

/-- Claim C21. In block `ixBlock` of a message table, let the entries of the
first ids `lowId`, `lowId + 1`, ... be packed from the block's offset, each
starting inside the declared length, and let the pointer after them, which is
the entry address of the next id (still not above `highId`), lie outside the
declared length. Then the run from that block on writes exactly the rows of
those earlier ids, nothing for the id whose address is out of range nor for
any later id or block (however many blocks follow), writes the diagnostic
"Error: address out of range" and returns `FALSE`. The rows of a block that
was completed before are kept in front of that, the diagnostic and the
return value being unchanged. -/
theorem C21_out_of_range_entry_stops_the_resource (mem : List Nat)
    (dwResourceSize fuel n ixBlock offsetToEntries lowId highId : Nat)
    (es : List (WStr × Nat))
    (hoff : MessageTable.readLE32 mem (4 + 12 * ixBlock + 8) = some offsetToEntries)
    (hlow : MessageTable.readLE32 mem (4 + 12 * ixBlock) = some lowId)
    (hhigh : MessageTable.readLE32 mem (4 + 12 * ixBlock + 4) = some highId)
    (h32 : highId < 2 ^ 32)
    (hes : MessageTable.packedAt mem dwResourceSize offsetToEntries es)
    (hid : lowId + es.length ≤ highId)
    (hout : MessageTable.InAddressRange dwResourceSize
      (offsetToEntries + (es.map Prod.snd).sum) = false)
    (hfuel : es.length < fuel) :
    MessageTable.blocksLoop mem dwResourceSize fuel (n + 1) ixBlock
      = some ⟨MessageTable.rowsOf lowId es, [L "Error: address out of range"],
          .returned false⟩ ∧
    (∀ (m k off low high : Nat) (rows : List MessageTable.MessageRow)
        (r : MessageTable.MessageRun),
      MessageTable.readLE32 mem (4 + 12 * k + 8) = some off →
      MessageTable.readLE32 mem (4 + 12 * k) = some low →
      MessageTable.readLE32 mem (4 + 12 * k + 4) = some high →
      MessageTable.entriesLoop mem dwResourceSize high fuel low off = some (rows, .done) →
      MessageTable.blocksLoop mem dwResourceSize fuel m (k + 1) = some r →
      MessageTable.blocksLoop mem dwResourceSize fuel (m + 1) k
        = some ⟨rows ++ r.rows, r.err, r.ending⟩) := by
  constructor
  · have hloop := MessageTable.entriesLoop_packed mem dwResourceSize highId h32 es fuel lowId
      offsetToEntries hes hid hfuel hout
    rw [MessageTable.blocksLoop]
    simp only [hoff, hlow, hhigh, hloop]
  · intro m k off low high rows r hoff2 hlow2 hhigh2 hloop hrest
    rw [MessageTable.blocksLoop]
    simp only [hoff2, hlow2, hhigh2, hloop, hrest, Option.map_some']

/-- Witness of C21: a table of three blocks and 52 bytes. The block of id 1 has
its entry "A" at offset 40; the block of ids 5 to 7 has the entry "B" of id 5
at offset 46, and the entry address 52 of id 6 is out of range. The rows are
those of the ids 1 and 5; the third block is not reached. -/
theorem C21_out_of_range_entry_stops_the_resource_witness :
    MessageTable.blocksLoop
        (MessageTable.le32 3 ++
          (MessageTable.le32 1 ++ MessageTable.le32 1 ++ MessageTable.le32 40) ++
          (MessageTable.le32 5 ++ MessageTable.le32 7 ++ MessageTable.le32 46) ++
          (MessageTable.le32 9 ++ MessageTable.le32 9 ++ MessageTable.le32 40) ++
          (MessageTable.le16 6 ++ MessageTable.le16 1 ++ MessageTable.le16 65) ++
          (MessageTable.le16 6 ++ MessageTable.le16 1 ++ MessageTable.le16 66)) 52 8 (1 + 1) 1
      = some ⟨MessageTable.rowsOf 5 [(L "B", 6)], [L "Error: address out of range"],
          .returned false⟩ ∧
    MessageTable.EnumMessageTableCallbackProc
        (MessageTable.le32 3 ++
          (MessageTable.le32 1 ++ MessageTable.le32 1 ++ MessageTable.le32 40) ++
          (MessageTable.le32 5 ++ MessageTable.le32 7 ++ MessageTable.le32 46) ++
          (MessageTable.le32 9 ++ MessageTable.le32 9 ++ MessageTable.le32 40) ++
          (MessageTable.le16 6 ++ MessageTable.le16 1 ++ MessageTable.le16 65) ++
          (MessageTable.le16 6 ++ MessageTable.le16 1 ++ MessageTable.le16 66)) 52 8
      = some ⟨[⟨1, L "A"⟩, ⟨5, L "B"⟩], [L "Error: address out of range"],
          .returned false⟩ :=
  ⟨(C21_out_of_range_entry_stops_the_resource
      (MessageTable.le32 3 ++
          (MessageTable.le32 1 ++ MessageTable.le32 1 ++ MessageTable.le32 40) ++
          (MessageTable.le32 5 ++ MessageTable.le32 7 ++ MessageTable.le32 46) ++
          (MessageTable.le32 9 ++ MessageTable.le32 9 ++ MessageTable.le32 40) ++
          (MessageTable.le16 6 ++ MessageTable.le16 1 ++ MessageTable.le16 65) ++
          (MessageTable.le16 6 ++ MessageTable.le16 1 ++ MessageTable.le16 66))
      52 8 1 1 46 5 7 [(L "B", 6)] (by decide) (by decide) (by decide) (by decide)
      ⟨by decide, by decide, by decide, trivial⟩ (by decide) (by decide) (by decide)).1,
   by decide⟩

/-- Claim C22, evaluated where the code departs from it. Only the address of
an entry is tested against the declared length; the block directory and the
fields and payload of an entry are read without a test. Two tables of declared
length 4 that agree on their first 4 bytes and differ in the `LowId` of the
block (bytes 4 to 7) end differently, and two tables of declared length 17
that agree on their first 17 bytes and differ in the payload of the entry at
offset 16 (byte 20) give different rows. -/
theorem C22_message_table_reads_past_declared_length :
    ((MessageTable.le32 1 ++
          (MessageTable.le32 1 ++ MessageTable.le32 1 ++ MessageTable.le32 16)).take 4
        = (MessageTable.le32 1 ++
          (MessageTable.le32 2 ++ MessageTable.le32 1 ++ MessageTable.le32 16)).take 4 ∧
      MessageTable.EnumMessageTableCallbackProc
          (MessageTable.le32 1 ++
            (MessageTable.le32 1 ++ MessageTable.le32 1 ++ MessageTable.le32 16)) 4 8
        = some ⟨[], [L "Error: address out of range"], .returned false⟩ ∧
      MessageTable.EnumMessageTableCallbackProc
          (MessageTable.le32 1 ++
            (MessageTable.le32 2 ++ MessageTable.le32 1 ++ MessageTable.le32 16)) 4 8
        = some ⟨[], [], .returned true⟩) ∧
    ((MessageTable.le32 1 ++
          (MessageTable.le32 1 ++ MessageTable.le32 1 ++ MessageTable.le32 16) ++
          (MessageTable.le16 6 ++ MessageTable.le16 1 ++ MessageTable.le16 65)).take 17
        = (MessageTable.le32 1 ++
          (MessageTable.le32 1 ++ MessageTable.le32 1 ++ MessageTable.le32 16) ++
          (MessageTable.le16 6 ++ MessageTable.le16 1 ++ MessageTable.le16 66)).take 17 ∧
      MessageTable.EnumMessageTableCallbackProc
          (MessageTable.le32 1 ++
            (MessageTable.le32 1 ++ MessageTable.le32 1 ++ MessageTable.le32 16) ++
            (MessageTable.le16 6 ++ MessageTable.le16 1 ++ MessageTable.le16 65)) 17 8
        = some ⟨[⟨1, L "A"⟩], [], .returned true⟩ ∧
      MessageTable.EnumMessageTableCallbackProc
          (MessageTable.le32 1 ++
            (MessageTable.le32 1 ++ MessageTable.le32 1 ++ MessageTable.le32 16) ++
            (MessageTable.le16 6 ++ MessageTable.le16 1 ++ MessageTable.le16 66)) 17 8
        = some ⟨[⟨1, L "B"⟩], [], .returned true⟩) := by
  decide

/-- Claim C23, evaluated where the code departs from it. A table of one block
of id 1 whose `OffsetToEntries` is 100, in a resource of 16 bytes: the entry
address is out of range, and the callback writes the diagnostic and returns
`FALSE`, not `TRUE`. -/
theorem C23_callback_returns_false_when_out_of_range :
    MessageTable.EnumMessageTableCallbackProc
        (MessageTable.le32 1 ++
          (MessageTable.le32 1 ++ MessageTable.le32 1 ++ MessageTable.le32 100)) 16 8
      = some ⟨[], [L "Error: address out of range"], .returned false⟩ := by
  decide

/-- Claim C24, evaluated where the code departs from it. The table
`endlessTable` (declared length 20) has one block with `LowId = 0` and
`HighId = 0xFFFFFFFF` whose entry, at offset 16, has the total length 0 and the
flags 2. The test `ixEntry <= HighId` holds for every value of the `DWORD`
counter, the entry address stays at 16, inside the resource, and each pass
writes a row: whatever the bound on the number of passes, the loop has not
ended when the bound is reached, having written as many rows as the bound. -/
theorem C24_loop_over_ids_never_ends (fuel : Nat) :
    ∃ rows, MessageTable.EnumMessageTableCallbackProc MessageTable.endlessTable 20 fuel
        = some ⟨rows, [], .unfinished⟩ ∧ rows.length = fuel := by
  obtain ⟨rows, hrows, hlen⟩ := MessageTable.entriesLoop_endless fuel 0 (by norm_num)
  refine ⟨rows, ?_, hlen⟩
  have hcount : MessageTable.readLE32 MessageTable.endlessTable 0 = some 1 := by decide
  have hoff : MessageTable.readLE32 MessageTable.endlessTable (4 + 12 * 0 + 8) = some 16 := by
    decide
  have hlow : MessageTable.readLE32 MessageTable.endlessTable (4 + 12 * 0) = some 0 := by decide
  have hhigh : MessageTable.readLE32 MessageTable.endlessTable (4 + 12 * 0 + 4)
      = some 0xFFFFFFFF := by decide
  unfold MessageTable.EnumMessageTableCallbackProc
  rw [hcount]
  simp only []
  rw [MessageTable.blocksLoop]
  simp only [hoff, hlow, hhigh, hrows]

/-- Claim C25. `Uint16AfterSzOrOrd` moves the cursor by a width fixed by the
shape of the field: one unit when the first unit is 0x0000, two units when it
is 0xFFFF, and otherwise, for a field that starts with the units `c :: s`
(none of them 0) followed by a 0 unit, `n + 1` units where `n` is the number
of units before that first 0 unit. -/
theorem C25_Uint16AfterSzOrOrd_width (mem : List Nat) (p : Nat) :
    (readU16 mem p = some 0 → Uint16AfterSzOrOrd mem p = some (p + 1)) ∧
    (readU16 mem p = some 0xFFFF → Uint16AfterSzOrOrd mem p = some (p + 2)) ∧
    (∀ (c : Nat) (s rest : List Nat), c ≠ 0 → c ≠ 0xFFFF → 0 ∉ s →
      mem.drop p = c :: s ++ 0 :: rest →
      Uint16AfterSzOrOrd mem p = some (p + ((c :: s).length + 1))) := by
  refine ⟨fun h => ?_, fun h => ?_, fun c s rest hc0 hcF hs hmem => ?_⟩
  · simp [Uint16AfterSzOrOrd, h]
  · simp [Uint16AfterSzOrOrd, h]
  · have h0 := readU16_of_drop mem p c (s ++ 0 :: rest) (by simpa using hmem)
    have hz : (0 : Nat) ∉ c :: s := by
      simp only [List.mem_cons, not_or]
      exact ⟨fun h => hc0 h.symm, hs⟩
    have hn := Uint16AfterSz_of_drop mem p (c :: s) rest hmem hz
    simp [Uint16AfterSzOrOrd, h0, hc0, hcF, hn]

/-- Witness of C25: an absent field, an ordinal field and the text "AB" in one
resource; the cursor moves by 1, 2 and 3 units. -/
theorem C25_Uint16AfterSzOrOrd_width_witness :
    Uint16AfterSzOrOrd [0, 0xFFFF, 0x80, 65, 66, 0, 7] 0 = some (0 + 1) ∧
    Uint16AfterSzOrOrd [0, 0xFFFF, 0x80, 65, 66, 0, 7] 1 = some (1 + 2) ∧
    Uint16AfterSzOrOrd [0, 0xFFFF, 0x80, 65, 66, 0, 7] 3
      = some (3 + (([65, 66] : List Nat).length + 1)) :=
  ⟨(C25_Uint16AfterSzOrOrd_width [0, 0xFFFF, 0x80, 65, 66, 0, 7] 0).1 (by decide),
   (C25_Uint16AfterSzOrOrd_width [0, 0xFFFF, 0x80, 65, 66, 0, 7] 1).2.1 (by decide),
   (C25_Uint16AfterSzOrOrd_width [0, 0xFFFF, 0x80, 65, 66, 0, 7] 3).2.2 65 [66] [7]
     (by decide) (by decide) (by decide) (by decide)⟩

/-- Claim C26. In `ProcessExtendedDialogTemplate`, with `t` the cursor just past
the terminator of the caption, the item loop is entered with the cursor at
`t + 3` units (6 bytes: point size, weight, italic and charset, skipped
whatever the style) plus, when `style & 0x48` is not zero, the units of the
typeface string with its terminator. The first pass of the loop reads its
control at the first 4-byte-aligned cursor at or after that one: a control
laid out there is the one decoded. -/
theorem C26_extended_dialog_first_item (lpName : ResourceName) (mem : List Nat)
    (nDlgItems pClass pTitle t style : Nat) (caption : List TextRecord)
    (typeface rest : List Nat)
    (hn : readU16 mem 8 = some nDlgItems)
    (hclass : Uint16AfterSzOrOrd mem 13 = some pClass)
    (htitle : Uint16AfterSzOrOrd mem pClass = some pTitle)
    (hcap : captionRows lpName mem pTitle = some caption)
    (ht : Uint16AfterSz mem pTitle = some t)
    (hstyle : readU32 mem 6 = some style)
    (hface : style &&& 0x48 ≠ 0 → 0 ∉ typeface ∧ mem.drop (t + 3) = typeface ++ 0 :: rest) :
    ProcessExtendedDialogTemplate lpName mem =
      (extendedDialogItems lpName mem nDlgItems
        (t + 3 + (if style &&& 0x48 ≠ 0 then typeface.length + 1 else 0))).map (caption ++ ·) ∧
    (∀ first, first = t + 3 + (if style &&& 0x48 ≠ 0 then typeface.length + 1 else 0) →
      (∀ n, extendedDialogItems lpName mem (n + 1) first =
        (extendedDialogItem lpName mem first).bind (fun r =>
          (extendedDialogItems lpName mem n r.2).map (r.1 ++ ·))) ∧
      extendedDialogItem lpName mem first = extendedDialogItem lpName mem (alignDword first) ∧
      (∀ (it : DlgItem) (rest2 : List Nat), it.WF →
        mem.drop (alignDword first) = it.unitsEx ++ rest2 →
        extendedDialogItem lpName mem first =
          some (itemRowOf lpName (decimalSigned32 it.id) it,
            alignDword first + it.unitsEx.length)) ∧
      (2 * alignDword first) % 4 = 0 ∧ first ≤ alignDword first ∧
      ∀ q, first ≤ q → (2 * q) % 4 = 0 → alignDword first ≤ q) := by
  constructor
  · have hbits : DS_SETFONT ||| DS_SHELLFONT = 0x48 := by decide
    unfold ProcessExtendedDialogTemplate
    simp only [hn, hclass, htitle, hcap, ht, hstyle, hbits, Option.bind_eq_bind,
      Option.some_bind]
    by_cases hs : style &&& 0x48 ≠ 0
    · obtain ⟨h0, hdrop⟩ := hface hs
      have hp := Uint16AfterSz_of_drop mem (t + 3) typeface rest hdrop h0
      rw [if_pos hs, if_pos hs, hp]
      simp only [Option.some_bind]
      generalize extendedDialogItems lpName mem nDlgItems (t + 3 + (typeface.length + 1)) = r
      cases r <;> rfl
    · rw [if_neg hs, if_neg hs]
      rw [Nat.add_zero]
      generalize extendedDialogItems lpName mem nDlgItems (t + 3) = r
      cases r <;> rfl
  · intro first _
    obtain ⟨h1, h2, h3⟩ := alignDword_spec first
    refine ⟨fun n => ?_, ?_, fun it rest2 hwf hdrop => ?_, h1, h2, h3⟩
    · rw [extendedDialogItems]
      cases extendedDialogItem lpName mem first with
      | none => rfl
      | some r =>
        obtain ⟨rows, pNext⟩ := r
        simp only [Option.bind_eq_bind, Option.some_bind]
        generalize extendedDialogItems lpName mem n pNext = r
        cases r <;> rfl
    · unfold extendedDialogItem
      rw [alignDword_idem]
    · exact extendedDialogItem_layout lpName mem first it rest2 hwf hdrop

/-- Witness of C26: in the sample extended dialog the caption ends at cursor
18, the typeface "MS" takes 3 units and the push button is read at cursor 24. -/
theorem C26_extended_dialog_first_item_witness :
    ProcessExtendedDialogTemplate (.ordinal 1) sampleDialogEx
      = some [⟨L "1", L "[Caption]", L "Hi", L "Hi", some (L "[Dialog]")⟩,
              ⟨L "1", L "1", L "OK", L "&OK", some (L "Button")⟩] :=
  ((C26_extended_dialog_first_item (.ordinal 1) sampleDialogEx 1 14 15 18 0x80C800C8
      [⟨L "1", L "[Caption]", L "Hi", L "Hi", some (L "[Dialog]")⟩] (L "MS")
      sampleButton.unitsEx (by decide) (by decide) (by decide) (by decide) (by decide)
      (by decide) (fun _ => ⟨by decide, by decide⟩)).1).trans (by decide)

/-- Claim C27, evaluated where the code departs from it. The creation-data
count is halved, rounding down, to move the cursor (`pMem += cbExtra / 2`). In
the sample dialog the count unit of the first control ends at byte offset 52;
with the count 1 the pass leaves the cursor at byte offset 52, not 1 byte or
more further, and the second control is read at offset 52, not at 56, the
first 4-byte-aligned offset at or after 53: its row is lost. With the count 2
in the same resource the second control is read at offset 56. The pass of the
extended decoder over a control whose count unit ends at byte offset 36 leaves
the cursor at 36 for the count 1. -/
theorem C27_odd_extra_count_is_rounded_down :
    standardDialogItem (.ordinal 1) (sampleExtraDialog 1) 12
      = some ([⟨L "1", L "100", L "A", L "A", some (L "Static")⟩], 26) ∧
    alignDword 26 = 26 ∧
    ProcessStandardDialogTemplate (.ordinal 1) (sampleExtraDialog 1)
      = some [⟨L "1", L "100", L "A", L "A", some (L "Static")⟩] ∧
    standardDialogItem (.ordinal 1) (sampleExtraDialog 2) 12
      = some ([⟨L "1", L "100", L "A", L "A", some (L "Static")⟩], 27) ∧
    alignDword 27 = 28 ∧
    ProcessStandardDialogTemplate (.ordinal 1) (sampleExtraDialog 2)
      = some [⟨L "1", L "100", L "A", L "A", some (L "Static")⟩,
              ⟨L "1", L "1", L "OK", L "&OK", some (L "Button")⟩] ∧
    extendedDialogItem (.ordinal 1)
        ([0, 0, 0, 0, 0, 0x5000, 7, 7, 50, 14, 100, 0, 0xFFFF, 0x82] ++ L "AB" ++ [0, 1, 0x00AB, 0])
        0
      = some ([⟨L "1", L "100", L "AB", L "AB", some (L "Static")⟩], 18) ∧
    alignDword 18 = 18 := by
  decide

/-- Claim C28, as amended. A pass of the loop of either menu decoder is made
exactly when the byte offset of the cursor plus 2 is below the declared length
(more than 2 bytes remain): then the item at the cursor is processed and the
loop goes on from the cursor it leaves; when 2 bytes or fewer remain the loop
ends and writes nothing more. -/
theorem C28_menu_loop_condition (lpName : ResourceName) (mem : List Nat)
    (dwResourceSize fuel p : Nat) :
    (2 * p + 2 < dwResourceSize →
      standardMenuLoop lpName mem dwResourceSize (fuel + 1) p =
        (standardMenuItem lpName mem p).bind (fun r =>
          (standardMenuLoop lpName mem dwResourceSize fuel r.2).map (r.1 ++ ·)) ∧
      extendedMenuLoop lpName mem dwResourceSize (fuel + 1) p =
        (extendedMenuItem lpName mem p).bind (fun r =>
          (extendedMenuLoop lpName mem dwResourceSize fuel r.2).map (r.1 ++ ·))) ∧
    (dwResourceSize ≤ 2 * p + 2 →
      standardMenuLoop lpName mem dwResourceSize (fuel + 1) p = some [] ∧
      extendedMenuLoop lpName mem dwResourceSize (fuel + 1) p = some []) := by
  constructor
  · intro h
    have hr : InAddressRange dwResourceSize (p + 1) = true := by
      unfold InAddressRange
      exact decide_eq_true (by omega)
    constructor
    · cases hitem : standardMenuItem lpName mem p with
      | none => rw [standardMenuLoop]; simp [hr, hitem]
      | some r =>
        obtain ⟨rows, pNext⟩ := r
        rw [standardMenuLoop_step lpName mem dwResourceSize fuel p rows pNext hr hitem]
        rfl
    · cases hitem : extendedMenuItem lpName mem p with
      | none => rw [extendedMenuLoop]; simp [hr, hitem]
      | some r =>
        obtain ⟨rows, pNext⟩ := r
        rw [extendedMenuLoop_step lpName mem dwResourceSize fuel p rows pNext hr hitem]
        rfl
  · intro h
    have hr : InAddressRange dwResourceSize (p + 1) = false := by
      unfold InAddressRange
      exact decide_eq_false (by omega)
    exact menuLoop_stop lpName mem dwResourceSize fuel p hr

/-- Witness of C28 (amended): at cursor 2 (byte offset 4) of a classic menu the
popup item "A" is processed when the declared length is 7 and not when it is
6; at cursor 4 (byte offset 8) of an extended menu the item "A" is not
processed when the declared length is 10. -/
theorem C28_menu_loop_condition_witness :
    standardMenuLoop (.ordinal 1) [0, 0, 0x10, 65, 0] 7 (7 + 1) 2
      = some [⟨L "1", L "n/a", L "A", L "A", none⟩] ∧
    standardMenuLoop (.ordinal 1) [0, 0, 0x10, 65, 0] 6 (6 + 1) 2 = some [] ∧
    extendedMenuLoop (.ordinal 1) [1, 4, 0, 0, 0, 0, 0, 0, 5, 0, 0, 65, 0] 10 (10 + 1) 4
      = some [] :=
  ⟨(((C28_menu_loop_condition (.ordinal 1) [0, 0, 0x10, 65, 0] 7 7 2).1 (by decide)).1).trans
      (by decide),
   ((C28_menu_loop_condition (.ordinal 1) [0, 0, 0x10, 65, 0] 6 6 2).2 (by decide)).1,
   ((C28_menu_loop_condition (.ordinal 1) [1, 4, 0, 0, 0, 0, 0, 0, 5, 0, 0, 65, 0] 10 10 4).2
      (by decide)).2⟩

/-- Counterexample to C28 as stated: with a declared length of 6 bytes exactly
2 bytes remain at the first item (byte offset 4) of the classic menu, and with
a declared length of 10 exactly 2 bytes remain at the first item (byte offset
8) of the extended menu, yet no item is processed; one byte more and the item
is processed. -/
theorem C28_two_bytes_left_is_not_processed :
    ProcessStandardMenuTemplate (.ordinal 1) [0, 0, 0x10, 65, 0] 6 = some ⟨[], []⟩ ∧
    ProcessStandardMenuTemplate (.ordinal 1) [0, 0, 0x10, 65, 0] 7
      = some ⟨[⟨L "1", L "n/a", L "A", L "A", none⟩], []⟩ ∧
    ProcessExtendedMenuTemplate (.ordinal 1) [1, 4, 0, 0, 0, 0, 0, 0, 5, 0, 0, 65, 0] 10
      = some ⟨[], []⟩ ∧
    ProcessExtendedMenuTemplate (.ordinal 1) [1, 4, 0, 0, 0, 0, 0, 0, 5, 0, 0, 65, 0] 11
      = some ⟨[⟨L "1", L "5", L "A", L "A", none⟩], []⟩ := by
  decide

/-- Claim C29. For an extended-menu item whose type has neither the separator
(0x800) nor the bitmap (0x4) bit and whose text `text` (without NUL) is
followed by its terminator, with `e = alignDword p + 7 + (text.length + 1)` the
cursor just past the terminator: the pass of `ProcessExtendedMenuTemplate` over
the item writes the row of the text (none when it is empty) and leaves the
cursor at `e + 2` (4 bytes after `e`) when flags bit 0 is set and at `e`
otherwise, whatever units follow; the loop goes on from that cursor, and the
next pass reads its item at the first 4-byte-aligned cursor at or after it. -/
theorem C29_extended_menu_submenu_header (lpName : ResourceName) (mem : List Nat)
    (p dwType dwState uId wFlags : Nat) (text rest : List Nat)
    (htype : dwType &&& 0x800 = 0 ∧ dwType &&& 0x4 = 0) (h0 : 0 ∉ text)
    (hmem : mem.drop (alignDword p) =
      dwordUnits dwType ++ dwordUnits dwState ++ dwordUnits uId ++ [wFlags] ++ (text ++ [0])
        ++ rest) :
    extendedMenuItem lpName mem p =
      some (if text ≠ [] then
              [⟨RSRCID_t lpName, decimalSigned32 uId, RemoveAccelsFromText text, text, none⟩]
            else [],
        alignDword p + 7 + (text.length + 1) + (if wFlags &&& 0x01 ≠ 0 then 2 else 0)) ∧
    (∀ dwResourceSize fuel : Nat, InAddressRange dwResourceSize (p + 1) = true →
      extendedMenuLoop lpName mem dwResourceSize (fuel + 1) p =
        (extendedMenuLoop lpName mem dwResourceSize fuel
          (alignDword p + 7 + (text.length + 1) + (if wFlags &&& 0x01 ≠ 0 then 2 else 0))).map
          ((if text ≠ [] then
              [⟨RSRCID_t lpName, decimalSigned32 uId, RemoveAccelsFromText text, text, none⟩]
            else []) ++ ·)) ∧
    (∀ next, next = alignDword p + 7 + (text.length + 1) + (if wFlags &&& 0x01 ≠ 0 then 2 else 0) →
      extendedMenuItem lpName mem next = extendedMenuItem lpName mem (alignDword next) ∧
      (2 * alignDword next) % 4 = 0 ∧ next ≤ alignDword next ∧
      ∀ q, next ≤ q → (2 * q) % 4 = 0 → alignDword next ≤ q) := by
  obtain ⟨q, hq⟩ : ∃ q, alignDword p = q := ⟨_, rfl⟩
  have hstep : extendedMenuItem lpName mem p =
      some (if text ≠ [] then
              [⟨RSRCID_t lpName, decimalSigned32 uId, RemoveAccelsFromText text, text, none⟩]
            else [],
        alignDword p + 7 + (text.length + 1) + (if wFlags &&& 0x01 ≠ 0 then 2 else 0)) := by
    rw [hq] at hmem ⊢
    have hA : mem.drop q = [dwType % 65536, dwType / 65536, dwState % 65536, dwState / 65536,
        uId % 65536, uId / 65536, wFlags] ++ (text ++ 0 :: rest) := by
      simpa [dwordUnits] using hmem
    have htypeRead : readU32 mem q = some dwType :=
      readU32_add_of_drop mem _ q 0 dwType hA rfl rfl
    have hid : readU32 mem (q + 4) = some uId :=
      readU32_add_of_drop mem _ q 4 uId hA rfl rfl
    have hflags : readU16 mem (q + 6) = some wFlags :=
      (readU16_add_of_drop mem _ q 6 hA).trans (by simp)
    have hB := drop_shift mem q _ _ hA
    simp only [List.length_cons, List.length_nil, Nat.zero_add, Nat.reduceAdd] at hB
    have hs := readSz_of_drop mem (q + 7) _ _ hB h0
    have hn := Uint16AfterSz_of_drop mem (q + 7) _ _ hB h0
    have hbits : ¬ (dwType &&& (MFT_SEPARATOR ||| MFT_BITMAP) ≠ 0) := by
      intro h
      rcases (noText_bits dwType).mp h with h | h
      · exact h htype.1
      · exact h htype.2
    have hrows : extendedMenuRows lpName mem q text =
        some (if text ≠ [] then
              [⟨RSRCID_t lpName, decimalSigned32 uId, RemoveAccelsFromText text, text, none⟩]
            else []) := by
      unfold extendedMenuRows
      cases text with
      | nil => simp
      | cons c s => simp [hid]
    unfold extendedMenuItem
    simp only [hq, Option.bind_eq_bind, Option.some_bind, htypeRead, hflags]
    rw [if_neg hbits]
    simp only [hs, hrows, hn, Option.bind_eq_bind, Option.some_bind, Option.some.injEq,
      Prod.mk.injEq, true_and]
    by_cases hp : wFlags &&& 0x01 ≠ 0
    · rw [if_pos hp, if_pos hp]
    · rw [if_neg hp, if_neg hp]
      rfl
  refine ⟨hstep, ?_, ?_⟩
  · intro dwResourceSize fuel hr
    exact extendedMenuLoop_step lpName mem dwResourceSize fuel p _ _ hr hstep
  · intro next _
    obtain ⟨h1, h2, h3⟩ := alignDword_spec next
    refine ⟨?_, h1, h2, h3⟩
    unfold extendedMenuItem
    rw [alignDword_idem]

/-- Witness of C29: the popup "&File" at cursor 4 ends at cursor 17 and leaves
the cursor at 19; the next item is read at cursor 20. -/
theorem C29_extended_menu_submenu_header_witness :
    extendedMenuItem (.ordinal 1)
        ([1, 4, 0, 0] ++
          (dwordUnits 0 ++ dwordUnits 0 ++ dwordUnits 5 ++ [1] ++ (L "&File" ++ [0]) ++ [0, 0]))
        4
      = some ([⟨L "1", L "5", L "File", L "&File", none⟩], 19) ∧ alignDword 19 = 20 :=
  ⟨((C29_extended_menu_submenu_header (.ordinal 1)
      ([1, 4, 0, 0] ++
        (dwordUnits 0 ++ dwordUnits 0 ++ dwordUnits 5 ++ [1] ++ (L "&File" ++ [0]) ++ [0, 0]))
      4 0 0 5 1 (L "&File") [0, 0] (by decide) (by decide) (by decide)).1).trans (by decide),
   by decide⟩

/-- Claim C30. The offset unit of the extended menu header only decides the
diagnostic: `ProcessExtendedMenuTemplate` always runs its item loop from cursor
4 (byte offset 8) and returns what the loop wrote with, on `err`, the
diagnostic line exactly when the offset unit is not 4; and two resources that
differ only in the offset unit give the same rows, the one call returning
whenever the other does. -/
theorem C30_extended_menu_offset_is_diagnostic_only (lpName : ResourceName)
    (wVersion wOffset wOffset2 : Nat) (rest : List Nat) (dwResourceSize : Nat) :
    ProcessExtendedMenuTemplate lpName (wVersion :: wOffset :: rest) dwResourceSize =
      (extendedMenuLoop lpName (wVersion :: wOffset :: rest) dwResourceSize
          (dwResourceSize + 1) 4).map
        (fun out => ⟨out,
          if wOffset ≠ 4 then [L "EXTENDED OFFSET UNEXPECTED VALUE: " ++ decimal wOffset]
          else []⟩) ∧
    ((if wOffset ≠ 4 then [L "EXTENDED OFFSET UNEXPECTED VALUE: " ++ decimal wOffset]
      else []) ≠ [] ↔ wOffset ≠ 4) ∧
    (ProcessExtendedMenuTemplate lpName (wVersion :: wOffset :: rest) dwResourceSize).map
        Streams.out =
      (ProcessExtendedMenuTemplate lpName (wVersion :: wOffset2 :: rest) dwResourceSize).map
        Streams.out := by
  have hread : ∀ o, readU16 (wVersion :: o :: rest) 1 = some o := fun _ => by simp [readU16]
  have hform : ∀ o, ProcessExtendedMenuTemplate lpName (wVersion :: o :: rest) dwResourceSize =
      (extendedMenuLoop lpName (wVersion :: o :: rest) dwResourceSize
          (dwResourceSize + 1) 4).map
        (fun out => ⟨out,
          if o ≠ 4 then [L "EXTENDED OFFSET UNEXPECTED VALUE: " ++ decimal o] else []⟩) := by
    intro o
    unfold ProcessExtendedMenuTemplate
    simp only [hread, Option.bind_eq_bind, Option.some_bind]
    generalize extendedMenuLoop lpName (wVersion :: o :: rest) dwResourceSize
      (dwResourceSize + 1) 4 = r
    cases r <;> rfl
  refine ⟨hform wOffset, ?_, ?_⟩
  · by_cases h : wOffset ≠ 4
    · simp [h]
    · simp [h]
  · rw [hform wOffset, hform wOffset2,
      extendedMenuLoop_tail lpName wVersion wOffset wVersion wOffset2 rest dwResourceSize
        (dwResourceSize + 1) 4 (by omega)]
    simp only [Option.map_map]
    rfl

/-- Claim C31. For a message entry whose flags are not zero and have neither
the Unicode bit (0x0001) nor the UTF-8 bit (0x0002), the text column is the
placeholder "[[[Unexpected flags value " followed by `HEX(Flags, 4, false, true)`
and "]]]", whatever the length and the payload of the entry; the pass writes
the row of the entry, no diagnostic, and the loop goes on with the next id at
the entry address plus the total length of the entry. -/
theorem C31_unexpected_flags_placeholder (mem : List Nat)
    (dwResourceSize highId fuel ixEntry pEntry flags length : Nat)
    (hflags : MessageTable.readLE16 mem (pEntry + 2) = some flags)
    (hne : flags ≠ 0) (hunicode : flags &&& 0x0001 = 0) (hutf8 : flags &&& 0x0002 = 0)
    (hlen : MessageTable.readLE16 mem pEntry = some length)
    (hin : MessageTable.InAddressRange dwResourceSize pEntry = true)
    (hid : ixEntry ≤ highId) :
    MessageTable.entryText mem pEntry =
      some (.wide (L "[[[Unexpected flags value " ++ MessageTable.HEX flags 4 false true
        ++ L "]]]")) ∧
    MessageTable.entriesLoop mem dwResourceSize highId (fuel + 1) ixEntry pEntry =
      (MessageTable.entriesLoop mem dwResourceSize highId fuel ((ixEntry + 1) % 2 ^ 32)
          (pEntry + length)).map
        (fun r => (⟨ixEntry, L "[[[Unexpected flags value "
          ++ MessageTable.HEX flags 4 false true ++ L "]]]"⟩ :: r.1, r.2)) := by
  have htext : MessageTable.entryText mem pEntry =
      some (.wide (L "[[[Unexpected flags value " ++ MessageTable.HEX flags 4 false true
        ++ L "]]]")) := by
    unfold MessageTable.entryText
    simp only [hflags, MessageTable.MESSAGE_RESOURCE_UNICODE, MessageTable.MESSAGE_RESOURCE_UTF8]
    rw [if_neg (by simp [hunicode]), if_neg (by simp [hutf8]), if_neg hne]
  refine ⟨htext, ?_⟩
  rw [MessageTable.entriesLoop, if_pos hid]
  simp only [hin, if_true, htext, hlen]
  generalize MessageTable.entriesLoop mem dwResourceSize highId fuel ((ixEntry + 1) % 2 ^ 32)
    (pEntry + length) = r
  cases r with
  | none => rfl
  | some r => obtain ⟨rows, e⟩ := r; rfl

/-- Witness of C31: a block of the ids 1 and 2 whose first entry has the flags
4; its row holds the placeholder and the entry of id 2 is decoded after it. -/
theorem C31_unexpected_flags_placeholder_witness :
    MessageTable.entriesLoop
        (MessageTable.le32 1 ++
          (MessageTable.le32 1 ++ MessageTable.le32 2 ++ MessageTable.le32 16) ++
          (MessageTable.le16 6 ++ MessageTable.le16 4 ++ MessageTable.le16 65) ++
          (MessageTable.le16 6 ++ MessageTable.le16 1 ++ MessageTable.le16 66)) 28 2 (2 + 1) 1 16
      = some ([⟨1, L "[[[Unexpected flags value 0x0004]]]"⟩, ⟨2, L "B"⟩], .done) :=
  ((C31_unexpected_flags_placeholder
      (MessageTable.le32 1 ++
        (MessageTable.le32 1 ++ MessageTable.le32 2 ++ MessageTable.le32 16) ++
        (MessageTable.le16 6 ++ MessageTable.le16 4 ++ MessageTable.le16 65) ++
        (MessageTable.le16 6 ++ MessageTable.le16 1 ++ MessageTable.le16 66))
      28 2 2 1 16 4 6 (by decide) (by decide) (by decide) (by decide) (by decide) (by decide)
      (by decide)).2).trans (by decide)

/-- Claim C32. In every row written by the classic dialog, extended dialog,
classic menu and extended menu decoders, the caption rows included, the
cleaned column is `RemoveAccelsFromText` of the raw column of the same row. -/
theorem C32_cleaned_is_stripped_raw (lpName : ResourceName) (mem : List Nat)
    (dwResourceSize : Nat) :
    (∀ rows, ProcessStandardDialogTemplate lpName mem = some rows →
      ∀ r ∈ rows, r.cleaned = RemoveAccelsFromText r.raw) ∧
    (∀ rows, ProcessExtendedDialogTemplate lpName mem = some rows →
      ∀ r ∈ rows, r.cleaned = RemoveAccelsFromText r.raw) ∧
    (∀ s, ProcessStandardMenuTemplate lpName mem dwResourceSize = some s →
      ∀ r ∈ s.out, r.cleaned = RemoveAccelsFromText r.raw) ∧
    (∀ s, ProcessExtendedMenuTemplate lpName mem dwResourceSize = some s →
      ∀ r ∈ s.out, r.cleaned = RemoveAccelsFromText r.raw) := by
  refine ⟨fun rows h => ?_, fun rows h => ?_, fun s h => ?_, fun s h => ?_⟩
  · unfold ProcessStandardDialogTemplate at h
    simp only [Option.bind_eq_bind, Option.bind_eq_some, Option.some.injEq] at h
    obtain ⟨n, _, pClass, _, pTitle, _, caption, hcap, pAfter, _, style, _, h⟩ := h
    have hitems : ∃ pItems items, standardDialogItems lpName mem n pItems = some items ∧
        caption ++ items = rows := by
      split_ifs at h
      all_goals
        simp only [Option.bind_eq_bind, Option.bind_eq_some, Option.some.injEq] at h
      · obtain ⟨pItems, _, items, hitems, rfl⟩ := h
        exact ⟨pItems, items, hitems, rfl⟩
      · obtain ⟨pItems, _, items, hitems, rfl⟩ := h
        exact ⟨pItems, items, hitems, rfl⟩
    obtain ⟨pItems, items, hitems, rfl⟩ := hitems
    intro r hr
    rcases List.mem_append.mp hr with h1 | h1
    · exact captionRows_rows lpName mem pTitle caption hcap r h1
    · exact standardDialogItems_rows lpName mem n pItems items hitems r h1
  · unfold ProcessExtendedDialogTemplate at h
    simp only [Option.bind_eq_bind, Option.bind_eq_some, Option.some.injEq] at h
    obtain ⟨n, _, pClass, _, pTitle, _, caption, hcap, pAfter, _, style, _, h⟩ := h
    have hitems : ∃ pItems items, extendedDialogItems lpName mem n pItems = some items ∧
        caption ++ items = rows := by
      split_ifs at h
      all_goals
        simp only [Option.bind_eq_bind, Option.bind_eq_some, Option.some.injEq] at h
      · obtain ⟨pItems, _, items, hitems, rfl⟩ := h
        exact ⟨pItems, items, hitems, rfl⟩
      · obtain ⟨pItems, _, items, hitems, rfl⟩ := h
        exact ⟨pItems, items, hitems, rfl⟩
    obtain ⟨pItems, items, hitems, rfl⟩ := hitems
    intro r hr
    rcases List.mem_append.mp hr with h1 | h1
    · exact captionRows_rows lpName mem pTitle caption hcap r h1
    · exact extendedDialogItems_rows lpName mem n pItems items hitems r h1
  · unfold ProcessStandardMenuTemplate at h
    simp only [Option.bind_eq_bind, Option.bind_eq_some, Option.some.injEq] at h
    obtain ⟨cb, _, out, hout, rfl⟩ := h
    exact standardMenuLoop_rows lpName mem dwResourceSize _ 2 out hout
  · unfold ProcessExtendedMenuTemplate at h
    simp only [Option.bind_eq_bind, Option.bind_eq_some, Option.some.injEq] at h
    obtain ⟨off, _, out, hout, rfl⟩ := h
    exact extendedMenuLoop_rows lpName mem dwResourceSize _ 4 out hout

/-- Witness of C32: the rows of the sample classic dialog, of the sample
extended dialog and of a classic and an extended menu. -/
theorem C32_cleaned_is_stripped_raw_witness :
    (∀ r ∈ [(⟨L "1", L "[Caption]", L "Hi", L "Hi", some (L "[Dialog]")⟩ : TextRecord),
            ⟨L "1", L "1", L "OK", L "&OK", some (L "Button")⟩],
      r.cleaned = RemoveAccelsFromText r.raw) ∧
    (∀ r ∈ [(⟨L "1", L "[Caption]", L "Hi", L "Hi", some (L "[Dialog]")⟩ : TextRecord),
            ⟨L "1", L "1", L "OK", L "&OK", some (L "Button")⟩],
      r.cleaned = RemoveAccelsFromText r.raw) ∧
    (∀ r ∈ [(⟨L "1", L "n/a", L "A", L "&A", none⟩ : TextRecord)],
      r.cleaned = RemoveAccelsFromText r.raw) ∧
    (∀ r ∈ [(⟨L "1", L "5", L "A", L "&A", none⟩ : TextRecord)],
      r.cleaned = RemoveAccelsFromText r.raw) :=
  ⟨(C32_cleaned_is_stripped_raw (.ordinal 1) sampleDialog.units 0).1 _ (by decide),
   (C32_cleaned_is_stripped_raw (.ordinal 1) sampleDialogEx 0).2.1 _ (by decide),
   (C32_cleaned_is_stripped_raw (.ordinal 1) [0, 0, 0x10, 38, 65, 0] 12).2.2.1
     ⟨[⟨L "1", L "n/a", L "A", L "&A", none⟩], []⟩ (by decide),
   (C32_cleaned_is_stripped_raw (.ordinal 1)
     [1, 4, 0, 0, 0, 0, 0, 0, 5, 0, 0, 38, 65, 0] 28).2.2.2
     ⟨[⟨L "1", L "5", L "A", L "&A", none⟩], []⟩ (by decide)⟩

/-- Claim C33. In the result of `RemoveAccelsFromText`, for every input, every
maximal run of `&` (a run of `n` units `&` that is not preceded and not
followed by a `&`) has an even length; so the result has no part of the form
"(&X)" with `X` in A-Z or 0-9. -/
theorem C33_no_unescaped_ampersand (s : WStr) :
    (∀ (pre : WStr) (n : Nat) (post : WStr),
      RemoveAccelsFromText s = pre ++ List.replicate n 38 ++ post →
      pre.getLast? ≠ some 38 → post.head? ≠ some 38 → Even n) ∧
    (∀ (pre : WStr) (x : Nat) (post : WStr), isAccelChar x = true →
      RemoveAccelsFromText s ≠ pre ++ [40, 38, x, 41] ++ post) := by
  have hruns := paired_run (RemoveAccelsFromText s) (RemoveAccelsFromText_paired s)
  refine ⟨hruns, fun pre x post hx h => ?_⟩
  have hx38 : x ≠ 38 := by
    intro e
    rw [e] at hx
    exact absurd hx (by decide)
  have h1 := hruns (pre ++ [40]) 1 (x :: 41 :: post) (by rw [h]; simp) (by simp)
    (by simp [hx38])
  exact absurd h1 (by decide)

/-- Witness of C33: "A&&B&C" gives "A&&BC", whose only run of `&` has 2 units. -/
theorem C33_no_unescaped_ampersand_witness :
    RemoveAccelsFromText (L "A&&B&C") = L "A" ++ List.replicate 2 38 ++ L "BC" ∧ Even 2 :=
  ⟨by decide,
   (C33_no_unescaped_ampersand (L "A&&B&C")).1 (L "A") 2 (L "BC") (by decide) (by decide)
     (by decide)⟩

/-- Claim C34. The text of the three units tilde, backtick, tilde holds no `&`
and `RemoveAccelsFromText` turns it into "&&"; more generally a text without
`&` in which that sequence occurs is changed, a "&&" being written in its
result; and a text that holds neither a `&` nor that sequence is returned as
it is. -/
theorem C34_placeholder_collision :
    sTempReplacement = [126, 96, 126] ∧ 38 ∉ sTempReplacement ∧
    RemoveAccelsFromText sTempReplacement = [38, 38] ∧
    (∀ s : WStr, 38 ∉ s → sTempReplacement <:+: s →
      (∃ a b, RemoveAccelsFromText s = a ++ [38, 38] ++ b) ∧ RemoveAccelsFromText s ≠ s) ∧
    (∀ s : WStr, 38 ∉ s → ¬ sTempReplacement <:+: s → RemoveAccelsFromText s = s) := by
  refine ⟨rfl, by decide, by decide, fun s hs hin => ?_, fun s hs hin => ?_⟩
  · rw [RemoveAccelsFromText_no_amp s hs]
    obtain ⟨a, b, hab⟩ := replaceStringAll_infix [126, 96, 126] [38, 38] (by simp) s hin
    refine ⟨⟨a, b, hab⟩, fun h => ?_⟩
    rw [h] at hab
    exact hs (by rw [hab]; simp)
  · rw [RemoveAccelsFromText_no_amp s hs]
    exact replaceStringAll_no_infix _ _ s hin

/-- Witness of C34: "a~" followed by backtick, "~b" becomes "a&&b", and "a~b"
is returned as it is. -/
theorem C34_placeholder_collision_witness :
    RemoveAccelsFromText [97, 126, 96, 126, 98] ≠ [97, 126, 96, 126, 98] ∧
    RemoveAccelsFromText [97, 126, 98] = [97, 126, 98] :=
  ⟨(C34_placeholder_collision.2.2.2.1 [97, 126, 96, 126, 98] (by decide) (by decide)).2,
   C34_placeholder_collision.2.2.2.2 [97, 126, 98] (by decide) (by decide)⟩

/-- Claim C35. In the loop of `ProcessExtendedMenuTemplate` the cursor is a
`uint16_t*` at a whole number `p` of units from the 4-byte-aligned resource
start, so its byte offset `2 * p` is even; the alignment loop stops after no
or one increment (0 or 2 bytes) at `alignDword p`; and whenever the loop test
holds (byte offset + 2 below the declared length) the byte offset of the item
start after the alignment is still below the declared length. -/
theorem C35_alignment_stays_in_range (base p fuel dwResourceSize : Nat)
    (hbase : base % 4 = 0) (htest : InAddressRange dwResourceSize (p + 1) = true) :
    (2 * p) % 2 = 0 ∧
    alignLoop (fuel + 1) (base + 2 * p) = base + 2 * alignDword p ∧
    (alignDword p = p ∨ alignDword p = p + 1) ∧
    2 * alignDword p < dwResourceSize ∧
    InAddressRange dwResourceSize (alignDword p) = true := by
  have hlt : 2 * (p + 1) < dwResourceSize := by
    unfold InAddressRange at htest
    exact of_decide_eq_true htest
  have hal : alignDword p = p ∨ alignDword p = p + 1 := by
    unfold alignDword
    by_cases h : (2 * p) % 4 = 0
    · left; rw [if_pos h]
    · right; rw [if_neg h]
  refine ⟨by omega, alignLoop_eq base p fuel hbase, hal, ?_, ?_⟩
  · rcases hal with h | h <;> rw [h] <;> omega
  · unfold InAddressRange
    apply decide_eq_true
    rcases hal with h | h <;> rw [h] <;> omega

/-- Witness of C35: at cursor 13 (byte offset 26) of a resource of 29 bytes
the loop test holds, and the aligned item start, byte offset 28, is inside. -/
theorem C35_alignment_stays_in_range_witness :
    alignLoop (1 + 1) (0x2000 + 2 * 13) = 0x2000 + 2 * alignDword 13 ∧
    2 * alignDword 13 < 29 :=
  ⟨(C35_alignment_stays_in_range 0x2000 13 1 29 (by decide) (by decide)).2.1,
   (C35_alignment_stays_in_range 0x2000 13 1 29 (by decide) (by decide)).2.2.2.1⟩

/-- Claim C36. The id column of a row is: for the classic dialog decoder the
unsigned decimal of the 16-bit id unit of the control; for the classic menu
decoder "n/a" for a popup and otherwise the unsigned decimal of the 16-bit id
unit; for the extended dialog decoder and the extended menu decoder the signed
decimal of the 32-bit id. The signed decimal of a 32-bit value below `2 ^ 31`
is its decimal, and that of a value `n` from `2 ^ 31` on is a minus sign
followed by the decimal of `2 ^ 32 - n`; the id 0xFFFF is written 65535 and
the id 0xFFFFFFFF is written -1. -/
theorem C36_id_rendering (lpName : ResourceName) (mem : List Nat) (p : Nat) :
    (∀ rows q, standardDialogItem lpName mem p = some (rows, q) →
      ∀ r ∈ rows, (readU16 mem (alignDword p + 8)).map decimal = some r.itemId) ∧
    (∀ rows q, standardMenuItem lpName mem p = some (rows, q) →
      ∀ r ∈ rows, ∃ wFlags, readU16 mem p = some wFlags ∧
        if wFlags &&& 0x10 ≠ 0 then r.itemId = L "n/a"
        else (readU16 mem (p + 1)).map decimal = some r.itemId) ∧
    (∀ rows q, extendedDialogItem lpName mem p = some (rows, q) →
      ∀ r ∈ rows, (readU32 mem (alignDword p + 10)).map decimalSigned32 = some r.itemId) ∧
    (∀ rows q, extendedMenuItem lpName mem p = some (rows, q) →
      ∀ r ∈ rows, (readU32 mem (alignDword p + 4)).map decimalSigned32 = some r.itemId) ∧
    (∀ n, n < 2 ^ 31 → decimalSigned32 n = decimal n) ∧
    (∀ n, 2 ^ 31 ≤ n → decimalSigned32 n = 45 :: decimal (2 ^ 32 - n)) ∧
    decimal 0xFFFF = L "65535" ∧ decimalSigned32 0xFFFFFFFF = L "-1" := by
  refine ⟨fun rows q h r hr => (standardDialogItem_rows lpName mem p rows q h r hr).2,
    fun rows q h r hr => (standardMenuItem_rows lpName mem p rows q h r hr).2,
    fun rows q h r hr => (extendedDialogItem_rows lpName mem p rows q h r hr).2,
    fun rows q h r hr => (extendedMenuItem_rows lpName mem p rows q h r hr).2,
    fun n hn => ?_, fun n hn => ?_, by decide, by decide⟩
  · unfold decimalSigned32
    rw [if_pos hn]
  · unfold decimalSigned32
    rw [if_neg (by omega)]

/-- Witness of C36: a classic control with the id unit 0xFFFF has the id column
65535, and an extended menu item with the id 0xFFFFFFFF has the id column -1. -/
theorem C36_id_rendering_witness :
    (readU16 [0, 0x5000, 0, 0, 7, 7, 50, 14, 0xFFFF, 0xFFFF, 0x82, 65, 0, 0]
        (alignDword 0 + 8)).map decimal = some (L "65535") ∧
    (readU32 [0, 0, 0, 0, 0xFFFF, 0xFFFF, 0, 65, 0] (alignDword 0 + 4)).map decimalSigned32
      = some (L "-1") :=
  ⟨(C36_id_rendering (.ordinal 1)
      [0, 0x5000, 0, 0, 7, 7, 50, 14, 0xFFFF, 0xFFFF, 0x82, 65, 0, 0] 0).1
      [⟨L "1", L "65535", L "A", L "A", some (L "Static")⟩] 14 (by decide)
      ⟨L "1", L "65535", L "A", L "A", some (L "Static")⟩ (List.mem_singleton.mpr rfl),
   (C36_id_rendering (.ordinal 1) [0, 0, 0, 0, 0xFFFF, 0xFFFF, 0, 65, 0] 0).2.2.2.1
      [⟨L "1", L "-1", L "A", L "A", none⟩] 9 (by decide)
      ⟨L "1", L "-1", L "A", L "A", none⟩ (List.mem_singleton.mpr rfl)⟩

/-- Claim C37. On a resource that is exactly the units of a well-formed
classic dialog template, or of a well-formed extended dialog template in the
layout of the decoder (each control on a 4-byte boundary, the count of its
creation data even), with nothing after the last control, the dialog decoders
return their rows: a read outside the resource would leave the result
undefined, so every read they make is inside the resource. -/
theorem C37_dialog_decoders_stay_inside (lpName : ResourceName) :
    (∀ t : DlgTemplate, t.WF →
      ProcessStandardDialogTemplate lpName t.units =
        some (captionRowOf lpName t.caption ++
          t.items.flatMap fun it => itemRowOf lpName (decimal it.id) it)) ∧
    (∀ t : DlgTemplateEx, t.WF →
      ProcessExtendedDialogTemplate lpName t.units =
        some (captionRowOf lpName t.caption ++
          t.items.flatMap fun it => itemRowOf lpName (decimalSigned32 it.id) it)) := by
  constructor
  · intro t hwf
    have h := ProcessStandardDialogTemplate_layout lpName t [] hwf
    rwa [List.append_nil] at h
  · intro t hwf
    have h := ProcessExtendedDialogTemplate_layout lpName t [] hwf
    rwa [List.append_nil] at h

/-- Witness of C37: the sample classic dialog and the sample extended dialog,
each decoded from its own units and nothing more. -/
theorem C37_dialog_decoders_stay_inside_witness :
    ProcessStandardDialogTemplate (.ordinal 1) sampleDialog.units
      = some [⟨L "1", L "[Caption]", L "Hi", L "Hi", some (L "[Dialog]")⟩,
              ⟨L "1", L "1", L "OK", L "&OK", some (L "Button")⟩] ∧
    ProcessExtendedDialogTemplate (.ordinal 1) sampleTemplateEx.units
      = some [⟨L "1", L "[Caption]", L "Hi", L "Hi", some (L "[Dialog]")⟩,
              ⟨L "1", L "1", L "OK", L "&OK", some (L "Button")⟩] :=
  ⟨((C37_dialog_decoders_stay_inside (.ordinal 1)).1 sampleDialog (by decide)).trans
      (by decide),
   ((C37_dialog_decoders_stay_inside (.ordinal 1)).2 sampleTemplateEx (by decide)).trans
      (by decide)⟩

/-- Claim C38, as amended. The payload length of a message entry is computed
in `size_t` (64 bits): for a total length `L` of 4 or more it is `L - 4` bytes,
and `(L - 4) / 2` characters for a Unicode entry; for `L` below 4 the
subtraction wraps, the count is `2 ^ 64 + L - 4` bytes (half of it for a
Unicode entry) and not 0. The count is `(L + 2 ^ 64 - 4) mod 2 ^ 64` in every
case, and for any width `w` of two bits or more the value of
`(L + 2 ^ w - 4) mod 2 ^ w` for `L` below 4 is `2 ^ w + L - 4`. The address of
the element the loop that trims the trailing NULs inspects first wraps as
well: in the branch of flags 0 it is the byte at offset `L - 1` of the entry,
in the Unicode branch the unit at offset `2 * (L / 2) - 2` of the entry, that
is inside the header of the entry or just before the entry. When the loop
ends in a resource of fewer than `2 ^ 32` bytes, the count left asks for
`2 ^ 63` bytes or more and the constructor of the string throws:
`std::length_error` in the branch of flags 0, `std::length_error` or
`std::bad_alloc` in the Unicode branch. -/
theorem C38_payload_length_wraps :
    (∀ L, 4 ≤ L → MessageTable.payloadBytes L = L - 4 ∧
      MessageTable.payloadBytes L / 2 = (L - 4) / 2) ∧
    (∀ L, L < 4 → MessageTable.payloadBytes L = 2 ^ 64 + L - 4 ∧
      MessageTable.payloadBytes L / 2 = (2 ^ 64 + L - 4) / 2 ∧
      MessageTable.payloadBytes L ≠ 0 ∧ MessageTable.payloadBytes L / 2 ≠ 0) ∧
    (∀ L, L < 2 ^ 64 → MessageTable.payloadBytes L = (L + 2 ^ 64 - 4) % 2 ^ 64) ∧
    (∀ w L, 2 ≤ w → L < 4 → (L + 2 ^ w - 4) % 2 ^ w = 2 ^ w + L - 4) ∧
    (∀ (mem : List Nat) (p L : Nat), L < 4 → mem.length ≤ 2 ^ 64 → 1 ≤ p + L →
      MessageTable.trimTrailingNul (fun i => MessageTable.readByteAt mem (p + 4 + i))
          (MessageTable.payloadBytes L) =
        (MessageTable.readByte mem (p + L - 1)).bind (fun c =>
          if c = 0 then
            MessageTable.trimTrailingNul (fun i => MessageTable.readByteAt mem (p + 4 + i))
              (MessageTable.payloadBytes L - 1)
          else some (MessageTable.payloadBytes L))) ∧
    (∀ (mem : List Nat) (p L : Nat), L < 4 → mem.length ≤ 2 ^ 64 → 2 ≤ p + 2 * (L / 2) →
      MessageTable.trimTrailingNul (fun i => MessageTable.readLE16At mem (p + 4 + 2 * i))
          (MessageTable.payloadBytes L / 2) =
        (MessageTable.readLE16 mem (p + 2 * (L / 2) - 2)).bind (fun c =>
          if c = 0 then
            MessageTable.trimTrailingNul (fun i => MessageTable.readLE16At mem (p + 4 + 2 * i))
              (MessageTable.payloadBytes L / 2 - 1)
          else some (MessageTable.payloadBytes L / 2))) ∧
    (∀ (mem : List Nat) (p L n : Nat), L < 4 → MessageTable.readLE16 mem p = some L →
      mem.length < 2 ^ 32 →
      MessageTable.trimTrailingNul (fun i => MessageTable.readByteAt mem (p + 4 + i))
          (MessageTable.payloadBytes L) = some n →
      2 ^ 63 ≤ n ∧ MessageTable.ansiEntryString mem p = some .lengthError) ∧
    (∀ (mem : List Nat) (p L n : Nat), L < 4 → MessageTable.readLE16 mem p = some L →
      mem.length < 2 ^ 32 →
      MessageTable.trimTrailingNul (fun i => MessageTable.readLE16At mem (p + 4 + 2 * i))
          (MessageTable.payloadBytes L / 2) = some n →
      2 ^ 63 ≤ 2 * n ∧
        (MessageTable.unicodeEntryString mem p = some .lengthError ∨
          MessageTable.unicodeEntryString mem p = some .badAlloc)) := by
  refine ⟨fun L h4 => ?_, fun L hL => ?_, fun L hL => MessageTable.payloadBytes_mod L hL,
    fun w L hw hL => ?_, fun mem p L hL hmem hp => ?_, fun mem p L hL hmem hp => ?_,
    fun mem p L n hL hlen hmem hn => MessageTable.ansiEntryString_short mem p L n hL hlen hmem hn,
    fun mem p L n hL hlen hmem hn =>
      MessageTable.unicodeEntryString_short mem p L n hL hlen hmem hn⟩
  · rw [MessageTable.payloadBytes_eq L h4]
    exact ⟨rfl, rfl⟩
  · rw [MessageTable.payloadBytes_wrap L hL]
    refine ⟨rfl, rfl, by omega, by omega⟩
  · have hpow : 4 ≤ 2 ^ w := by
      calc 4 = 2 ^ 2 := by norm_num
        _ ≤ 2 ^ w := Nat.pow_le_pow_right (by norm_num) hw
    have e : L + 2 ^ w - 4 = 2 ^ w + L - 4 := by omega
    rw [e]
    exact Nat.mod_eq_of_lt (by omega)
  · have hb := MessageTable.payloadBytes_wrap L hL
    rw [MessageTable.trimTrailingNul_first _ (MessageTable.payloadBytes L)
      (MessageTable.payloadBytes L - 1) (by omega)]
    have hx : p + 4 + (MessageTable.payloadBytes L - 1) = 2 ^ 64 + (p + L - 1) := by omega
    simp only [hx, MessageTable.readByteAt_wrap mem (p + L - 1) hmem]
  · have hb := MessageTable.payloadBytes_wrap L hL
    rw [MessageTable.trimTrailingNul_first _ (MessageTable.payloadBytes L / 2)
      (MessageTable.payloadBytes L / 2 - 1) (by omega)]
    have hx : p + 4 + 2 * (MessageTable.payloadBytes L / 2 - 1)
        = 2 ^ 64 + (p + 2 * (L / 2) - 2) := by omega
    simp only [hx, MessageTable.readLE16At_wrap mem (p + 2 * (L / 2) - 2) hmem]

/-- Witness of C38 (amended): the total length 10 gives 6 payload bytes and the
total length 3 gives `2 ^ 64 - 1`; in the table of one entry of total length 3
and flags 0 at offset 16 the scan ends and the constructor of the narrow
string throws `std::length_error`. -/
theorem C38_payload_length_wraps_witness :
    MessageTable.payloadBytes 10 = 10 - 4 ∧
    MessageTable.payloadBytes 3 = 2 ^ 64 + 3 - 4 ∧
    MessageTable.ansiEntryString
        (MessageTable.le32 1 ++
          (MessageTable.le32 1 ++ MessageTable.le32 1 ++ MessageTable.le32 16) ++
          (MessageTable.le16 3 ++ MessageTable.le16 0)) 16 = some .lengthError :=
  ⟨(C38_payload_length_wraps.1 10 (by decide)).1,
   (C38_payload_length_wraps.2.1 3 (by decide)).1,
   (C38_payload_length_wraps.2.2.2.2.2.2.1
      (MessageTable.le32 1 ++
        (MessageTable.le32 1 ++ MessageTable.le32 1 ++ MessageTable.le32 16) ++
        (MessageTable.le16 3 ++ MessageTable.le16 0)) 16 3 (2 ^ 64 - 3)
      (by decide) (by decide) (by norm_num [MessageTable.le32, MessageTable.le16])
      (by decide)).2⟩

/-- Counterexample to C38 as stated: in the table of one block whose entry, at
offset 16 of a resource of 20 bytes, has the total length 3 and the flags 0,
the count is `2 ^ 64 - 1` and the loop that trims the trailing NULs does not
start far beyond the entry: the element it inspects first is the byte at
offset 18, the low byte of the flags of the entry; it goes on over the bytes
at 17 and 16 and ends with the count `2 ^ 64 - 3`, all inside the resource.
The constructor of the string then throws `std::length_error`, which leaves
the callback. -/
theorem C38_scan_starts_inside_the_entry :
    MessageTable.payloadBytes 3 = 2 ^ 64 - 1 ∧
    MessageTable.wrap64 (16 + 4 + (MessageTable.payloadBytes 3 - 1)) = 18 ∧
    MessageTable.trimTrailingNul
        (fun i => MessageTable.readByteAt
          (MessageTable.le32 1 ++
            (MessageTable.le32 1 ++ MessageTable.le32 1 ++ MessageTable.le32 16) ++
            (MessageTable.le16 3 ++ MessageTable.le16 0)) (16 + 4 + i))
        (MessageTable.payloadBytes 3) = some (2 ^ 64 - 3) ∧
    MessageTable.entryText
        (MessageTable.le32 1 ++
          (MessageTable.le32 1 ++ MessageTable.le32 1 ++ MessageTable.le32 16) ++
          (MessageTable.le16 3 ++ MessageTable.le16 0)) 16 = some .lengthError ∧
    MessageTable.EnumMessageTableCallbackProc
        (MessageTable.le32 1 ++
          (MessageTable.le32 1 ++ MessageTable.le32 1 ++ MessageTable.le32 16) ++
          (MessageTable.le16 3 ++ MessageTable.le16 0)) 20 8
      = some ⟨[], [], .threw 1⟩ := by
  decide

/-- Claim C39. For every list of arguments: when none of -s, -d, -m, -n stands
alone in it (an argument after -o or -l is the value of that option), the
arguments are rejected by a call of `Usage`, which is the one with "Option not
specified." when the loop over the arguments ends; when the arguments are
accepted, the option used is the mode named by the last of the stand-alone
-s, -d, -m, -n; and giving one more of them is no error: the arguments that
were accepted are accepted, with the same result, when one of -s, -d, -m, -n
is put in front of them. -/
theorem C39_mode_is_the_last_one_named (args : List WStr) :
    (standaloneModes args = [] →
      (∃ e, wmainArguments args = .usage e) ∧
      ∀ c, wmainLoop args ⟨.eNotSet, false, [], [], []⟩ = .parsed c →
        wmainArguments args = .usage (some (L "Option not specified."))) ∧
    (∀ c, wmainArguments args = .parsed c →
      (standaloneModes args).getLast? = some c.option ∧ c.option ≠ .eNotSet) ∧
    (∀ (c : CommandLine) (arg : WStr) (m : option_t), modeOf arg = some m →
      wmainArguments args = .parsed c → wmainArguments (arg :: args) = .parsed c) := by
  have hlast : ∀ c, wmainArguments args = .parsed c →
      (standaloneModes args).getLast? = some c.option ∧ c.option ≠ .eNotSet := by
    intro c h
    obtain ⟨hloop, ho, _⟩ := wmainArguments_parsed args c h
    have e := wmainLoop_last args c hloop
    refine ⟨?_, ho⟩
    cases hl : (standaloneModes args).getLast? with
    | none => rw [hl] at e; exact absurd e ho
    | some x => rw [hl] at e; rw [e]; rfl
  refine ⟨fun hnone => ?_, hlast, fun c arg m hm h => ?_⟩
  · have hparsed : ∀ c, wmainLoop args ⟨.eNotSet, false, [], [], []⟩ = .parsed c →
        wmainArguments args = .usage (some (L "Option not specified.")) := by
      intro c hloop
      have e : c.option = .eNotSet := by
        have e := wmainLoop_last args c hloop
        rw [hnone] at e
        exact e
      unfold wmainArguments
      rw [hloop]
      simp only
      rw [if_pos e]
    refine ⟨?_, hparsed⟩
    cases hloop : wmainLoop args ⟨.eNotSet, false, [], [], []⟩ with
    | usage e =>
      refine ⟨e, ?_⟩
      unfold wmainArguments
      rw [hloop]
    | parsed c => exact ⟨_, hparsed c hloop⟩
  · obtain ⟨hloop, ho, hr⟩ := wmainArguments_parsed args c h
    obtain ⟨hl, _⟩ := hlast c h
    have e := wmainLoop_option args.length args ⟨.eNotSet, false, [], [], []⟩ m (Nat.le_refl _)
    rw [hloop] at e
    simp only [ArgResult.withLastMode, hl, Option.getD_some] at e
    unfold wmainArguments
    rw [wmainLoop_mode arg args _ m hm, e]
    simp only
    rw [if_neg ho, if_neg hr]

/-- Witness of C39: "-o -s file" names no mode, the -s being the output file,
and is rejected; "-s -o out -d file" is accepted with the dialog mode; so is
"-m -s -o out -d file". -/
theorem C39_mode_is_the_last_one_named_witness :
    wmainArguments [L "-o", L "-s", L "file"] = .usage (some (L "Option not specified.")) ∧
    (standaloneModes [L "-s", L "-o", L "out", L "-d", L "file"]).getLast?
      = some option_t.eDialog ∧
    wmainArguments [L "-m", L "-s", L "-o", L "out", L "-d", L "file"]
      = .parsed ⟨.eDialog, true, L "out", L "file", []⟩ :=
  ⟨((C39_mode_is_the_last_one_named [L "-o", L "-s", L "file"]).1 (by decide)).2
      ⟨.eNotSet, true, L "-s", L "file", []⟩ (by decide),
   ((C39_mode_is_the_last_one_named [L "-s", L "-o", L "out", L "-d", L "file"]).2.1
      ⟨.eDialog, true, L "out", L "file", []⟩ (by decide)).1,
   (C39_mode_is_the_last_one_named [L "-s", L "-o", L "out", L "-d", L "file"]).2.2
      ⟨.eDialog, true, L "out", L "file", []⟩ (L "-m") .eMessageTable (by decide) (by decide)⟩

end GetLocalizedResources
